import Mathlib

/-!
Verification development for the OpenAPI editor core
(`src/lib/openapi/types.ts`, `src/lib/openapi/store.ts`,
`src/lib/openapi/serializer.ts`, `src/lib/storage/serializer.ts`,
and the validator module).

Modelling conventions:
* JavaScript `Map` objects are modelled as insertion-ordered association
  lists with JS `Map` semantics (`set` updates in place, `delete` removes
  the entry, `get` returns the first match).
* Identifiers (`crypto.randomUUID`) are modelled by a `Nat` counter that
  is threaded explicitly through every function that calls `generateId`.
* Already-decoded YAML/JSON values are modelled by the `Json` inductive;
  `YAML.parse`/`YAML.stringify` are treated as a faithful bijection
  between text and such values, so the importer and exporter are
  modelled at the value level.
* JS truthiness is modelled by `jsTruthy`; optional TS fields are
  `Option`s with `none` for `undefined`.
* `Date.now()` timestamps are modelled by the constant `0`; no claim
  depends on wall-clock values.
-/

/-- A decoded YAML/JSON value (the result of `YAML.parse`).  Numbers are
modelled as integers, which covers every numeric literal appearing in the
claims (`2.0` decodes to the float `2`, modelled as the integer `2`). -/
inductive Json where
  | null
  | bool (b : Bool)
  | num (n : Int)
  | str (s : String)
  | arr (elems : List Json)
  | obj (fields : List (String × Json))

/-- JS truthiness of a decoded value: `null`, `false`, `0` and `""` are
falsy, every array and object is truthy. -/
def jsTruthy : Json → Bool
  | .null => false
  | .bool b => b
  | .num n => n ≠ 0
  | .str s => s ≠ ""
  | .arr _ => true
  | .obj _ => true

/-- Field access on a decoded value: `v[k]` is `undefined` (`none`)
unless `v` is an object with field `k`. -/
def Json.getField? : Json → String → Option Json
  | .obj fields, k => lookupField fields k
  | _, _ => none
where lookupField : List (String × Json) → String → Option Json
  | [], _ => none
  | (k', v) :: tl, k => if k' = k then some v else lookupField tl k

/-- A field read through a JS truthiness test (`if (x.f) … use x.f`). -/
def Json.truthyField? (j : Json) (k : String) : Option Json :=
  match j.getField? k with
  | some v => if jsTruthy v then some v else none
  | none => none

def Json.asStr? : Json → Option String
  | .str s => some s
  | _ => none

def Json.asInt? : Json → Option Int
  | .num n => some n
  | _ => none

def Json.asStrList? : Json → Option (List String)
  | .arr elems => collect elems
  | _ => none
where collect : List Json → Option (List String)
  | [] => some []
  | .str s :: tl => (collect tl).map (s :: ·)
  | _ => none

def Json.asFields? : Json → Option (List (String × Json))
  | .obj fields => some fields
  | _ => none

def Json.asArr? : Json → Option (List Json)
  | .arr elems => some elems
  | _ => none

/-- `x.f as string | undefined`: the TS cast keeps the value; the
embedding covers field values of the TS-declared shape (a string), and
maps any other shape to `undefined`. -/
def Json.strField? (j : Json) (k : String) : Option String :=
  (j.getField? k).bind Json.asStr?

/-- `if (x.f) y = x.f as string` — a truthiness-guarded string field. -/
def Json.truthyStrField? (j : Json) (k : String) : Option String :=
  (j.truthyField? k).bind Json.asStr?

/-- `if (x.f !== undefined) y = x.f as number`. -/
def Json.numField? (j : Json) (k : String) : Option Int :=
  (j.getField? k).bind Json.asInt?

-- ---------------------------------------------------------------------
-- JS `Map` semantics over insertion-ordered association lists
-- ---------------------------------------------------------------------

/-- `Map.get(k)`. -/
def mapGet? {K V : Type} [DecidableEq K] : List (K × V) → K → Option V
  | [], _ => none
  | (k', v) :: tl, k => if k' = k then some v else mapGet? tl k

/-- `Map.set(k, v)`: updates the existing entry in place (preserving its
position) or appends a new one. -/
def mapSet {K V : Type} [DecidableEq K] : List (K × V) → K → V → List (K × V)
  | [], k, v => [(k, v)]
  | (k', v') :: tl, k, v =>
      if k' = k then (k, v) :: tl else (k', v') :: mapSet tl k v

/-- `Map.delete(k)`: removes the entry with key `k` (keys are unique in a
JS `Map`, so removing the first occurrence is faithful). -/
def mapDelete {K V : Type} [DecidableEq K] : List (K × V) → K → List (K × V)
  | [], _ => []
  | (k', v') :: tl, k => if k' = k then tl else (k', v') :: mapDelete tl k

-- ---------------------------------------------------------------------
-- Core type definitions (src/lib/openapi/types.ts)
-- ---------------------------------------------------------------------

/-- `NodeId` (`crypto.randomUUID()` strings) modelled as naturals drawn
from a counter. -/
abbrev NodeId := Nat

/-- HTTP methods and schema type tags are string literals in the source
(`'get' | 'post' | …`, `'object' | 'array' | …`); they are modelled as
strings so that the string comparisons in the source carry over
verbatim. -/
abbrev HttpMethod := String

abbrev SchemaType := String

structure Discriminator where
  propertyName : Option String
  mapping : Option (List (String × String))
  deriving DecidableEq

/-- The non-recursive fields of `SchemaNode`, grouped so that the
partial-update semantics of `updateSchema` can reuse structure-update
syntax; `SchemaNode` itself adds the three recursive payload fields. -/
structure SchemaCore where
  id : NodeId
  name : Option String
  type : SchemaType
  description : Option String
  enumValues : Option (List String)
  required : Option (List String)
  format : Option String
  «example» : Option Json
  default : Option Json
  minimum : Option Int
  maximum : Option Int
  minLength : Option Int
  maxLength : Option Int
  pattern : Option String
  discriminator : Option Discriminator

mutual
/-- References are typed edges, not strings. -/
inductive SchemaOrRef where
  | ref (targetId : NodeId)
  | inline (schema : SchemaNode)

inductive PropertyDef where
  | mk (name : String) (schema : SchemaOrRef) (required : Bool)
       (description : Option String)

inductive SchemaNode where
  | mk (core : SchemaCore)
       (properties : Option (List (String × PropertyDef)))
       (items : Option SchemaOrRef)
       (variants : Option (List SchemaOrRef))
end

def SchemaNode.core : SchemaNode → SchemaCore
  | .mk c _ _ _ => c

def SchemaNode.properties : SchemaNode → Option (List (String × PropertyDef))
  | .mk _ p _ _ => p

def SchemaNode.items : SchemaNode → Option SchemaOrRef
  | .mk _ _ i _ => i

def SchemaNode.variants : SchemaNode → Option (List SchemaOrRef)
  | .mk _ _ _ v => v

def SchemaNode.id (s : SchemaNode) : NodeId := s.core.id

def SchemaNode.name (s : SchemaNode) : Option String := s.core.name

def SchemaNode.type (s : SchemaNode) : SchemaType := s.core.type

def SchemaNode.description (s : SchemaNode) : Option String := s.core.description

def SchemaNode.enumValues (s : SchemaNode) : Option (List String) := s.core.enumValues

def SchemaNode.required (s : SchemaNode) : Option (List String) := s.core.required

def SchemaNode.discriminator (s : SchemaNode) : Option Discriminator := s.core.discriminator

def PropertyDef.name : PropertyDef → String
  | .mk n _ _ _ => n

def PropertyDef.schema : PropertyDef → SchemaOrRef
  | .mk _ s _ _ => s

def PropertyDef.required : PropertyDef → Bool
  | .mk _ _ r _ => r

def PropertyDef.description : PropertyDef → Option String
  | .mk _ _ _ d => d

structure ParameterDef where
  id : NodeId
  name : String
  «in» : String
  required : Bool
  schema : SchemaOrRef
  description : Option String
  «example» : Option Json

structure MediaType where
  schema : SchemaOrRef
  «example» : Option Json

structure RequestBody where
  id : NodeId
  description : Option String
  required : Bool
  content : List (String × MediaType)

structure ResponseDef where
  id : NodeId
  description : String
  content : Option (List (String × MediaType))
  headers : Option (List (String × ParameterDef))

structure OAuthFlow where
  authorizationUrl : Option String
  tokenUrl : Option String
  refreshUrl : Option String
  scopes : List (String × String)
  deriving DecidableEq

structure OAuthFlows where
  implicit : Option OAuthFlow
  password : Option OAuthFlow
  clientCredentials : Option OAuthFlow
  authorizationCode : Option OAuthFlow
  deriving DecidableEq

structure SecurityScheme where
  id : NodeId
  name : String
  type : String
  description : Option String
  «in» : Option String
  paramName : Option String
  scheme : Option String
  bearerFormat : Option String
  flows : Option OAuthFlows
  openIdConnectUrl : Option String
  deriving DecidableEq

structure SecurityRequirement where
  schemeId : NodeId
  scopes : List String
  deriving DecidableEq

structure Tag where
  name : String
  description : Option String
  deriving DecidableEq

structure ServerVariable where
  default : String
  «enum» : Option (List String)
  description : Option String
  deriving DecidableEq

structure Server where
  url : String
  description : Option String
  «variables» : Option (List (String × ServerVariable))
  deriving DecidableEq

structure ContactObject where
  name : Option String
  url : Option String
  email : Option String
  deriving DecidableEq

structure LicenseObject where
  name : String
  url : Option String
  deriving DecidableEq

structure InfoObject where
  title : String
  version : String
  description : Option String
  termsOfService : Option String
  contact : Option ContactObject
  license : Option LicenseObject
  deriving DecidableEq

structure Route where
  id : NodeId
  path : String
  method : HttpMethod
  summary : Option String
  description : Option String
  operationId : Option String
  tags : List String
  parameters : List ParameterDef
  requestBody : Option RequestBody
  responses : List (String × ResponseDef)
  security : Option (List SecurityRequirement)
  deprecated : Option Bool

structure ApiDocument where
  id : NodeId
  info : InfoObject
  servers : List Server
  routes : List (NodeId × Route)
  schemas : List (NodeId × SchemaNode)
  securitySchemes : List (NodeId × SecurityScheme)
  tags : List Tag

/-- Command types for state mutations. -/
abbrev CommandType := String

/-- A command-log record; the payload is not inspected by any claim and
is modelled by the command type string plus the `Date.now()` timestamp
(modelled as the constant `0`). -/
structure Command where
  type : CommandType
  timestamp : Nat
  deriving DecidableEq

inductive ValidationSeverity where
  | error
  | warning
  | info
  deriving DecidableEq

structure ErrorLocation where
  nodeId : Option NodeId
  path : Option (List String)
  field : Option String
  deriving DecidableEq

structure ValidationError where
  code : String
  message : String
  severity : ValidationSeverity
  location : ErrorLocation
  deriving DecidableEq

structure ValidationResult where
  valid : Bool
  errors : List ValidationError
  warnings : List ValidationError
  deriving DecidableEq

-- ---------------------------------------------------------------------
-- Constructors (src/lib/openapi/types.ts)
-- ---------------------------------------------------------------------

/-- `generateId()`: draws the next identifier from the counter. -/
def generateId (ctr : Nat) : NodeId × Nat := (ctr, ctr + 1)

/-- `createEmptyDocument()`. -/
def createEmptyDocument (ctr : Nat) : ApiDocument × Nat :=
  let (docId, ctr1) := generateId ctr
  ({ id := docId
     info := { title := "New API", version := "1.0.0", description := some ""
               termsOfService := none, contact := none, license := none }
     servers := []
     routes := []
     schemas := []
     securitySchemes := []
     tags := [] }, ctr1)

/-- A `SchemaCore` with every optional field absent. -/
def SchemaCore.base (id : NodeId) (name : Option String) (type : SchemaType) : SchemaCore :=
  .mk id name type none none none none none none none none none none none none

/-- `createSchema(type, name?)`. -/
def createSchema (type : SchemaType) (name : Option String) (ctr : Nat) : SchemaNode × Nat :=
  let (schemaId, ctr1) := generateId ctr
  if type = "object" then
    (.mk { SchemaCore.base schemaId name type with required := some [] }
       (some []) none none, ctr1)
  else if type = "array" then
    let (itemId, ctr2) := generateId ctr1
    (.mk (SchemaCore.base schemaId name type) none
       (some (.inline (.mk (SchemaCore.base itemId none "string") none none none))) none, ctr2)
  else if type = "enum" then
    (.mk { SchemaCore.base schemaId name type with enumValues := some [] } none none none, ctr1)
  else if type = "oneOf" ∨ type = "anyOf" ∨ type = "allOf" then
    (.mk (SchemaCore.base schemaId name type) none none (some []), ctr1)
  else
    (.mk (SchemaCore.base schemaId name type) none none none, ctr1)

/-- `createRoute(path, method)`. -/
def createRoute (path : String) (method : HttpMethod) (ctr : Nat) : Route × Nat :=
  let (routeId, ctr1) := generateId ctr
  let (respId, ctr2) := generateId ctr1
  ({ id := routeId
     path := path
     method := method
     summary := none, description := none, operationId := none
     tags := []
     parameters := []
     requestBody := none
     responses := [("200", { id := respId, description := "Successful response"
                             content := none, headers := none })]
     security := none
     deprecated := none }, ctr2)

-- ---------------------------------------------------------------------
-- Editor store (src/lib/openapi/store.ts)
-- ---------------------------------------------------------------------

/-- The store state (`EditorState`), without the pure UI fields
(`activeTab`, `yamlPreviewOpen`) which no operation below reads. -/
structure EditorState where
  document : ApiDocument
  documentVersion : Nat
  selectedSchemaId : Option NodeId
  selectedRouteId : Option NodeId
  history : List ApiDocument
  historyIndex : Int
  maxHistorySize : Nat
  commandLog : List Command

/-- `cloneDocument`: a deep clone of the document.  In this pure model a
value is never mutated in place, so cloning is the identity; the source
store only ever replaces nested objects wholesale (it never mutates an
object shared between a snapshot and the current document), so identity
is observationally faithful. -/
def cloneDocument (doc : ApiDocument) : ApiDocument := doc

/-- The history push performed at the start of every mutation:
`[...state.history.slice(0, state.historyIndex + 1), cloneDocument(state.document)]`. -/
def pushSnapshot (s : EditorState) : List ApiDocument :=
  s.history.take (s.historyIndex + 1).toNat ++ [cloneDocument s.document]

/-- JS array indexing `a[i]` with an `Int` index (negative or
out-of-bounds reads give `undefined`). -/
def getAt? {α : Type} (l : List α) (i : Int) : Option α :=
  if i < 0 then none else l.get? i.toNat

/-- The initial store state. -/
def initialEditorState (ctr : Nat) : EditorState × Nat :=
  let (doc, ctr1) := createEmptyDocument ctr
  ({ document := doc
     documentVersion := 0
     selectedSchemaId := none
     selectedRouteId := none
     history := []
     historyIndex := -1
     maxHistorySize := 50
     commandLog := [] }, ctr1)

/-- `setDocument(doc)`: the only mutation that enforces `maxHistorySize`
(`newHistory.shift()` past the capacity). -/
def setDocument (doc : ApiDocument) (s : EditorState) : EditorState :=
  let newHistory := pushSnapshot s
  let newHistory := if newHistory.length > s.maxHistorySize then newHistory.drop 1 else newHistory
  { s with document := doc
           history := newHistory
           historyIndex := (newHistory.length : Int) - 1
           documentVersion := s.documentVersion + 1
           commandLog := s.commandLog ++ [{ type := "IMPORT_DOCUMENT", timestamp := 0 }] }

/-- `Partial<InfoObject>`. -/
structure InfoPatch where
  title : Option String := none
  version : Option String := none
  description : Option String := none
  termsOfService : Option String := none
  contact : Option ContactObject := none
  license : Option LicenseObject := none

/-- `{ ...info, ...patch }`. -/
def applyInfoPatch (p : InfoPatch) (i : InfoObject) : InfoObject :=
  { title := p.title.getD i.title
    version := p.version.getD i.version
    description := p.description <|> i.description
    termsOfService := p.termsOfService <|> i.termsOfService
    contact := p.contact <|> i.contact
    license := p.license <|> i.license }

/-- `updateInfo(info)`. -/
def updateInfo (info : InfoPatch) (s : EditorState) : EditorState :=
  let newDoc := { cloneDocument s.document with info := applyInfoPatch info s.document.info }
  { s with document := newDoc
           history := pushSnapshot s
           historyIndex := (pushSnapshot s).length - 1
           documentVersion := s.documentVersion + 1
           commandLog := s.commandLog ++ [{ type := "UPDATE_INFO", timestamp := 0 }] }

/-- `addSchema(schema)`. -/
def addSchema (schema : SchemaNode) (s : EditorState) : EditorState :=
  let newDoc := { cloneDocument s.document with
                  schemas := mapSet (cloneDocument s.document).schemas schema.id schema }
  { s with document := newDoc
           history := pushSnapshot s
           historyIndex := (pushSnapshot s).length - 1
           documentVersion := s.documentVersion + 1
           selectedSchemaId := some schema.id
           commandLog := s.commandLog ++ [{ type := "ADD_SCHEMA", timestamp := 0 }] }

/-- `Partial<SchemaNode>`. -/
structure SchemaPatch where
  id : Option NodeId := none
  name : Option String := none
  type : Option SchemaType := none
  description : Option String := none
  properties : Option (List (String × PropertyDef)) := none
  items : Option SchemaOrRef := none
  variants : Option (List SchemaOrRef) := none
  enumValues : Option (List String) := none
  required : Option (List String) := none
  format : Option String := none
  «example» : Option Json := none
  default : Option Json := none
  minimum : Option Int := none
  maximum : Option Int := none
  minLength : Option Int := none
  maxLength : Option Int := none
  pattern : Option String := none
  discriminator : Option Discriminator := none

/-- `{ ...schema, ...updates }` (the `new Map(updates.properties)` copy
is the identity in the pure model). -/
def applySchemaPatch (u : SchemaPatch) (s : SchemaNode) : SchemaNode :=
  .mk { id := u.id.getD s.core.id
        name := u.name <|> s.core.name
        type := u.type.getD s.core.type
        description := u.description <|> s.core.description
        enumValues := u.enumValues <|> s.core.enumValues
        required := u.required <|> s.core.required
        format := u.format <|> s.core.format
        «example» := u.«example» <|> s.core.«example»
        default := u.default <|> s.core.default
        minimum := u.minimum <|> s.core.minimum
        maximum := u.maximum <|> s.core.maximum
        minLength := u.minLength <|> s.core.minLength
        maxLength := u.maxLength <|> s.core.maxLength
        pattern := u.pattern <|> s.core.pattern
        discriminator := u.discriminator <|> s.core.discriminator }
      (u.properties <|> s.properties)
      (u.items <|> s.items)
      (u.variants <|> s.variants)

/-- `updateSchema(id, updates)`: a guarded full no-op when `id` does not
resolve. -/
def updateSchema (id : NodeId) (updates : SchemaPatch) (s : EditorState) : EditorState :=
  match mapGet? s.document.schemas id with
  | none => s
  | some schema =>
      let updatedSchema := applySchemaPatch updates schema
      let newDoc := { cloneDocument s.document with
                      schemas := mapSet (cloneDocument s.document).schemas id updatedSchema }
      { s with document := newDoc
               history := pushSnapshot s
               historyIndex := (pushSnapshot s).length - 1
               documentVersion := s.documentVersion + 1
               commandLog := s.commandLog ++ [{ type := "UPDATE_SCHEMA", timestamp := 0 }] }

/-- `deleteSchema(id)`: unguarded — deletes from the map (a no-op on the
map when the key is absent) but always pushes a snapshot and a log
record. -/
def deleteSchema (id : NodeId) (s : EditorState) : EditorState :=
  let newDoc := { cloneDocument s.document with
                  schemas := mapDelete (cloneDocument s.document).schemas id }
  { s with document := newDoc
           history := pushSnapshot s
           historyIndex := (pushSnapshot s).length - 1
           documentVersion := s.documentVersion + 1
           selectedSchemaId := if s.selectedSchemaId = some id then none else s.selectedSchemaId
           commandLog := s.commandLog ++ [{ type := "DELETE_SCHEMA", timestamp := 0 }] }

/-- `addRoute(route)`. -/
def addRoute (route : Route) (s : EditorState) : EditorState :=
  let newDoc := { cloneDocument s.document with
                  routes := mapSet (cloneDocument s.document).routes route.id route }
  { s with document := newDoc
           history := pushSnapshot s
           historyIndex := (pushSnapshot s).length - 1
           documentVersion := s.documentVersion + 1
           selectedRouteId := some route.id
           commandLog := s.commandLog ++ [{ type := "ADD_ROUTE", timestamp := 0 }] }

/-- `deleteRoute(id)`: unguarded, like `deleteSchema`. -/
def deleteRoute (id : NodeId) (s : EditorState) : EditorState :=
  let newDoc := { cloneDocument s.document with
                  routes := mapDelete (cloneDocument s.document).routes id }
  { s with document := newDoc
           history := pushSnapshot s
           historyIndex := (pushSnapshot s).length - 1
           documentVersion := s.documentVersion + 1
           selectedRouteId := if s.selectedRouteId = some id then none else s.selectedRouteId
           commandLog := s.commandLog ++ [{ type := "DELETE_ROUTE", timestamp := 0 }] }

/-- `Partial<ParameterDef>`. -/
structure ParameterPatch where
  id : Option NodeId := none
  name : Option String := none
  «in» : Option String := none
  required : Option Bool := none
  schema : Option SchemaOrRef := none
  description : Option String := none
  «example» : Option Json := none

/-- `{ ...p, ...updates }`. -/
def applyParameterPatch (u : ParameterPatch) (p : ParameterDef) : ParameterDef :=
  { id := u.id.getD p.id
    name := u.name.getD p.name
    «in» := u.«in».getD p.«in»
    required := u.required.getD p.required
    schema := u.schema.getD p.schema
    description := u.description <|> p.description
    «example» := u.«example» <|> p.«example» }

/-- `updateParameter(routeId, paramId, updates)`: guarded only on the
route; a missing `paramId` leaves every parameter as it was (the `map`
rebuilds an equal array) yet still pushes history. -/
def updateParameter (routeId : NodeId) (paramId : NodeId) (updates : ParameterPatch)
    (s : EditorState) : EditorState :=
  match mapGet? s.document.routes routeId with
  | none => s
  | some route =>
      let updatedRoute := { route with
        parameters := route.parameters.map (fun p =>
          if p.id = paramId then applyParameterPatch updates p else p) }
      let newDoc := { cloneDocument s.document with
                      routes := mapSet (cloneDocument s.document).routes routeId updatedRoute }
      { s with document := newDoc
               history := pushSnapshot s
               historyIndex := (pushSnapshot s).length - 1
               documentVersion := s.documentVersion + 1
               commandLog := s.commandLog ++ [{ type := "UPDATE_PARAMETER", timestamp := 0 }] }

/-- `Partial<ResponseDef>`. -/
structure ResponsePatch where
  id : Option NodeId := none
  description : Option String := none
  content : Option (List (String × MediaType)) := none
  headers : Option (List (String × ParameterDef)) := none

/-- `{ ...response, ...updates }`. -/
def applyResponsePatch (u : ResponsePatch) (r : ResponseDef) : ResponseDef :=
  { id := u.id.getD r.id
    description := u.description.getD r.description
    content := u.content <|> r.content
    headers := u.headers <|> r.headers }

/-- `updateResponse(routeId, statusCode, updates)`: guarded on both the
route and the status code — a full no-op when either is missing. -/
def updateResponse (routeId : NodeId) (statusCode : String) (updates : ResponsePatch)
    (s : EditorState) : EditorState :=
  match mapGet? s.document.routes routeId with
  | none => s
  | some route =>
      match mapGet? route.responses statusCode with
      | none => s
      | some response =>
          let updatedRoute := { route with
            responses := mapSet route.responses statusCode (applyResponsePatch updates response) }
          let newDoc := { cloneDocument s.document with
                          routes := mapSet (cloneDocument s.document).routes routeId updatedRoute }
          { s with document := newDoc
                   history := pushSnapshot s
                   historyIndex := (pushSnapshot s).length - 1
                   documentVersion := s.documentVersion + 1
                   commandLog := s.commandLog ++ [{ type := "UPDATE_RESPONSE", timestamp := 0 }] }

/-- `deleteResponse(routeId, statusCode)`: guarded only on the route;
deletes the status entry unconditionally — including a route's last
response. -/
def deleteResponse (routeId : NodeId) (statusCode : String) (s : EditorState) : EditorState :=
  match mapGet? s.document.routes routeId with
  | none => s
  | some route =>
      let updatedRoute := { route with responses := mapDelete route.responses statusCode }
      let newDoc := { cloneDocument s.document with
                      routes := mapSet (cloneDocument s.document).routes routeId updatedRoute }
      { s with document := newDoc
               history := pushSnapshot s
               historyIndex := (pushSnapshot s).length - 1
               documentVersion := s.documentVersion + 1
               commandLog := s.commandLog ++ [{ type := "DELETE_RESPONSE", timestamp := 0 }] }

/-- `undo()`. -/
def undo (s : EditorState) : EditorState :=
  if s.historyIndex < 0 then s
  else
    match getAt? s.history s.historyIndex with
    | some previousDoc =>
        { s with document := previousDoc
                 historyIndex := s.historyIndex - 1
                 documentVersion := s.documentVersion + 1 }
    | none => s

/-- `redo()`: reads `history[historyIndex + 2]` and only acts when that
read is defined (`if (nextDoc)`). -/
def redo (s : EditorState) : EditorState :=
  if s.historyIndex ≥ (s.history.length : Int) - 1 then s
  else
    match getAt? s.history (s.historyIndex + 2) with
    | some nextDoc =>
        { s with document := nextDoc
                 historyIndex := s.historyIndex + 1
                 documentVersion := s.documentVersion + 1 }
    | none => s

/-- `canUndo()`. -/
def canUndo (s : EditorState) : Bool := decide (0 ≤ s.historyIndex)

/-- `canRedo()`. -/
def canRedo (s : EditorState) : Bool := decide (s.historyIndex < (s.history.length : Int) - 1)

/-- Counting contribution of one edge position:
`edge.kind === 'ref' && edge.targetId === id`. -/
def refHit (id : NodeId) : SchemaOrRef → Nat
  | .ref targetId => if targetId = id then 1 else 0
  | .inline _ => 0

/-- `getSchemaUsageCount(id)`: counts only direct `Ref` edges at route
parameters, request-body media types, response media types, and — for
every *other* top-level schema — properties, array items and composition
variants.  It never recurses into inline schemas. -/
def getSchemaUsageCount (s : EditorState) (id : NodeId) : Nat :=
  let routeCount := s.document.routes.foldl (fun acc (entry : NodeId × Route) =>
    let route := entry.2
    let paramCount := route.parameters.foldl (fun a p => a + refHit id p.schema) 0
    let bodyCount := match route.requestBody with
      | none => 0
      | some body => body.content.foldl (fun a (m : String × MediaType) => a + refHit id m.2.schema) 0
    let respCount := route.responses.foldl (fun a (r : String × ResponseDef) =>
      match r.2.content with
      | none => a
      | some content => content.foldl (fun a' (m : String × MediaType) => a' + refHit id m.2.schema) a) 0
    acc + paramCount + bodyCount + respCount) 0
  let schemaCount := s.document.schemas.foldl (fun acc (entry : NodeId × SchemaNode) =>
    let schema := entry.2
    if schema.id = id then acc
    else
      let propCount := match schema.properties with
        | none => 0
        | some props => props.foldl (fun a (p : String × PropertyDef) => a + refHit id p.2.schema) 0
      let itemCount := match schema.items with
        | none => 0
        | some e => refHit id e
      let variantCount := match schema.variants with
        | none => 0
        | some vs => vs.foldl (fun a v => a + refHit id v) 0
      acc + propCount + itemCount + variantCount) 0
  routeCount + schemaCount

/-- `initializeDocument(doc)`: replaces the document and clears all
history. -/
def initializeDocument (doc : ApiDocument) (s : EditorState) : EditorState :=
  { s with document := doc
           history := []
           historyIndex := -1
           documentVersion := 0
           selectedSchemaId := none
           selectedRouteId := none
           commandLog := [] }

-- ---------------------------------------------------------------------
-- Importer (src/lib/storage/serializer.ts)
-- ---------------------------------------------------------------------

/-- The parse entry point returns a document (or none) plus diagnostics. -/
structure ParseResult where
  document : Option ApiDocument
  errors : List ValidationError

/-- A JS runtime exception escaping `parseYaml` (the version check calls
`.startsWith` on the raw `openapi` value). -/
inductive JsError where
  | typeError
  deriving DecidableEq

/-- Importer state: the shared `errors` array plus the id counter. -/
structure PState where
  errors : List ValidationError
  ctr : Nat

def pushError (e : ValidationError) (st : PState) : PState :=
  { st with errors := st.errors ++ [e] }

def genId (st : PState) : NodeId × PState :=
  (st.ctr, { st with ctr := st.ctr + 1 })

/-- The module-scoped `schemaNameToId` map, threaded explicitly. -/
abbrev Registry := List (String × NodeId)

def locNone : ErrorLocation := { nodeId := none, path := none, field := none }

def locPath (p : List String) : ErrorLocation := { nodeId := none, path := some p, field := none }

/-- Crude rendering of a decoded value inside a template string
(`${value}`); only scalar renderings are exercised by the claims. -/
def jsDisplay : Option Json → String
  | none => "undefined"
  | some .null => "null"
  | some (.bool b) => if b then "true" else "false"
  | some (.num n) => toString n
  | some (.str s) => s
  | some (.arr _) => "[array]"
  | some (.obj _) => "[object Object]"

/-- Field lookup on an already-destructured object field list. -/
def getF (fs : List (String × Json)) (k : String) : Option Json := mapGet? fs k

def truthyF (fs : List (String × Json)) (k : String) : Option Json :=
  match getF fs k with
  | some v => if jsTruthy v then some v else none
  | none => none

def truthyStrF (fs : List (String × Json)) (k : String) : Option String :=
  (truthyF fs k).bind Json.asStr?

def strF (fs : List (String × Json)) (k : String) : Option String :=
  (getF fs k).bind Json.asStr?

def numF (fs : List (String × Json)) (k : String) : Option Int :=
  (getF fs k).bind Json.asInt?

/-- `(x.f as string[]) || []`. -/
def strListF (fs : List (String × Json)) (k : String) : List String :=
  match getF fs k with
  | some v => if jsTruthy v then (v.asStrList?).getD [] else []
  | none => []

/-- The schema type determination at the top of `parseSchema`: the
`oneOf`/`anyOf`/`allOf`/`enum` presence checks (JS truthiness) followed
by the strict string comparisons on `schemaData.type`, defaulting to
`'object'`. -/
def determineType (fs : List (String × Json)) : SchemaType :=
  if (truthyF fs "oneOf").isSome then "oneOf"
  else if (truthyF fs "anyOf").isSome then "anyOf"
  else if (truthyF fs "allOf").isSome then "allOf"
  else if (truthyF fs "enum").isSome then "enum"
  else
    match getF fs "type" with
    | some (.str t) =>
        if t = "array" ∨ t = "string" ∨ t = "number" ∨ t = "integer" ∨ t = "boolean"
        then t else "object"
    | _ => "object"

/-- Assembles a `SchemaNode` from the determined type, the already-parsed
recursive payloads, and the flat fields read straight off the object
(description, enum values, constraints, discriminator) exactly as
`parseSchema` does. -/
def buildSchemaNode (fs : List (String × Json)) (name : Option String) (id : NodeId)
    (type : SchemaType)
    (props : Option (List (String × PropertyDef)))
    (requiredList : Option (List String))
    (items : Option SchemaOrRef)
    (variants : Option (List SchemaOrRef)) : SchemaNode :=
  .mk { id := id
        name := name
        type := type
        description := strF fs "description"
        enumValues :=
          if type = "enum" then
            match truthyF fs "enum" with
            | some v => some ((v.asStrList?).getD [])
            | none => none
          else none
        required := requiredList
        format := truthyStrF fs "format"
        «example» := getF fs "example"
        default := getF fs "default"
        minimum := numF fs "minimum"
        maximum := numF fs "maximum"
        minLength := numF fs "minLength"
        maxLength := numF fs "maxLength"
        pattern := truthyStrF fs "pattern"
        discriminator :=
          if type = "oneOf" then
            match truthyF fs "discriminator" with
            | some d => some { propertyName := (d.getField? "propertyName").bind Json.asStr?
                               mapping := none }
            | none => none
          else none }
      props items variants

/-- Character-level `startsWith` (the library `String.startsWith` does
not reduce inside the kernel). -/
def charsStartWith : List Char → List Char → Bool
  | [], _ => true
  | _ :: _, [] => false
  | p :: ps, c :: cs => p = c && charsStartWith ps cs

/-- The `#/components/schemas/` path head required by the `$ref` regex. -/
def refPathStart : String := "#/components/schemas/"

/-- `refPath.match` against `^#\x5c/components\x5c/schemas\x5c/(.+)$`:
matches iff the path starts with `#/components/schemas/` and a non-empty
remainder follows, capturing the remainder. -/
def matchRefName (refPath : String) : Option String :=
  if charsStartWith refPathStart.data refPath.data
     && decide (refPathStart.data.length < refPath.data.length)
  then some (String.mk (refPath.data.drop refPathStart.data.length))
  else none

/-- The `$ref` check at the head of `parseSchemaOrRef`: a string-typed
truthy `$ref` field matching the path shape resolves through the
registry, an unregistered match pushes the `UNRESOLVED_REF` warning, and
everything else falls through silently. -/
def parseRefOutcome (fs : List (String × Json)) (reg : Registry) (st : PState) :
    Option NodeId × PState :=
  match strF fs "$ref" with
  | some refPath =>
      if refPath = "" then (none, st)
      else
        match matchRefName refPath with
        | some refName =>
            match mapGet? reg refName with
            | some targetId => (some targetId, st)
            | none =>
                (none, pushError
                  { code := "UNRESOLVED_REF"
                    message := "Unresolved reference: " ++ refPath
                    severity := .warning
                    location := locNone } st)
        | none => (none, st)
  | none => (none, st)

mutual
/-- `parseSchemaOrRef(data)`: the `$ref` check, falling through to an
anonymous inline schema parsed from the same value.  The inline branch
performs `parseSchema`'s per-type payload dispatch in place (with
`name = undefined` and a fresh id), using the find-walkers below so that
the recursion stays structural on the decoded value. -/
def parseEdge (data : Json) (reg : Registry) (st : PState) : SchemaOrRef × PState :=
  match data with
  | .obj fs =>
      match parseRefOutcome fs reg st with
      | (some targetId, st1) => (.ref targetId, st1)
      | (none, st1) =>
          let idP := genId st1
          let type := determineType fs
          let pr :=
            if type = "object" then findParseProps (strListF fs "required") fs reg idP.2
            else ((none, none), idP.2)
          let it :=
            if type = "array" then findParseItems fs reg pr.2 else (none, pr.2)
          let va :=
            if type = "oneOf" ∨ type = "anyOf" ∨ type = "allOf"
            then findParseVariants type fs reg it.2 else (none, it.2)
          (.inline (buildSchemaNode fs none idP.1 type pr.1.1 pr.1.2 it.1 va.1), va.2)
  | _ =>
      -- a non-object value has no `$ref` and no payload fields at all
      let idP := genId st
      (.inline (buildSchemaNode [] none idP.1 "object" none none none none), idP.2)

/-- Locates the truthy `properties` field and parses its entries
(`if (type === 'object' && schemaData.properties)`); `required` is the
`(schemaData.required as string[]) || []` list read in the same branch,
computed from the full object at the call site. -/
def findParseProps (required : List String) (fs : List (String × Json))
    (reg : Registry) (st : PState) :
    (Option (List (String × PropertyDef)) × Option (List String)) × PState :=
  match fs with
  | [] => ((none, none), st)
  | (k, v) :: tl =>
      if k = "properties" then
        if jsTruthy v then
          match v with
          | .obj props =>
              let p := parsePropList props required reg st
              ((some p.1, some required), p.2)
          | _ => ((some [], some required), st)
        else ((none, none), st)
      else findParseProps required tl reg st

/-- Walks the entries of the `properties` object in order. -/
def parsePropList (props : List (String × Json)) (required : List String)
    (reg : Registry) (st : PState) : List (String × PropertyDef) × PState :=
  match props with
  | [] => ([], st)
  | (propName, propData) :: tl =>
      let eP := parseEdge propData reg st
      let pd : PropertyDef := .mk propName eP.1 (required.contains propName)
        ((propData.getField? "description").bind Json.asStr?)
      let rest := parsePropList tl required reg eP.2
      ((propName, pd) :: rest.1, rest.2)

/-- Locates the truthy `items` field and parses it
(`if (type === 'array' && schemaData.items)`). -/
def findParseItems (fs : List (String × Json)) (reg : Registry) (st : PState) :
    Option SchemaOrRef × PState :=
  match fs with
  | [] => (none, st)
  | (k, v) :: tl =>
      if k = "items" then
        if jsTruthy v then
          let eP := parseEdge v reg st
          (some eP.1, eP.2)
        else (none, st)
      else findParseItems tl reg st

/-- Locates the composition keyword field (`schemaData[type]`) and, when
it is an array, parses each variant. -/
def findParseVariants (key : String) (fs : List (String × Json)) (reg : Registry)
    (st : PState) : Option (List SchemaOrRef) × PState :=
  match fs with
  | [] => (none, st)
  | (k, v) :: tl =>
      if k = key then
        match v with
        | .arr vs =>
            let p := parseEdgeList vs reg st
            (some p.1, p.2)
        | _ => (none, st)
      else findParseVariants key tl reg st

/-- Maps `parseSchemaOrRef` over a variant array. -/
def parseEdgeList (vs : List Json) (reg : Registry) (st : PState) :
    List SchemaOrRef × PState :=
  match vs with
  | [] => ([], st)
  | v :: tl =>
      let eP := parseEdge v reg st
      let rest := parseEdgeList tl reg eP.2
      (eP.1 :: rest.1, rest.2)
end

/-- `parseSchema(data, name, id)`: the named/top-level entry into the
schema parser (the anonymous case is the inline branch of `parseEdge`,
which performs the same dispatch with `name = undefined`).  A `null`
body would make the source throw on property access; `null` bodies are
outside the modelled domain. -/
def parseSchema (data : Json) (name : Option String) (id : NodeId) (reg : Registry)
    (st : PState) : SchemaNode × PState :=
  match data with
  | .obj fs =>
      let type := determineType fs
      let pr :=
        if type = "object" then findParseProps (strListF fs "required") fs reg st
        else ((none, none), st)
      let it :=
        if type = "array" then findParseItems fs reg pr.2 else (none, pr.2)
      let va :=
        if type = "oneOf" ∨ type = "anyOf" ∨ type = "allOf"
        then findParseVariants type fs reg it.2 else (none, it.2)
      (buildSchemaNode fs name id type pr.1.1 pr.1.2 it.1 va.1, va.2)
  | _ =>
      (buildSchemaNode [] name id "object" none none none none, st)

/-- `parseInfo(info, errors)`. -/
def parseInfo (info : Json) (st : PState) : InfoObject × PState :=
  let titleRaw := info.truthyField? "title"
  let versionRaw := info.truthyField? "version"
  let st1 :=
    if titleRaw.isSome then st
    else pushError
      { code := "MISSING_TITLE", message := "Missing required info.title"
        severity := .warning, location := locPath ["info", "title"] } st
  let st2 :=
    if versionRaw.isSome then st1
    else pushError
      { code := "MISSING_VERSION", message := "Missing required info.version"
        severity := .warning, location := locPath ["info", "version"] } st1
  ({ title := (titleRaw.bind Json.asStr?).getD "Untitled API"
     version := (versionRaw.bind Json.asStr?).getD "1.0.0"
     description := info.truthyStrField? "description"
     termsOfService := info.truthyStrField? "termsOfService"
     contact :=
       match info.truthyField? "contact" with
       | some c => some { name := c.strField? "name"
                          url := c.strField? "url"
                          email := c.strField? "email" }
       | none => none
     license :=
       match info.getField? "license" with
       | some l =>
           match l.truthyStrField? "name" with
           | some nm => some { name := nm, url := l.strField? "url" }
           | none => none
       | none => none }, st2)

/-- `parseSecurityScheme(name, data, errors)`. -/
def parseSecurityScheme (name : String) (data : Json) (st : PState) :
    SecurityScheme × PState :=
  let idP := genId st
  let type := (data.truthyStrField? "type").getD "http"
  ({ id := idP.1
     name := name
     type := type
     description := data.truthyStrField? "description"
     scheme := if type = "http" then some ((data.truthyStrField? "scheme").getD "bearer") else none
     bearerFormat := if type = "http" then data.truthyStrField? "bearerFormat" else none
     «in» := if type = "apiKey" then some ((data.truthyStrField? "in").getD "header") else none
     paramName := if type = "apiKey" then some ((data.truthyStrField? "name").getD "api_key") else none
     flows := none
     openIdConnectUrl := if type = "openIdConnect" then data.strField? "openIdConnectUrl" else none }, idP.2)

/-- `parseParameter(data, errors)`. -/
def parseParameter (data : Json) (reg : Registry) (st : PState) : ParameterDef × PState :=
  let idP := genId st
  let sP :=
    match data.truthyField? "schema" with
    | some sv => parseEdge sv reg idP.2
    | none =>
        let inP := genId idP.2
        ((.inline (.mk (SchemaCore.base inP.1 none "string") none none none) : SchemaOrRef), inP.2)
  ({ id := idP.1
     name := (data.truthyStrField? "name").getD "param"
     «in» := (data.truthyStrField? "in").getD "query"
     required := match data.getField? "required" with
                 | some v => jsTruthy v
                 | none => false
     schema := sP.1
     description := data.strField? "description"
     «example» := data.getField? "example" }, sP.2)

/-- Walks a `content` object's media-type entries (`media.schema ?
parseSchemaOrRef(…) : {kind:'inline', schema:{id, type: deflt}}`). -/
def parseContentEntries (entries : List (String × Json)) (deflt : SchemaType)
    (reg : Registry) (st : PState) : List (String × MediaType) × PState :=
  match entries with
  | [] => ([], st)
  | (contentType, media) :: tl =>
      let sP :=
        match media.truthyField? "schema" with
        | some sv => parseEdge sv reg st
        | none =>
            let inP := genId st
            ((.inline (.mk (SchemaCore.base inP.1 none deflt) none none none) : SchemaOrRef), inP.2)
      let mt : MediaType := { schema := sP.1, «example» := media.getField? "example" }
      let rest := parseContentEntries tl deflt reg sP.2
      ((contentType, mt) :: rest.1, rest.2)

/-- `parseRequestBody(data, errors)`. -/
def parseRequestBody (data : Json) (reg : Registry) (st : PState) : RequestBody × PState :=
  let cP :=
    match data.truthyField? "content" with
    | some (.obj entries) => parseContentEntries entries "object" reg st
    | _ => ([], st)
  let idP := genId cP.2
  ({ id := idP.1
     description := data.strField? "description"
     required := match data.getField? "required" with
                 | some v => jsTruthy v
                 | none => false
     content := cP.1 }, idP.2)

/-- `parseResponse(data, errors)`. -/
def parseResponse (data : Json) (reg : Registry) (st : PState) : ResponseDef × PState :=
  let idP := genId st
  let cP : Option (List (String × MediaType)) × PState :=
    match data.truthyField? "content" with
    | some (.obj entries) =>
        let c := parseContentEntries entries "object" reg idP.2
        (some c.1, c.2)
    | _ => (none, idP.2)
  ({ id := idP.1
     description := (data.truthyStrField? "description").getD "Response"
     content := cP.1
     headers := none }, cP.2)

/-- Maps `parseParameter` over the `parameters` array. -/
def parseParamList (elems : List Json) (reg : Registry) (st : PState) :
    List ParameterDef × PState :=
  match elems with
  | [] => ([], st)
  | p :: tl =>
      let pP := parseParameter p reg st
      let rest := parseParamList tl reg pP.2
      (pP.1 :: rest.1, rest.2)

/-- Walks a `responses` object's entries into the responses map. -/
def parseResponseEntries (entries : List (String × Json)) (reg : Registry) (st : PState)
    (acc : List (String × ResponseDef)) : List (String × ResponseDef) × PState :=
  match entries with
  | [] => (acc, st)
  | (statusCode, responseData) :: tl =>
      let rP := parseResponse responseData reg st
      parseResponseEntries tl reg rP.2 (mapSet acc statusCode rP.1)

/-- The "ensure at least one response" step of `parseOperation`
(`if (route.responses.size === 0)` inject the synthetic 200). -/
def ensureResponses (responses0 : List (String × ResponseDef)) (st : PState) :
    List (String × ResponseDef) × PState :=
  if responses0.isEmpty then
    let idP := genId st
    ([("200", { id := idP.1, description := "Successful response"
                content := none, headers := none })], idP.2)
  else (responses0, st)

/-- `parseOperation(path, method, data, doc, errors)` (the `doc`
argument of the source is never read). -/
def parseOperation (path : String) (method : HttpMethod) (data : Json)
    (reg : Registry) (st : PState) : Route × PState :=
  let routeIdP := genId st
  let paramsP :=
    match data.truthyField? "parameters" with
    | some (.arr elems) => parseParamList elems reg routeIdP.2
    | _ => ([], routeIdP.2)
  let bodyP : Option RequestBody × PState :=
    match data.truthyField? "requestBody" with
    | some bv =>
        let r := parseRequestBody bv reg paramsP.2
        (some r.1, r.2)
    | none => (none, paramsP.2)
  let responses0P :=
    match data.truthyField? "responses" with
    | some (.obj entries) => parseResponseEntries entries reg bodyP.2 []
    | _ => ([], bodyP.2)
  let responsesP := ensureResponses responses0P.1 responses0P.2
  ({ id := routeIdP.1
     path := path
     method := method
     summary := data.truthyStrField? "summary"
     description := data.truthyStrField? "description"
     operationId := data.truthyStrField? "operationId"
     tags := match data.getField? "tags" with
             | some v => if jsTruthy v then (v.asStrList?).getD [] else []
             | none => []
     parameters := paramsP.1
     requestBody := bodyP.1
     responses := responsesP.1
     security := none
     deprecated := match data.getField? "deprecated" with
                   | some v => if jsTruthy v then some true else none
                   | none => none }, responsesP.2)

/-- ASCII `toLowerCase` (the only case folding the method check needs). -/
def asciiLower (c : Char) : Char :=
  if 65 ≤ c.toNat ∧ c.toNat ≤ 90 then Char.ofNat (c.toNat + 32) else c

def strLower (s : String) : String := String.mk (s.data.map asciiLower)

def strIn (s : String) : List String → Bool
  | [] => false
  | x :: tl => if s = x then true else strIn s tl

/-- `isHttpMethod(method)`. -/
def isHttpMethod (method : String) : Bool :=
  strIn (strLower method) ["get", "post", "put", "delete", "patch", "options", "head"]

/-- Walks the `servers` array: `.filter((s) => s && s.url).map(...)`. -/
def parseServerList (elems : List Json) : List Server :=
  match elems with
  | [] => []
  | s :: tl =>
      if jsTruthy s ∧ (s.truthyField? "url").isSome then
        { url := (s.truthyField? "url").bind Json.asStr? |>.getD ""
          description := s.strField? "description"
          «variables» := none } :: parseServerList tl
      else parseServerList tl

/-- Walks the `tags` array: `.filter((t) => t && t.name).map(...)`. -/
def parseTagList (elems : List Json) : List Tag :=
  match elems with
  | [] => []
  | t :: tl =>
      if jsTruthy t ∧ (t.truthyField? "name").isSome then
        { name := (t.truthyField? "name").bind Json.asStr? |>.getD ""
          description := t.strField? "description" } :: parseTagList tl
      else parseTagList tl

/-- Pass 1: pre-register every `components.schemas` key with a fresh id. -/
def registerSchemaNames (entries : List (String × Json)) (reg : Registry) (st : PState) :
    Registry × PState :=
  match entries with
  | [] => (reg, st)
  | (name, _) :: tl =>
      let idP := genId st
      registerSchemaNames tl (mapSet reg name idP.1) idP.2

/-- Pass 2: parse every schema body under its pre-registered id. -/
def parseSchemaEntries (entries : List (String × Json)) (reg : Registry) (st : PState)
    (acc : List (NodeId × SchemaNode)) : List (NodeId × SchemaNode) × PState :=
  match entries with
  | [] => (acc, st)
  | (name, schemaData) :: tl =>
      let id := (mapGet? reg name).getD 0
      let sP := parseSchema schemaData (some name) id reg st
      parseSchemaEntries tl reg sP.2 (mapSet acc id sP.1)

/-- Parses every `components.securitySchemes` entry. -/
def parseSecuritySchemeEntries (entries : List (String × Json)) (st : PState)
    (acc : List (NodeId × SecurityScheme)) : List (NodeId × SecurityScheme) × PState :=
  match entries with
  | [] => (acc, st)
  | (name, schemeData) :: tl =>
      let sP := parseSecurityScheme name schemeData st
      parseSecuritySchemeEntries tl sP.2 (mapSet acc sP.1.id sP.1)

/-- Walks one path item's verb keys. -/
def parsePathItemEntries (path : String) (entries : List (String × Json)) (reg : Registry)
    (st : PState) (acc : List (NodeId × Route)) : List (NodeId × Route) × PState :=
  match entries with
  | [] => (acc, st)
  | (method, operationData) :: tl =>
      if isHttpMethod method then
        match operationData with
        | .obj _ =>
            if jsTruthy operationData then
              let rP := parseOperation path method operationData reg st
              parsePathItemEntries path tl reg rP.2 (mapSet acc rP.1.id rP.1)
            else parsePathItemEntries path tl reg st acc
        | _ => parsePathItemEntries path tl reg st acc
      else parsePathItemEntries path tl reg st acc

/-- Walks the `paths` object. -/
def parsePathsEntries (entries : List (String × Json)) (reg : Registry) (st : PState)
    (acc : List (NodeId × Route)) : List (NodeId × Route) × PState :=
  match entries with
  | [] => (acc, st)
  | (path, pathItem) :: tl =>
      match pathItem with
      | .obj mfs =>
          let p := parsePathItemEntries path mfs reg st acc
          parsePathsEntries tl reg p.2 p.1
      | _ => parsePathsEntries tl reg st acc

/-- `parseYaml(yamlContent)`, modelled on the already-decoded value (the
`YAML.parse` text layer is outside the model; a decode failure takes the
`YAML_PARSE_ERROR` early return before any of this runs).  The result is
an `Except` because the version check calls `.startsWith` on the raw
`openapi` value and throws a `TypeError` when that value is truthy but
not a string (for example the YAML number `2.0`). -/
def parseYamlValue (root : Json) : Except JsError ParseResult :=
  match root with
  | .obj _ | .arr _ =>
    -- `if (!parsed.openapi || !parsed.openapi.startsWith('3.'))`
    let versionOutcome : Except JsError (Option ValidationError) :=
      let raw := root.getField? "openapi"
      let invalidVersion : ValidationError :=
        { code := "INVALID_VERSION"
          message := "Unsupported OpenAPI version: " ++ jsDisplay raw ++
                     ". Only OpenAPI 3.x is supported."
          severity := .error
          location := locPath ["openapi"] }
      match raw with
      | none => .ok (some invalidVersion)
      | some v =>
          if jsTruthy v then
            match v with
            | .str s =>
                if charsStartWith "3.".data s.data then .ok none
                else .ok (some invalidVersion)
            | _ => .error .typeError
          else .ok (some invalidVersion)
    match versionOutcome with
    | .error e => .error e
    | .ok verErr =>
        let st0 : PState := { errors := [], ctr := 0 }
        let st1 := match verErr with
                   | some e => pushError e st0
                   | none => st0
        let d0 := createEmptyDocument st1.ctr
        let st2 := { st1 with ctr := d0.2 }
        -- info
        let iP : Option InfoObject × PState :=
          match root.truthyField? "info" with
          | some iv =>
              let i := parseInfo iv st2
              (some i.1, i.2)
          | none =>
              (none, pushError
                { code := "MISSING_INFO", message := "Missing required info object"
                  severity := .error, location := locPath ["info"] } st2)
        -- servers / tags
        let servers :=
          match root.getField? "servers" with
          | some (.arr elems) => parseServerList elems
          | _ => d0.1.servers
        let tags :=
          match root.getField? "tags" with
          | some (.arr elems) => parseTagList elems
          | _ => d0.1.tags
        -- two-pass schema resolution over components.schemas
        let schemasField :=
          match (root.getField? "components").bind (Json.getField? · "schemas") with
          | some v => if jsTruthy v then v.asFields? else none
          | none => none
        let regP :=
          match schemasField with
          | some entries => registerSchemaNames entries [] iP.2
          | none => ([], iP.2)
        let schP :=
          match schemasField with
          | some entries => parseSchemaEntries entries regP.1 regP.2 []
          | none => ([], regP.2)
        -- security schemes
        let secP :=
          match (root.getField? "components").bind (Json.getField? · "securitySchemes") with
          | some v =>
              if jsTruthy v then
                match v.asFields? with
                | some entries => parseSecuritySchemeEntries entries schP.2 []
                | none => ([], schP.2)
              else ([], schP.2)
          | none => ([], schP.2)
        -- paths
        let rtP :=
          match root.truthyField? "paths" with
          | some (.obj entries) => parsePathsEntries entries regP.1 secP.2 []
          | _ => ([], secP.2)
        .ok { document := some
                { d0.1 with
                  info := iP.1.getD d0.1.info
                  servers := servers
                  tags := tags
                  schemas := schP.1
                  securitySchemes := secP.1
                  routes := rtP.1 }
              errors := rtP.2.errors }
  | _ =>
      .ok { document := none
            errors := [{ code := "INVALID_DOCUMENT"
                         message := "Document is empty or invalid"
                         severity := .error
                         location := locNone }] }

-- ---------------------------------------------------------------------
-- Exporter (src/lib/openapi/serializer.ts)
-- ---------------------------------------------------------------------

/-- Insertion into a lexicographically ascending string list
(`Array.from(pathGroups.keys()).sort()`, modelled with kernel-reducible
character comparisons). -/
def charsLt : List Char → List Char → Bool
  | [], [] => false
  | [], _ :: _ => true
  | _ :: _, [] => false
  | a :: as, b :: bs => if a = b then charsLt as bs else decide (a.toNat < b.toNat)

def strLt (a b : String) : Bool := charsLt a.data b.data

def insertStr (x : String) : List String → List String
  | [] => [x]
  | y :: tl => if strLt y x then y :: insertStr x tl else x :: y :: tl

def sortStrings : List String → List String
  | [] => []
  | x :: tl => insertStr x (sortStrings tl)

/-- `(propSchema as Record)['description'] = prop.description`: JS
object assignment updates in place / appends. -/
def jsonSetField (j : Json) (k : String) (v : Json) : Json :=
  match j with
  | .obj fs => .obj (mapSet fs k v)
  | other => other

/-- Emission of a truthy optional string field
(`if (x.f) json.f = x.f`). -/
def optStrField (k : String) : Option String → List (String × Json)
  | some s => if s ≠ "" then [(k, Json.str s)] else []
  | none => []

/-- Emission of a present optional number field
(`if (x.f !== undefined) json.f = x.f`). -/
def emitOptNum (k : String) : Option Int → List (String × Json)
  | some n => [(k, Json.num n)]
  | none => []

/-- Emission of a present optional raw field
(`if (x.f !== undefined) json.f = x.f`). -/
def emitOptJson (k : String) : Option Json → List (String × Json)
  | some e => [(k, e)]
  | none => []

mutual
/-- `serializeSchema(schema, doc)`, abstracted over the resolver used
for `Ref` edges (`refFn` is instantiated with `refResolve` below).  Each
optional recursive payload is emitted by its own walker below, so that
the recursion stays on pattern variables. -/
def serializeSchemaF (refFn : NodeId → Json) : SchemaNode → Json
  | .mk core props items variants =>
  -- composition types
  if core.type = "oneOf" ∨ core.type = "anyOf" ∨ core.type = "allOf" then
    .obj (
      serializeVariantsField refFn core.type variants ++
      (match core.discriminator with
       | some d =>
           if core.type = "oneOf" then
             match d.propertyName with
             | some p => if p ≠ "" then
                 [("discriminator", Json.obj [("propertyName", .str p)])] else []
             | none => []
           else []
       | none => []) ++
      optStrField "description" core.description)
  -- enum
  else if core.type = "enum" then
    .obj (
      [("type", Json.str "string")] ++
      (match core.enumValues with
       | some vs => if vs.length > 0 then [("enum", Json.arr (vs.map Json.str))] else []
       | none => []) ++
      optStrField "description" core.description)
  -- array
  else if core.type = "array" then
    .obj (
      [("type", Json.str "array")] ++
      serializeItemsField refFn items ++
      optStrField "description" core.description)
  -- object
  else if core.type = "object" then
    .obj (
      [("type", Json.str "object")] ++
      serializePropsField refFn props ++
      (match core.required with
       | some r => if r.length > 0 then [("required", Json.arr (r.map Json.str))] else []
       | none => []) ++
      optStrField "description" core.description)
  -- primitives
  else
    .obj (
      [("type", Json.str core.type)] ++
      optStrField "description" core.description ++
      optStrField "format" core.format ++
      emitOptNum "minimum" core.minimum ++
      emitOptNum "maximum" core.maximum ++
      emitOptNum "minLength" core.minLength ++
      emitOptNum "maxLength" core.maxLength ++
      optStrField "pattern" core.pattern ++
      emitOptJson "example" core.«example» ++
      emitOptJson "default" core.default)

/-- `if (schema.properties && schema.properties.size > 0)
json.properties = …`. -/
def serializePropsField (refFn : NodeId → Json) :
    Option (List (String × PropertyDef)) → List (String × Json)
  | some propList =>
      if propList.length > 0 then [("properties", Json.obj (serializePropListF refFn propList))]
      else []
  | none => []

/-- `if (schema.items) json.items = …`. -/
def serializeItemsField (refFn : NodeId → Json) :
    Option SchemaOrRef → List (String × Json)
  | some e => [("items", serializeEdgeF refFn e)]
  | none => []

/-- `if (schema.variants && schema.variants.length > 0)
json[schema.type] = …`. -/
def serializeVariantsField (refFn : NodeId → Json) (type : SchemaType) :
    Option (List SchemaOrRef) → List (String × Json)
  | some vs => if vs.length > 0 then [(type, Json.arr (serializeEdgeListF refFn vs))] else []
  | none => []

/-- Properties walk of the object case, applying the
`prop.description` overwrite onto the emitted property schema. -/
def serializePropListF (refFn : NodeId → Json) :
    List (String × PropertyDef) → List (String × Json)
  | [] => []
  | (name, .mk _ pschema _ pdesc) :: tl =>
      let propSchema := serializeEdgeF refFn pschema
      let propSchema :=
        match pdesc with
        | some d => if d ≠ "" then jsonSetField propSchema "description" (.str d) else propSchema
        | none => propSchema
      (name, propSchema) :: serializePropListF refFn tl

def serializeEdgeListF (refFn : NodeId → Json) : List SchemaOrRef → List Json
  | [] => []
  | e :: tl => serializeEdgeF refFn e :: serializeEdgeListF refFn tl

/-- `serializeSchemaOrRef(schemaOrRef, doc)` with the `Ref` case
delegated to the resolver. -/
def serializeEdgeF (refFn : NodeId → Json) : SchemaOrRef → Json
  | .ref targetId => refFn targetId
  | .inline schema => serializeSchemaF refFn schema
end

/-- The `Ref` resolution of `serializeSchemaOrRef`: a named target emits
`$ref`, an anonymous target is inlined (the defensive fallback, which
recurses through the document and is bounded here by `chase` — the
source recursion is unbounded and diverges on a cycle of anonymous
targets, which is outside the modelled domain), and a missing target
emits the `{type: 'object'}` placeholder. -/
def refResolve (doc : ApiDocument) : Nat → NodeId → Json
  | 0, _ => Json.obj [("type", .str "object")]
  | chase + 1, targetId =>
      match mapGet? doc.schemas targetId with
      | some targetSchema =>
          match targetSchema.name with
          | some nm =>
              if nm ≠ "" then Json.obj [("$ref", .str ("#/components/schemas/" ++ nm))]
              else serializeSchemaF (refResolve doc chase) targetSchema
          | none => serializeSchemaF (refResolve doc chase) targetSchema
      | none => Json.obj [("type", .str "object")]

/-- The chase budget: one more than the schema-map size bounds every
anonymous-target chain the source terminates on. -/
def serializeChase (doc : ApiDocument) : Nat := doc.schemas.length + 1

def serializeSchema (schema : SchemaNode) (doc : ApiDocument) : Json :=
  serializeSchemaF (refResolve doc (serializeChase doc)) schema

def serializeSchemaOrRef (schemaOrRef : SchemaOrRef) (doc : ApiDocument) : Json :=
  serializeEdgeF (refResolve doc (serializeChase doc)) schemaOrRef

/-- `serializeParameter(param, doc)`. -/
def serializeParameter (param : ParameterDef) (doc : ApiDocument) : Json :=
  .obj (
    [("name", Json.str param.name), ("in", Json.str param.«in»)] ++
    (if param.required then [("required", Json.bool true)] else []) ++
    optStrField "description" param.description ++
    [("schema", serializeSchemaOrRef param.schema doc)] ++
    (match param.«example» with
     | some e => [("example", e)]
     | none => []))

/-- One media-type entry: `{ schema } (+ example)`. -/
def serializeMediaType (media : MediaType) (doc : ApiDocument) : Json :=
  .obj (
    [("schema", serializeSchemaOrRef media.schema doc)] ++
    (match media.«example» with
     | some e => [("example", e)]
     | none => []))

def serializeContent (content : List (String × MediaType)) (doc : ApiDocument) : Json :=
  .obj (content.map (fun m => (m.1, serializeMediaType m.2 doc)))

/-- `serializeRequestBody(body, doc)` (the `content` key is always
emitted, even when empty). -/
def serializeRequestBody (body : RequestBody) (doc : ApiDocument) : Json :=
  .obj (
    optStrField "description" body.description ++
    (if body.required then [("required", Json.bool true)] else []) ++
    [("content", serializeContent body.content doc)])

/-- `serializeResponse(response, doc)` (`content` only when non-empty). -/
def serializeResponse (response : ResponseDef) (doc : ApiDocument) : Json :=
  .obj (
    [("description", Json.str response.description)] ++
    (match response.content with
     | some content =>
         if content.length > 0 then [("content", serializeContent content doc)] else []
     | none => []))

/-- `serializeOperation(route, doc)`. -/
def serializeOperation (route : Route) (doc : ApiDocument) : Json :=
  .obj (
    optStrField "summary" route.summary ++
    optStrField "description" route.description ++
    optStrField "operationId" route.operationId ++
    (if route.tags.length > 0 then [("tags", Json.arr (route.tags.map Json.str))] else []) ++
    (match route.deprecated with
     | some b => if b then [("deprecated", Json.bool true)] else []
     | none => []) ++
    (if route.parameters.length > 0 then
       [("parameters", Json.arr (route.parameters.map (serializeParameter · doc)))]
     else []) ++
    (match route.requestBody with
     | some body => [("requestBody", serializeRequestBody body doc)]
     | none => []) ++
    [("responses", Json.obj (route.responses.map (fun r => (r.1, serializeResponse r.2 doc))))] ++
    (match route.security with
     | some security =>
         if security.length > 0 then
           [("security", Json.arr (security.map (fun s =>
              match mapGet? doc.securitySchemes s.schemeId with
              | some scheme => Json.obj [(scheme.name, Json.arr (s.scopes.map Json.str))]
              | none => Json.obj [])))]
         else []
     | none => []))

def serializeOAuthFlow (flow : OAuthFlow) : Json :=
  .obj (
    (match flow.authorizationUrl with
     | some u => [("authorizationUrl", Json.str u)]
     | none => []) ++
    (match flow.tokenUrl with
     | some u => [("tokenUrl", Json.str u)]
     | none => []) ++
    (match flow.refreshUrl with
     | some u => [("refreshUrl", Json.str u)]
     | none => []) ++
    [("scopes", Json.obj (flow.scopes.map (fun s => (s.1, Json.str s.2))))])

def serializeOAuthFlows (flows : OAuthFlows) : Json :=
  .obj (
    (match flows.implicit with
     | some f => [("implicit", serializeOAuthFlow f)]
     | none => []) ++
    (match flows.password with
     | some f => [("password", serializeOAuthFlow f)]
     | none => []) ++
    (match flows.clientCredentials with
     | some f => [("clientCredentials", serializeOAuthFlow f)]
     | none => []) ++
    (match flows.authorizationCode with
     | some f => [("authorizationCode", serializeOAuthFlow f)]
     | none => []))

/-- `serializeSecurityScheme(scheme)`. -/
def serializeSecurityScheme (scheme : SecurityScheme) : Json :=
  .obj (
    [("type", Json.str scheme.type)] ++
    optStrField "description" scheme.description ++
    (if scheme.type = "http" then
       [("scheme", Json.str ((match scheme.scheme with
          | some s => if s ≠ "" then s else "bearer"
          | none => "bearer")))] ++
       optStrField "bearerFormat" scheme.bearerFormat
     else []) ++
    (if scheme.type = "apiKey" then
       [("in", Json.str ((match scheme.«in» with
          | some s => if s ≠ "" then s else "header"
          | none => "header"))),
        ("name", Json.str ((match scheme.paramName with
          | some s => if s ≠ "" then s else "api_key"
          | none => "api_key")))]
     else []) ++
    (if scheme.type = "oauth2" then
       match scheme.flows with
       | some flows => [("flows", serializeOAuthFlows flows)]
       | none => []
     else []) ++
    (if scheme.type = "openIdConnect" then
       match scheme.openIdConnectUrl with
       | some u => if u ≠ "" then [("openIdConnectUrl", Json.str u)] else []
       | none => []
     else []))

/-- Groups routes by path, preserving first-occurrence order of paths
and, within a path, route order (`pathGroups`). -/
def groupRoutesByPath (routes : List Route) : List (String × List Route) :=
  routes.foldl (fun groups route =>
    match mapGet? groups route.path with
    | some existing => mapSet groups route.path (existing ++ [route])
    | none => mapSet groups route.path [route]) []

/-- `serializeDocument(doc)`: the OpenAPI output value, with the JS
object key insertion order (`openapi`, `info`, `paths` from the literal,
then `servers`, `tags`, `components` added afterwards; the `paths`
content is filled in place, keeping its position). -/
def serializeDocument (doc : ApiDocument) : Json :=
  let infoJson : Json := .obj (
    [("title", Json.str doc.info.title), ("version", Json.str doc.info.version)] ++
    optStrField "description" doc.info.description ++
    optStrField "termsOfService" doc.info.termsOfService ++
    (match doc.info.contact with
     | some c =>
         if (c.name.getD "") ≠ "" ∨ (c.email.getD "") ≠ "" ∨ (c.url.getD "") ≠ "" then
           [("contact", Json.obj (
              optStrField "name" c.name ++
              optStrField "email" c.email ++
              optStrField "url" c.url))]
         else []
     | none => []) ++
    (match doc.info.license with
     | some l =>
         if l.name ≠ "" then
           [("license", Json.obj ([("name", Json.str l.name)] ++ optStrField "url" l.url))]
         else []
     | none => []))
  let schemas : List (String × Json) :=
    doc.schemas.foldl (fun acc entry =>
      match entry.2.name with
      | some nm =>
          if nm ≠ "" then mapSet acc nm (serializeSchema entry.2 doc) else acc
      | none => acc) []
  let securitySchemes : List (String × Json) :=
    doc.securitySchemes.foldl (fun acc entry =>
      mapSet acc entry.2.name (serializeSecurityScheme entry.2)) []
  let pathGroups := groupRoutesByPath (doc.routes.map Prod.snd)
  let sortedPaths := sortStrings (pathGroups.map Prod.fst)
  let pathsJson : Json := .obj (sortedPaths.map (fun path =>
    (path, Json.obj (((mapGet? pathGroups path).getD []).foldl
      (fun acc route => mapSet acc route.method (serializeOperation route doc)) []))))
  .obj (
    [("openapi", Json.str "3.0.3"), ("info", infoJson), ("paths", pathsJson)] ++
    (if doc.servers.length > 0 then
       [("servers", Json.arr (doc.servers.map (fun s =>
          .obj ([("url", Json.str s.url)] ++ optStrField "description" s.description))))]
     else []) ++
    (if doc.tags.length > 0 then
       [("tags", Json.arr (doc.tags.map (fun t =>
          .obj ([("name", Json.str t.name)] ++ optStrField "description" t.description))))]
     else []) ++
    (if schemas.length > 0 ∨ securitySchemes.length > 0 then
       [("components", Json.obj (
          (if schemas.length > 0 then [("schemas", Json.obj schemas)] else []) ++
          (if securitySchemes.length > 0 then
             [("securitySchemes", Json.obj securitySchemes)] else [])))]
     else []))

-- ---------------------------------------------------------------------
-- Validator: reference integrity, orphans, cycles (validateReferences)
-- ---------------------------------------------------------------------

def brokenRefError (context : String) (nodeId : NodeId) : ValidationError :=
  { code := "BROKEN_REFERENCE"
    message := "Broken reference in " ++ context
    severity := .error
    location := { nodeId := some nodeId, path := none, field := none } }

mutual
/-- `checkRef`: a `ref` edge to an id outside the schema map is a
`BROKEN_REFERENCE` error; an `inline` edge is walked recursively. -/
def checkRef (validIds : List NodeId) (edge : SchemaOrRef) (context : String)
    (nodeId : NodeId) : List ValidationError :=
  match edge with
  | .ref targetId =>
      if validIds.contains targetId then [] else [brokenRefError context nodeId]
  | .inline schema => checkSchemaRefs validIds schema context nodeId

/-- `checkSchemaRefs`: walks properties, items and variants. -/
def checkSchemaRefs (validIds : List NodeId) (schema : SchemaNode) (context : String)
    (nodeId : NodeId) : List ValidationError :=
  match schema with
  | .mk _ props items variants =>
      (match props with
       | some propList => checkPropRefs validIds propList context nodeId
       | none => []) ++
      (match items with
       | some e => checkRef validIds e (context ++ "[items]") nodeId
       | none => []) ++
      (match variants with
       | some vs => checkVariantRefs validIds vs context nodeId
       | none => [])

def checkPropRefs (validIds : List NodeId) (props : List (String × PropertyDef))
    (context : String) (nodeId : NodeId) : List ValidationError :=
  match props with
  | [] => []
  | (name, .mk _ pschema _ _) :: tl =>
      checkRef validIds pschema (context ++ "." ++ name) nodeId ++
      checkPropRefs validIds tl context nodeId

def checkVariantRefs (validIds : List NodeId) (vs : List SchemaOrRef) (context : String)
    (nodeId : NodeId) : List ValidationError :=
  match vs with
  | [] => []
  | e :: tl =>
      checkRef validIds e (context ++ "[variant]") nodeId ++
      checkVariantRefs validIds tl context nodeId
end

mutual
/-- `markUsed`: collects used schema ids, recursing through inline
schemas (unlike `getSchemaUsageCount`). -/
def markUsed (edge : SchemaOrRef) : List NodeId :=
  match edge with
  | .ref targetId => [targetId]
  | .inline schema => markUsedInSchema schema

def markUsedInSchema (schema : SchemaNode) : List NodeId :=
  match schema with
  | .mk _ props items variants =>
      (match props with
       | some propList => markUsedInProps propList
       | none => []) ++
      (match items with
       | some e => markUsed e
       | none => []) ++
      (match variants with
       | some vs => markUsedInVariants vs
       | none => [])

def markUsedInProps (props : List (String × PropertyDef)) : List NodeId :=
  match props with
  | [] => []
  | (_, .mk _ pschema _ _) :: tl => markUsed pschema ++ markUsedInProps tl

def markUsedInVariants (vs : List SchemaOrRef) : List NodeId :=
  match vs with
  | [] => []
  | e :: tl => markUsed e ++ markUsedInVariants tl
end

/-- `collectRefs(schema)`: only the *direct* `ref` targets of the node's
properties, items and variants (inline schemas are not entered). -/
def collectRefs (schema : SchemaNode) : List NodeId :=
  match schema with
  | .mk _ props items variants =>
      (match props with
       | some propList => propList.filterMap (fun p =>
           match p.2 with
           | .mk _ (.ref t) _ _ => some t
           | _ => none)
       | none => []) ++
      (match items with
       | some (.ref t) => [t]
       | _ => []) ++
      (match variants with
       | some vs => vs.filterMap (fun e =>
           match e with
           | .ref t => some t
           | .inline _ => none)
       | none => [])

mutual
/-- The per-node DFS of the cycle check, with the shared `visited` set
threaded through and the active `stack` passed down the path.  `fuel`
is consumed on every call so the recursion stays structural (and hence
kernel-reducible); `cycleFuel` below always suffices because the DFS
visits every id at most once. -/
def hasCycleAux (doc : ApiDocument) (fuel : Nat) (schemaId : NodeId)
    (visited stack : List NodeId) : Bool × List NodeId :=
  match fuel with
  | 0 => (false, visited)
  | fuel + 1 =>
      if stack.contains schemaId then (true, visited)
      else if visited.contains schemaId then (false, visited)
      else
        let visited1 := visited ++ [schemaId]
        match mapGet? doc.schemas schemaId with
        | some s => hasCycleFold doc fuel (collectRefs s) visited1 (stack ++ [schemaId])
        | none => (false, visited1)

def hasCycleFold (doc : ApiDocument) (fuel : Nat) (refs : List NodeId)
    (visited stack : List NodeId) : Bool × List NodeId :=
  match fuel with
  | 0 => (false, visited)
  | fuel + 1 =>
      match refs with
      | [] => (false, visited)
      | r :: tl =>
          let (found, visited1) := hasCycleAux doc fuel r visited stack
          if found then (true, visited1) else hasCycleFold doc fuel tl visited1 stack
end

/-- A fuel bound for the cycle DFS: a root-to-leaf descent consumes at
most `refs(s) + 2` units per schema visited, each schema is descended
into at most once, and every other step terminates immediately. -/
def cycleFuel (doc : ApiDocument) : Nat :=
  2 * (doc.schemas.length +
       doc.schemas.foldl (fun acc entry => acc + (collectRefs entry.2).length) 0) + 4

/-- `validateReferences(doc, errors, warnings)`: broken-reference errors
over schemas then routes, orphan warnings, then cycle warnings. -/
def validateReferences (doc : ApiDocument) : List ValidationError × List ValidationError :=
  let validIds := doc.schemas.map Prod.fst
  let schemaErrors := doc.schemas.foldl (fun acc entry =>
    acc ++ checkSchemaRefs validIds entry.2 ((entry.2.name).getD "Anonymous") entry.1) []
  let routeErrors := doc.routes.foldl (fun acc entry =>
    let route := entry.2
    let ctx := route.method ++ " " ++ route.path
    acc ++
    route.parameters.foldl (fun a p =>
      a ++ checkRef validIds p.schema (ctx ++ " param " ++ p.name) entry.1) [] ++
    (match route.requestBody with
     | some body => body.content.foldl (fun a m =>
         a ++ checkRef validIds m.2.schema (ctx ++ " request body") entry.1) []
     | none => []) ++
    route.responses.foldl (fun a r =>
      match r.2.content with
      | some content => a ++ content.foldl (fun a' m =>
          a' ++ checkRef validIds m.2.schema (ctx ++ " response " ++ r.1) entry.1) []
      | none => a) []) []
  let usedSchemaIds :=
    doc.routes.foldl (fun acc entry =>
      let route := entry.2
      acc ++
      route.parameters.foldl (fun a p => a ++ markUsed p.schema) [] ++
      (match route.requestBody with
       | some body => body.content.foldl (fun a m => a ++ markUsed m.2.schema) []
       | none => []) ++
      route.responses.foldl (fun a r =>
        match r.2.content with
        | some content => a ++ content.foldl (fun a' m => a' ++ markUsed m.2.schema) []
        | none => a) []) [] ++
    doc.schemas.foldl (fun acc entry => acc ++ markUsedInSchema entry.2) []
  let orphanWarnings := doc.schemas.foldl (fun acc entry =>
    if usedSchemaIds.contains entry.1 then acc
    else acc ++ [{ code := "ORPHANED_SCHEMA"
                   message := "Schema " ++ ((entry.2.name).getD "Anonymous") ++
                              " is not used anywhere"
                   severity := .info
                   location := { nodeId := some entry.1, path := none, field := none } }]) []
  let cycleWarnings := doc.schemas.foldl (fun acc entry =>
    if (hasCycleAux doc (cycleFuel doc) entry.1 [] []).1 then
      acc ++ [{ code := "CIRCULAR_REFERENCE"
                message := "Schema " ++ ((entry.2.name).getD "Anonymous") ++
                           " has a circular reference"
                severity := .warning
                location := { nodeId := some entry.1, path := none, field := none } }]
    else acc) []
  (schemaErrors ++ routeErrors, orphanWarnings ++ cycleWarnings)

-- ---------------------------------------------------------------------
-- Claim theorems
-- ---------------------------------------------------------------------

set_option maxRecDepth 40000

/-- C2 counterexample: `createRoute` on the path
`/users/{id}/orders/{orderId}` returns a route with an *empty* parameter
list (the claim demands exactly two auto-populated path parameters), so
the claim as stated is false at this input. -/
theorem C2_counterexample :
    (createRoute "/users/{id}/orders/{orderId}" "get" 0).1.parameters = [] ∧
    ((createRoute "/users/{id}/orders/{orderId}" "get" 0).1.parameters.length = 2 → False) := by
  exact ⟨rfl, by decide⟩

/-- C2 (amended): `createRoute(path, method)` returns a route carrying
exactly one default response — status "200" with description
"Successful response" — and an *empty* parameters list: the constructor
does not auto-populate path parameters from `{…}` placeholders (that
extraction lives in the UI caller). -/
theorem C2_amended (path : String) (method : HttpMethod) (ctr : Nat) :
    (createRoute path method ctr).1.parameters = [] ∧
    (createRoute path method ctr).1.responses =
      [("200", { id := ctr + 1, description := "Successful response"
                 content := none, headers := none })] ∧
    (createRoute path method ctr).1.path = path ∧
    (createRoute path method ctr).1.method = method := by
  exact ⟨rfl, rfl, rfl, rfl⟩

/-- The C6 scenario input: YAML decodes
`"openapi: 2.0\ninfo:\n  title: X\npaths: {}"` with `2.0` resolved as
the float `2` by the core schema, so the decoded value carries a number,
not a string, under `openapi`. -/
def c6input : Json :=
  .obj [("openapi", .num 2), ("info", .obj [("title", .str "X")]), ("paths", .obj [])]

/-- C6: on the degraded-mode scenario input, `parseYaml` does not return
a Document with diagnostics — the version check evaluates
`parsed.openapi.startsWith('3.')` on the number `2` and throws an
uncaught `TypeError`. -/
theorem C6_theorem : parseYamlValue c6input = .error .typeError := rfl

/-- C9: the three emission cases of `serializeSchemaOrRef` on a `Ref`
edge — a named target emits the `$ref` pointer, an anonymous target has
its body inlined (serialized with the remaining chase budget), and a
missing target emits the minimal `{type: 'object'}` placeholder. -/
theorem C9_theorem (doc : ApiDocument) (targetId : NodeId) :
    (∀ t nm, mapGet? doc.schemas targetId = some t → t.name = some nm → nm ≠ "" →
       serializeSchemaOrRef (.ref targetId) doc =
         Json.obj [("$ref", .str ("#/components/schemas/" ++ nm))]) ∧
    (∀ t, mapGet? doc.schemas targetId = some t → t.name = none →
       serializeSchemaOrRef (.ref targetId) doc =
         serializeSchemaF (refResolve doc doc.schemas.length) t) ∧
    (mapGet? doc.schemas targetId = none →
       serializeSchemaOrRef (.ref targetId) doc = Json.obj [("type", .str "object")]) := by
  refine ⟨?_, ?_, ?_⟩
  · intro t nm hget hname hne
    simp [serializeSchemaOrRef, serializeEdgeF, serializeChase, refResolve, hget, hname, hne]
  · intro t hget hname
    simp [serializeSchemaOrRef, serializeEdgeF, serializeChase, refResolve, hget, hname]
  · intro hget
    simp [serializeSchemaOrRef, serializeEdgeF, serializeChase, refResolve, hget]

/-- A document exercising all three `Ref` emission cases: schema 1 is
named `Pet`, schema 2 is anonymous, id 99 is absent. -/
def c9doc : ApiDocument :=
  { id := 0
    info := { title := "T", version := "1", description := none
              termsOfService := none, contact := none, license := none }
    servers := [], tags := [], routes := []
    schemas := [(1, .mk (SchemaCore.base 1 (some "Pet") "object") (some []) none none),
                (2, .mk { SchemaCore.base 2 none "string" with description := some "anon" }
                      none none none)]
    securitySchemes := [] }

/-- C9 witness: the three cases evaluated on `c9doc`. -/
theorem C9_witness :
    serializeSchemaOrRef (.ref 1) c9doc = Json.obj [("$ref", .str "#/components/schemas/Pet")] ∧
    serializeSchemaOrRef (.ref 2) c9doc =
      Json.obj [("type", .str "string"), ("description", .str "anon")] ∧
    serializeSchemaOrRef (.ref 99) c9doc = Json.obj [("type", .str "object")] := by
  refine ⟨(C9_theorem c9doc 1).1 _ "Pet" rfl rfl (by decide), ?_, (C9_theorem c9doc 99).2.2 rfl⟩
  exact ((C9_theorem c9doc 2).2.1 _ rfl rfl).trans rfl

/-- Deleting an absent key leaves a JS `Map` unchanged. -/
theorem mapDelete_of_get_none {K V : Type} [DecidableEq K]
    (m : List (K × V)) (k : K) (h : mapGet? m k = none) : mapDelete m k = m := by
  induction m with
  | nil => rfl
  | cons hd tl ih =>
      obtain ⟨k', v'⟩ := hd
      by_cases hk : k' = k
      · simp [mapGet?, hk] at h
      · simp only [mapGet?, hk, if_neg hk] at h
        simp [mapDelete, hk, ih h]

/-- The fresh store state used by the concrete scenarios. -/
def freshState : EditorState := (initialEditorState 0).1

/-- C1: the divergence witnessed on one mutation from the fresh store.
Applying `updateInfo` and then `undo` restores the initial document, but
from there `canRedo()` reports `true` while `redo()` is a complete no-op
(`history[historyIndex + 2]` is out of bounds; the post-mutation
document was never snapshotted), so the redone document is the initial
one rather than the mutated one. -/
theorem C1_theorem :
    (undo (updateInfo { title := some "T" } freshState)).document = freshState.document ∧
    (updateInfo { title := some "T" } freshState).document ≠ freshState.document ∧
    canRedo (undo (updateInfo { title := some "T" } freshState)) = true ∧
    redo (undo (updateInfo { title := some "T" } freshState)) =
      undo (updateInfo { title := some "T" } freshState) := by
  refine ⟨rfl, ?_, rfl, rfl⟩
  intro h
  exact absurd (congrArg (fun d => d.info.title) h) (by decide)

/-- C4 counterexample: `deleteSchema` on an identifier absent from a
fresh store still pushes a history snapshot and a command-log record
(the claim says a mutation against a non-existent identifier pushes no
history entry and appends nothing to the log). -/
theorem C4_counterexample :
    mapGet? freshState.document.schemas 42 = none ∧
    freshState.history.length = 0 ∧
    (deleteSchema 42 freshState).history.length = 1 ∧
    (deleteSchema 42 freshState).commandLog.length = 1 := by
  exact ⟨rfl, rfl, rfl, rfl⟩

/-- C4 (amended): operations that *guard* on the targeted identifier
(`updateSchema`; and for a missing route id `updateParameter`,
`updateResponse`, `deleteResponse`) are complete no-ops — no exception,
no document change, no history entry, no log record.  The unguarded
deletes (`deleteSchema`, `deleteRoute`) never throw and leave the
document unchanged, but they still push a pre-mutation snapshot and
append a command-log record. -/
theorem C4_amended (s : EditorState) (id : NodeId) :
    (mapGet? s.document.schemas id = none →
       (∀ upd, updateSchema id upd s = s) ∧
       (deleteSchema id s).document = s.document ∧
       (deleteSchema id s).history = pushSnapshot s ∧
       (deleteSchema id s).commandLog =
         s.commandLog ++ [{ type := "DELETE_SCHEMA", timestamp := 0 }]) ∧
    (mapGet? s.document.routes id = none →
       (deleteRoute id s).document = s.document ∧
       (deleteRoute id s).history = pushSnapshot s ∧
       (deleteRoute id s).commandLog =
         s.commandLog ++ [{ type := "DELETE_ROUTE", timestamp := 0 }] ∧
       (∀ paramId upd, updateParameter id paramId upd s = s) ∧
       (∀ statusCode upd, updateResponse id statusCode upd s = s) ∧
       (∀ statusCode, deleteResponse id statusCode s = s)) := by
  constructor
  · intro h
    refine ⟨fun upd => ?_, ?_, rfl, rfl⟩
    · simp [updateSchema, h]
    · show { s.document with schemas := mapDelete s.document.schemas id } = s.document
      rw [mapDelete_of_get_none _ _ h]
  · intro h
    refine ⟨?_, rfl, rfl, fun paramId upd => ?_, fun statusCode upd => ?_,
      fun statusCode => ?_⟩
    · show { s.document with routes := mapDelete s.document.routes id } = s.document
      rw [mapDelete_of_get_none _ _ h]
    · simp [updateParameter, h]
    · simp [updateResponse, h]
    · simp [deleteResponse, h]

/-- C4 witness: the amended claim applied to the fresh store at the
absent identifier 42. -/
theorem C4_witness :
    (updateSchema 42 {} freshState = freshState) ∧
    (deleteSchema 42 freshState).document = freshState.document ∧
    (deleteRoute 42 freshState).document = freshState.document ∧
    (deleteResponse 42 "200" freshState = freshState) := by
  obtain ⟨hs, hr⟩ := C4_amended freshState 42
  obtain ⟨hs1, hs2, -, -⟩ := hs rfl
  obtain ⟨hr1, -, -, -, -, hr6⟩ := hr rfl
  exact ⟨hs1 {}, hs2, hr1, hr6 "200"⟩

/-- The iterated `addSchema` runs of the C5 scenario (one fresh
string-typed schema per step). -/
def c5iter : Nat → EditorState → EditorState
  | 0, s => s
  | n + 1, s => c5iter n (addSchema (createSchema "string" none n).1 s)

/-- C5: fifty-one consecutive `addSchema` calls on the fresh store grow
the undo history to 51 entries, exceeding `maxHistorySize = 50` — only
`setDocument` evicts past the capacity, the other mutations push
unboundedly. -/
theorem C5_theorem :
    (c5iter 51 freshState).history.length = 51 ∧
    (c5iter 51 freshState).maxHistorySize = 50 := by
  exact ⟨rfl, rfl⟩


/-- A store state holding one route (id 1) whose only response is the
"200" entry. -/
def c8state : EditorState :=
  { freshState with
    document := { freshState.document with
      routes := [(1, { id := 1, path := "/a", method := "get"
                       summary := none, description := none, operationId := none
                       tags := [], parameters := [], requestBody := none
                       responses := [("200", { id := 2, description := "ok"
                                               content := none, headers := none })]
                       security := none, deprecated := none })] } }

/-- C8 counterexample: `deleteResponse` deletes a route's *last*
response, leaving the responses mapping empty — the "every route has at
least one response" invariant is not preserved by every mutation. -/
theorem C8_counterexample :
    (mapGet? (deleteResponse 1 "200" c8state).document.routes 1).map Route.responses =
      some [] := rfl

/-- C8 (amended): the invariant is established by both constructors —
`createRoute` returns exactly one response, and `parseOperation` injects
the synthetic 200 whenever an operation defines zero responses — but it
is not preserved by every store mutation (`deleteResponse` can remove
the last entry, per the counterexample). -/
theorem C8_amended :
    (∀ path method ctr, ((createRoute path method ctr).1.responses).length = 1) ∧
    (∀ path method data reg st,
       1 ≤ ((parseOperation path method data reg st).1.responses).length) := by
  constructor
  · intro path method ctr
    rfl
  · intro path method data reg st
    show 1 ≤ (ensureResponses _ _).1.length
    unfold ensureResponses
    split
    · simp [genId]
    · rename_i hEmpty
      exact List.length_pos.mpr (List.isEmpty_eq_false.mp (Bool.not_eq_true _ ▸ hEmpty))

/-- The C10 document: `A` (id 1) is referenced only from inside an
inline schema at a route parameter, `B` (id 2) references only itself,
and `C` (id 3) is referenced by nothing at all. -/
def c10doc : ApiDocument :=
  { id := 0
    info := { title := "T", version := "1", description := none
              termsOfService := none, contact := none, license := none }
    servers := [], tags := []
    routes := [(10, { id := 10, path := "/x", method := "get"
                      summary := none, description := none, operationId := none
                      tags := []
                      parameters := [{ id := 11, name := "q", «in» := "query"
                                       required := false
                                       schema := .inline (.mk (SchemaCore.base 12 none "object")
                                         (some [("a", .mk "a" (.ref 1) false none)]) none none)
                                       description := none, «example» := none }]
                      requestBody := none
                      responses := [("200", { id := 13, description := "ok"
                                              content := none, headers := none })]
                      security := none, deprecated := none })]
    schemas := [(1, .mk (SchemaCore.base 1 (some "A") "object") (some []) none none),
                (2, .mk (SchemaCore.base 2 (some "B") "object")
                      (some [("self", .mk "self" (.ref 2) false none)]) none none),
                (3, .mk (SchemaCore.base 3 (some "C") "object") (some []) none none)]
    securitySchemes := [] }

def c10state : EditorState := { freshState with document := c10doc }

/-- C10: `getSchemaUsageCount` counts only direct `Ref` edges — the ref
to `A` nested inside the parameter's inline schema is not counted, and
`B`'s ref to itself is not counted — so both counts are 0, while the
validator's reachability marking (which does recurse through inline
schemas and does not skip self-references) treats both `A` and `B` as
used: the only `ORPHANED_SCHEMA` advisory is for the genuinely
unreferenced `C`, and no reference is broken. -/
theorem C10_theorem :
    getSchemaUsageCount c10state 1 = 0 ∧
    getSchemaUsageCount c10state 2 = 0 ∧
    ((validateReferences c10doc).2.filter
        (fun w => decide (w.code = "ORPHANED_SCHEMA"))).map
      (fun w => w.location.nodeId) = [some 3] ∧
    (validateReferences c10doc).1 = [] := by
  exact ⟨rfl, rfl, rfl, rfl⟩

/-- C7 counterexample: a `$ref` that does not match the
`#/components/schemas/<Name>` shape produces *no* diagnostic (the claim
says every such `$ref` adds a warning): the edge silently becomes an
inline schema. -/
theorem C7_counterexample :
    (parseEdge (.obj [("$ref", .str "#/definitions/Pet")]) []
       { errors := [], ctr := 0 }).2.errors = [] ∧
    (parseEdge (.obj [("$ref", .str "#/definitions/Pet")]) []
       { errors := [], ctr := 0 }).1 =
      .inline (buildSchemaNode [("$ref", .str "#/definitions/Pet")] none 0
        "object" none none none none) := ⟨rfl, rfl⟩

/-- C7 (amended): on a `$ref` edge, only the path shape
`#/components/schemas/<Name>` with an *unregistered* name produces the
`UNRESOLVED_REF` warning (and the edge is dropped in favour of an inline
schema parsed from the same object); a `$ref` that does not match the
shape is dropped the same way but silently, with no diagnostic; a
matching registered name resolves to the pre-registered id. -/
theorem C7_amended (reg : Registry) (st : PState) (s : String) :
    (∀ nm, s ≠ "" → matchRefName s = some nm → mapGet? reg nm = none →
       (parseEdge (.obj [("$ref", .str s)]) reg st).2.errors =
         st.errors ++ [{ code := "UNRESOLVED_REF"
                         message := "Unresolved reference: " ++ s
                         severity := .warning, location := locNone }] ∧
       (parseEdge (.obj [("$ref", .str s)]) reg st).1 =
         .inline (buildSchemaNode [("$ref", .str s)] none st.ctr "object"
           none none none none)) ∧
    (s ≠ "" → matchRefName s = none →
       (parseEdge (.obj [("$ref", .str s)]) reg st).2 = { st with ctr := st.ctr + 1 } ∧
       (parseEdge (.obj [("$ref", .str s)]) reg st).1 =
         .inline (buildSchemaNode [("$ref", .str s)] none st.ctr "object"
           none none none none)) ∧
    (∀ nm targetId, s ≠ "" → matchRefName s = some nm → mapGet? reg nm = some targetId →
       parseEdge (.obj [("$ref", .str s)]) reg st = (.ref targetId, st)) := by
  refine ⟨?_, ?_, ?_⟩
  · intro nm hne hmatch hget
    have hro : parseRefOutcome [("$ref", Json.str s)] reg st =
        (none, pushError { code := "UNRESOLVED_REF"
                           message := "Unresolved reference: " ++ s
                           severity := .warning, location := locNone } st) := by
      simp [parseRefOutcome, strF, getF, mapGet?, hne, hmatch, hget, Json.asStr?]
    have hdt : determineType [("$ref", Json.str s)] = "object" := rfl
    have hfp : ∀ r stX, findParseProps r [("$ref", Json.str s)] reg stX = ((none, none), stX) :=
      fun r stX => rfl
    constructor <;> simp [parseEdge, hro, genId, pushError, hdt, hfp]
  · intro hne hmatch
    have hro : parseRefOutcome [("$ref", Json.str s)] reg st = (none, st) := by
      simp [parseRefOutcome, strF, getF, mapGet?, hne, hmatch, Json.asStr?]
    have hdt : determineType [("$ref", Json.str s)] = "object" := rfl
    have hfp : ∀ r stX, findParseProps r [("$ref", Json.str s)] reg stX = ((none, none), stX) :=
      fun r stX => rfl
    constructor <;> simp [parseEdge, hro, genId, hdt, hfp]
  · intro nm targetId hne hmatch hget
    have hro : parseRefOutcome [("$ref", Json.str s)] reg st = (some targetId, st) := by
      simp [parseRefOutcome, strF, getF, mapGet?, hne, hmatch, hget, Json.asStr?]
    simp [parseEdge, hro]

/-- C7 witness: the three cases at concrete reference strings (the
matching-but-unregistered `Missing`, the non-matching
`#/definitions/Pet` shape, and the registered `Pet`). -/
theorem C7_witness :
    (parseEdge (.obj [("$ref", .str "#/components/schemas/Missing")]) []
       { errors := [], ctr := 0 }).2.errors =
      [{ code := "UNRESOLVED_REF"
         message := "Unresolved reference: #/components/schemas/Missing"
         severity := .warning, location := locNone }] ∧
    (parseEdge (.obj [("$ref", .str "#/definitions/Pet")]) []
       { errors := [], ctr := 0 }).2 = { errors := [], ctr := 1 } ∧
    parseEdge (.obj [("$ref", .str "#/components/schemas/Pet")]) [("Pet", 7)]
       { errors := [], ctr := 0 } = (.ref 7, { errors := [], ctr := 0 }) := by
  refine ⟨?_, ?_, ?_⟩
  · exact ((C7_amended [] { errors := [], ctr := 0 }
      "#/components/schemas/Missing").1 "Missing" (by decide) rfl rfl).1
  · exact ((C7_amended [] { errors := [], ctr := 0 }
      "#/definitions/Pet").2.1 (by decide) rfl).1
  · exact (C7_amended [("Pet", 7)] { errors := [], ctr := 0 }
      "#/components/schemas/Pet").2.2 "Pet" 7 (by decide) rfl rfl

/-- Projections of a parse outcome used by the round-trip statements. -/
def parsedDoc (v : Json) : Option ApiDocument :=
  match parseYamlValue v with
  | .ok r => r.document
  | .error _ => none

def parsedErrors (v : Json) : List ValidationError :=
  match parseYamlValue v with
  | .ok r => r.errors
  | .error _ => []

/-- The C3 counterexample input: a well-formed 3.0.0 document whose only
schema is `Foo: {enum: []}`. -/
def c3cex : Json :=
  .obj [("openapi", .str "3.0.0"),
        ("info", .obj [("title", .str "T"), ("version", .str "1.0")]),
        ("paths", .obj []),
        ("components", .obj [("schemas", .obj [("Foo", .obj [("enum", .arr [])])])])]

/-- C3 counterexample: `c3cex` parses with zero errors into a document
whose schema `Foo` is an `enum` node (with an empty value list), but the
exporter's minimal-emission rules drop the empty `enum` list, so
re-parsing the serialized text yields `Foo` as a `string` node.  The
type tag differs, and identifier renaming preserves type tags, so
`parse(serialize(d))` is not equal to `d` up to identifier renaming. -/
theorem C3_counterexample :
    parsedErrors c3cex = [] ∧
    (parsedDoc c3cex).map (fun d => d.schemas.map (fun e => (e.2.name, e.2.type))) =
      some [(some "Foo", "enum")] ∧
    ((parsedDoc c3cex).bind (fun d => parsedDoc (serializeDocument d))).map
      (fun d => d.schemas.map (fun e => (e.2.name, e.2.type))) =
      some [(some "Foo", "string")] := ⟨rfl, rfl, rfl⟩

-- ---------------------------------------------------------------------
-- Round-trip infrastructure: canonical form and well-formedness
-- ---------------------------------------------------------------------

/-- Index of a string in a list (total; used to rename ref targets by
their target's position in the document's name sequence). -/
def idxOfStr (s : String) : List String → Nat
  | [] => 0
  | x :: tl => if x = s then 0 else idxOfStr s tl + 1

mutual
/-- Canonical form of an edge under an id-renaming `resolve`. -/
def canonEdge (resolve : NodeId → Nat) : SchemaOrRef → SchemaOrRef
  | .ref targetId => .ref (resolve targetId)
  | .inline s => .inline (canonSchema resolve s)

/-- Canonical form of a schema: ids zeroed, refs renamed. -/
def canonSchema (resolve : NodeId → Nat) : SchemaNode → SchemaNode
  | .mk core props items variants =>
      .mk { core with id := 0 } (canonPropsO resolve props) (canonItemsO resolve items)
        (canonVariantsO resolve variants)

def canonPropsO (resolve : NodeId → Nat) :
    Option (List (String × PropertyDef)) → Option (List (String × PropertyDef))
  | some l => some (canonProps resolve l)
  | none => none

def canonItemsO (resolve : NodeId → Nat) : Option SchemaOrRef → Option SchemaOrRef
  | some e => some (canonEdge resolve e)
  | none => none

def canonVariantsO (resolve : NodeId → Nat) :
    Option (List SchemaOrRef) → Option (List SchemaOrRef)
  | some l => some (canonVariants resolve l)
  | none => none

def canonProps (resolve : NodeId → Nat) :
    List (String × PropertyDef) → List (String × PropertyDef)
  | [] => []
  | (k, .mk n sch req dsc) :: tl =>
      (k, .mk n (canonEdge resolve sch) req dsc) :: canonProps resolve tl

def canonVariants (resolve : NodeId → Nat) : List SchemaOrRef → List SchemaOrRef
  | [] => []
  | e :: tl => canonEdge resolve e :: canonVariants resolve tl
end

def canonParam (resolve : NodeId → Nat) (p : ParameterDef) : ParameterDef :=
  { p with id := 0, schema := canonEdge resolve p.schema }

def canonMedia (resolve : NodeId → Nat) (m : MediaType) : MediaType :=
  { m with schema := canonEdge resolve m.schema }

def canonContent (resolve : NodeId → Nat) (c : List (String × MediaType)) :
    List (String × MediaType) :=
  c.map (fun e => (e.1, canonMedia resolve e.2))

def canonBody (resolve : NodeId → Nat) (b : RequestBody) : RequestBody :=
  { b with id := 0, content := canonContent resolve b.content }

def canonResponse (resolve : NodeId → Nat) (r : ResponseDef) : ResponseDef :=
  { r with id := 0
           content := r.content.map (canonContent resolve)
           headers := r.headers.map (fun h => h.map (fun e => (e.1, canonParam resolve e.2))) }

def canonRoute (resolve : NodeId → Nat) (r : Route) : Route :=
  { r with id := 0
           parameters := r.parameters.map (canonParam resolve)
           requestBody := r.requestBody.map (canonBody resolve)
           responses := r.responses.map (fun e => (e.1, canonResponse resolve e.2)) }

def canonScheme (s : SecurityScheme) : SecurityScheme := { s with id := 0 }

/-- The exporter's route emission order: group by path (first-occurrence
order), sort the path keys, flatten. -/
def canonRouteOrder (routes : List Route) : List Route :=
  let groups := groupRoutesByPath routes
  (sortStrings (groups.map Prod.fst)).flatMap (fun p => (mapGet? groups p).getD [])

/-- The id renaming a document induces: a ref target is renamed to the
index of its target's name in the document's name sequence (unresolvable
or anonymous targets get out-of-range codes; well-formedness rules them
out). -/
def docResolve (d : ApiDocument) : NodeId → Nat :=
  fun tid =>
    match mapGet? d.schemas tid with
    | some t =>
        match t.name with
        | some nm => idxOfStr nm (d.schemas.filterMap (fun e => e.2.name))
        | none => d.schemas.length + 1 + tid
    | none => d.schemas.length + 1 + tid

/-- A document up to identifier renaming: ids zeroed, refs renamed by
target name, map keys dropped, routes in the exporter's canonical
order. -/
structure CanonDoc where
  info : InfoObject
  servers : List Server
  routes : List Route
  schemas : List SchemaNode
  securitySchemes : List SecurityScheme
  tags : List Tag

def canonDoc (d : ApiDocument) : CanonDoc :=
  let resolve := docResolve d
  { info := d.info
    servers := d.servers
    tags := d.tags
    routes := (canonRouteOrder (d.routes.map Prod.snd)).map (canonRoute resolve)
    schemas := d.schemas.map (fun e => canonSchema resolve e.2)
    securitySchemes := d.securitySchemes.map (fun e => canonScheme e.2) }

-- Well-formedness: the structural invariants a zero-error parse
-- establishes, minus the degenerate shapes the exporter's
-- minimal-emission rules erase (each exclusion below is forced by a
-- round-trip failure of the excluded shape).

/-- Truthiness-safe optional text: absent or non-empty. -/
def wfOptStr : Option String → Bool
  | some s => !(decide (s = ""))
  | none => true

/-- The flat constraint fields that only primitive nodes may carry. -/
def noConstraints (core : SchemaCore) : Bool :=
  core.format.isNone && core.«example».isNone && core.default.isNone &&
  core.minimum.isNone && core.maximum.isNone &&
  core.minLength.isNone && core.maxLength.isNone && core.pattern.isNone

/-- A ref target must resolve to a named (truthy-named) schema. -/
def wfRefTarget (schemas : List (NodeId × SchemaNode)) (targetId : NodeId) : Bool :=
  match mapGet? schemas targetId with
  | some t =>
      match t.name with
      | some nm => !(decide (nm = ""))
      | none => false
  | none => false

/-- Duplicate-free association-list keys. -/
def keyNodup {K V : Type} [DecidableEq K] : List (K × V) → Bool
  | [] => true
  | (k, _) :: tl => (mapGet? tl k).isNone && keyNodup tl

def strListNodup : List String → Bool
  | [] => true
  | s :: tl => !(strIn s tl) && strListNodup tl

def pairListNodup : List (String × String) → Bool
  | [] => true
  | p :: tl => !(decide (p ∈ tl)) && pairListNodup tl

mutual
def wfEdge (schemas : List (NodeId × SchemaNode)) : SchemaOrRef → Bool
  | .ref targetId => wfRefTarget schemas targetId
  | .inline s => s.name.isNone && wfSchemaBody schemas s

def wfSchemaBody (schemas : List (NodeId × SchemaNode)) : SchemaNode → Bool
  | .mk core props items variants =>
      wfOptStr core.description &&
      (if core.type = "object" then
        wfPropsO schemas core.required props &&
        items.isNone && variants.isNone && core.enumValues.isNone &&
        core.discriminator.isNone && noConstraints core
      else if core.type = "array" then
        wfItemsO schemas items &&
        props.isNone && core.required.isNone && variants.isNone &&
        core.enumValues.isNone && core.discriminator.isNone && noConstraints core
      else if core.type = "enum" then
        (match core.enumValues with
         | some l => !(decide (l = []))
         | none => false) &&
        props.isNone && core.required.isNone && items.isNone && variants.isNone &&
        core.discriminator.isNone && noConstraints core
      else if core.type = "oneOf" ∨ core.type = "anyOf" ∨ core.type = "allOf" then
        wfVariantsO schemas variants &&
        props.isNone && core.required.isNone && items.isNone &&
        core.enumValues.isNone && noConstraints core &&
        (if core.type = "oneOf" then
          (match core.discriminator with
           | some dsc =>
               (match dsc.propertyName with
                | some p => !(decide (p = "")) && dsc.mapping.isNone
                | none => false)
           | none => true)
         else core.discriminator.isNone)
      else if core.type = "string" ∨ core.type = "number" ∨ core.type = "integer" ∨
              core.type = "boolean" then
        wfOptStr core.format && wfOptStr core.pattern &&
        props.isNone && core.required.isNone && items.isNone && variants.isNone &&
        core.enumValues.isNone && core.discriminator.isNone
      else false)

/-- The object-shape condition: a non-empty duplicate-free property map
present exactly when the `required` list is. -/
def wfPropsO (schemas : List (NodeId × SchemaNode)) (required : Option (List String)) :
    Option (List (String × PropertyDef)) → Bool
  | some l =>
      (match required with
       | some r => !(l.isEmpty) && keyNodup l && wfProps schemas r l
       | none => false)
  | none => required.isNone

def wfItemsO (schemas : List (NodeId × SchemaNode)) : Option SchemaOrRef → Bool
  | some e => wfEdge schemas e
  | none => true

def wfVariantsO (schemas : List (NodeId × SchemaNode)) : Option (List SchemaOrRef) → Bool
  | some l => !(l.isEmpty) && wfVariants schemas l
  | none => false

def wfProps (schemas : List (NodeId × SchemaNode)) (r : List String) :
    List (String × PropertyDef) → Bool
  | [] => true
  | (key, .mk pname pschema preq pdesc) :: tl =>
      decide (pname = key) && decide (preq = strIn pname r) && wfOptStr pdesc &&
      wfPropEdge schemas pdesc pschema &&
      wfProps schemas r tl

/-- The edge of a property: a resolvable ref, or an anonymous inline
schema whose description the property mirrors. -/
def wfPropEdge (schemas : List (NodeId × SchemaNode)) (pdesc : Option String) :
    SchemaOrRef → Bool
  | .ref targetId => wfRefTarget schemas targetId
  | .inline s' =>
      s'.name.isNone && wfSchemaBody schemas s' && decide (pdesc = s'.description)

def wfVariants (schemas : List (NodeId × SchemaNode)) : List SchemaOrRef → Bool
  | [] => true
  | e :: tl => wfEdge schemas e && wfVariants schemas tl
end

def wfParam (schemas : List (NodeId × SchemaNode)) (p : ParameterDef) : Bool :=
  !(decide (p.name = "")) && !(decide (p.«in» = "")) && wfOptStr p.description &&
  wfEdge schemas p.schema

def wfContent (schemas : List (NodeId × SchemaNode)) (c : List (String × MediaType)) : Bool :=
  keyNodup c && c.all (fun m => wfEdge schemas m.2.schema)

def wfBody (schemas : List (NodeId × SchemaNode)) (b : RequestBody) : Bool :=
  wfOptStr b.description && wfContent schemas b.content

def wfResponse (schemas : List (NodeId × SchemaNode)) (r : ResponseDef) : Bool :=
  !(decide (r.description = "")) &&
  (match r.content with
   | some c => !(c.isEmpty) && wfContent schemas c
   | none => true) &&
  r.headers.isNone

def wfRoute (schemas : List (NodeId × SchemaNode)) (r : Route) : Bool :=
  isHttpMethod r.method && wfOptStr r.summary && wfOptStr r.description &&
  wfOptStr r.operationId && !(decide (r.deprecated = some false)) &&
  r.security.isNone &&
  r.parameters.all (wfParam schemas) &&
  (match r.requestBody with
   | some b => wfBody schemas b
   | none => true) &&
  !(r.responses.isEmpty) && keyNodup r.responses &&
  r.responses.all (fun e => wfResponse schemas e.2)

def wfScheme (sch : SecurityScheme) : Bool :=
  !(decide (sch.type = "")) && wfOptStr sch.description && sch.flows.isNone &&
  (if sch.type = "http" then
    (match sch.scheme with
     | some s => !(decide (s = ""))
     | none => false) &&
    wfOptStr sch.bearerFormat && sch.«in».isNone && sch.paramName.isNone &&
    sch.openIdConnectUrl.isNone
  else if sch.type = "apiKey" then
    (match sch.«in» with
     | some s => !(decide (s = ""))
     | none => false) &&
    (match sch.paramName with
     | some s => !(decide (s = ""))
     | none => false) &&
    sch.scheme.isNone && sch.bearerFormat.isNone && sch.openIdConnectUrl.isNone
  else if sch.type = "openIdConnect" then
    wfOptStr sch.openIdConnectUrl && sch.scheme.isNone && sch.bearerFormat.isNone &&
    sch.«in».isNone && sch.paramName.isNone
  else
    sch.scheme.isNone && sch.bearerFormat.isNone && sch.«in».isNone &&
    sch.paramName.isNone && sch.openIdConnectUrl.isNone)

def wfInfo (i : InfoObject) : Bool :=
  !(decide (i.title = "")) && !(decide (i.version = "")) &&
  wfOptStr i.description && wfOptStr i.termsOfService &&
  (match i.contact with
   | none => true
   | some c =>
       wfOptStr c.name && wfOptStr c.url && wfOptStr c.email &&
       (c.name.isSome || c.email.isSome || c.url.isSome)) &&
  (match i.license with
   | none => true
   | some l => !(decide (l.name = "")) && wfOptStr l.url)

def wfServer (s : Server) : Bool :=
  !(decide (s.url = "")) && wfOptStr s.description && s.«variables».isNone

def wfTag (t : Tag) : Bool :=
  !(decide (t.name = "")) && wfOptStr t.description

/-- The well-formed documents of the amended round-trip claim: every
structural invariant a zero-error parse establishes (all top-level
schemas named with distinct truthy names, refs resolving to named
schemas, `required` flags mirrored, routes keyed by distinct
path/method pairs with at least one response, no headers/security/flows
payloads, etc.) minus the degenerate shapes the exporter erases (empty
enum/variant/property collections, constraint fields on non-primitive
nodes, empty-string optional texts, `deprecated: false`, empty response
content maps, contacts with no truthy field). -/
def wfDoc (d : ApiDocument) : Bool :=
  wfInfo d.info &&
  d.servers.all wfServer &&
  d.tags.all wfTag &&
  d.schemas.all (fun e =>
    (match e.2.name with
     | some nm => !(decide (nm = ""))
     | none => false) && wfSchemaBody d.schemas e.2) &&
  strListNodup (d.schemas.filterMap (fun e => e.2.name)) &&
  d.routes.all (fun e => wfRoute d.schemas e.2) &&
  pairListNodup (d.routes.map (fun e => (e.2.path, e.2.method))) &&
  d.securitySchemes.all (fun e => wfScheme e.2) &&
  strListNodup (d.securitySchemes.map (fun e => e.2.name))

-- ---------------------------------------------------------------------
-- Round-trip proof, phase 1: lookup and emission lemmas
-- ---------------------------------------------------------------------

theorem getF_append (l1 l2 : List (String × Json)) (k : String) :
    getF (l1 ++ l2) k = ((getF l1 k).elim (getF l2 k) some) := by
  induction l1 with
  | nil => rfl
  | cons hd tl ih =>
      obtain ⟨k', v⟩ := hd
      by_cases hk : k' = k <;> simp [getF, mapGet?, hk] at ih ⊢ <;> simpa using ih

theorem getF_nil (k : String) : getF [] k = none := rfl

theorem getF_cons (k' : String) (v : Json) (tl : List (String × Json)) (k : String) :
    getF ((k', v) :: tl) k = if k' = k then some v else getF tl k := rfl

theorem getF_optStrField_ne (k' k : String) (o : Option String) (h : k' ≠ k) :
    getF (optStrField k' o) k = none := by
  cases o with
  | none => rfl
  | some s =>
      by_cases hs : s = "" <;> simp [optStrField, hs, getF, mapGet?, h]

theorem getF_optStrField_self (k : String) (o : Option String) (h : wfOptStr o = true) :
    getF (optStrField k o) k = o.map Json.str := by
  cases o with
  | none => rfl
  | some s =>
      simp [wfOptStr] at h
      simp [optStrField, h, getF, mapGet?]

theorem mapSet_append_of_get_none {K V : Type} [DecidableEq K]
    (m : List (K × V)) (k : K) (v : V) (h : mapGet? m k = none) :
    mapSet m k v = m ++ [(k, v)] := by
  induction m with
  | nil => rfl
  | cons hd tl ih =>
      obtain ⟨k', v'⟩ := hd
      by_cases hk : k' = k
      · simp [mapGet?, hk] at h
      · simp only [mapGet?, hk, if_neg hk] at h
        simp [mapSet, hk, ih h]

theorem mapGet_append {K V : Type} [DecidableEq K]
    (l1 l2 : List (K × V)) (k : K) :
    mapGet? (l1 ++ l2) k = ((mapGet? l1 k).elim (mapGet? l2 k) some) := by
  induction l1 with
  | nil => rfl
  | cons hd tl ih =>
      obtain ⟨k', v⟩ := hd
      by_cases hk : k' = k <;> simp [mapGet?, hk] at ih ⊢ <;> simpa using ih

theorem asStrList_map_str (l : List String) :
    Json.asStrList? (.arr (l.map Json.str)) = some l := by
  induction l with
  | nil => rfl
  | cons hd tl ih =>
      simp only [Json.asStrList?] at ih ⊢
      simp [List.map, Json.asStrList?.collect, ih]

theorem charsStartWith_append (p q : List Char) : charsStartWith p (p ++ q) = true := by
  induction p with
  | nil => rfl
  | cons hd tl ih => simp [charsStartWith, ih]

theorem strIn_eq_contains (s : String) (l : List String) : l.contains s = strIn s l := by
  induction l with
  | nil => rfl
  | cons hd tl ih =>
      by_cases h : s = hd
      · simp [List.contains, strIn, h, List.elem_cons]
      · have : ¬ (hd == s) = true := by
          simpa [beq_iff_eq] using fun hh => h hh.symm
        simp [List.contains, strIn, h, List.elem_cons, this] at ih ⊢
        simpa [List.contains] using ih

theorem str_data_ne_nil (nm : String) (h : nm ≠ "") : nm.data ≠ [] := by
  intro hnil
  apply h
  cases nm with
  | mk l => cases hnil; rfl

/-- The match of the `$ref` regex on a well-formed emitted pointer. -/
theorem matchRefName_emitted (nm : String) (h : nm ≠ "") :
    matchRefName ("#/components/schemas/" ++ nm) = some nm := by
  have hdata : ("#/components/schemas/" ++ nm).data =
      refPathStart.data ++ nm.data := rfl
  have hmk : String.mk nm.data = nm := rfl
  have hpos : 0 < nm.data.length := List.length_pos.mpr (str_data_ne_nil nm h)
  have hlen : refPathStart.data.length < refPathStart.data.length + nm.data.length := by
    omega
  unfold matchRefName
  rw [hdata, charsStartWith_append]
  rw [List.length_append]
  rw [if_pos (by rw [Bool.true_and, decide_eq_true_eq]; exact hlen)]
  rw [List.drop_left, hmk]

/-- The emitted `$ref` pointer string is never empty. -/
theorem refEmitted_ne_empty (nm : String) : ("#/components/schemas/" ++ nm) ≠ "" := by
  intro h
  have hd : refPathStart.data ++ nm.data = ([] : List Char) := by
    have : ("#/components/schemas/" ++ nm).data = ("" : String).data := by rw [h]
    exact this
  simp [refPathStart] at hd

-- ---------------------------------------------------------------------
-- Round-trip proof, phase 2: field-lookup calculus over emitted objects
-- ---------------------------------------------------------------------

theorem getF_cons_self (k : String) (v : Json) (tl : List (String × Json)) :
    getF ((k, v) :: tl) k = some v := by
  simp [getF, mapGet?]

theorem getF_cons_ne (k' k : String) (v : Json) (tl : List (String × Json))
    (h : k' ≠ k) : getF ((k', v) :: tl) k = getF tl k := by
  simp [getF, mapGet?, h]

theorem getF_app_optStr (k' k : String) (o : Option String)
    (rest : List (String × Json)) (h : k' ≠ k) :
    getF (optStrField k' o ++ rest) k = getF rest k := by
  rw [getF_append, getF_optStrField_ne k' k o h]
  rfl

theorem getF_emitOptNum_ne (k' k : String) (o : Option Int) (h : k' ≠ k) :
    getF (emitOptNum k' o) k = none := by
  cases o <;> simp [emitOptNum, getF, mapGet?, h]

theorem getF_app_emitNum (k' k : String) (o : Option Int)
    (rest : List (String × Json)) (h : k' ≠ k) :
    getF (emitOptNum k' o ++ rest) k = getF rest k := by
  rw [getF_append, getF_emitOptNum_ne k' k o h]
  rfl

theorem getF_emitOptJson_ne (k' k : String) (o : Option Json) (h : k' ≠ k) :
    getF (emitOptJson k' o) k = none := by
  cases o <;> simp [emitOptJson, getF, mapGet?, h]

theorem getF_app_emitJson (k' k : String) (o : Option Json)
    (rest : List (String × Json)) (h : k' ≠ k) :
    getF (emitOptJson k' o ++ rest) k = getF rest k := by
  rw [getF_append, getF_emitOptJson_ne k' k o h]
  rfl

theorem getF_app_emitNum_self (k : String) (o : Option Int)
    (rest : List (String × Json)) (hrest : getF rest k = none) :
    getF (emitOptNum k o ++ rest) k = o.map Json.num := by
  cases o with
  | none => simpa [emitOptNum] using hrest
  | some n => simp [emitOptNum, getF, mapGet?]

theorem getF_app_emitJson_self (k : String) (o : Option Json)
    (rest : List (String × Json)) (hrest : getF rest k = none) :
    getF (emitOptJson k o ++ rest) k = o := by
  cases o with
  | none => simpa [emitOptJson] using hrest
  | some e => simp [emitOptJson, getF, mapGet?]

theorem getF_app_optStr_self (k : String) (o : Option String)
    (rest : List (String × Json)) (hwf : wfOptStr o = true)
    (hrest : getF rest k = none) :
    getF (optStrField k o ++ rest) k = o.map Json.str := by
  cases o with
  | none => simpa [optStrField] using hrest
  | some s =>
      simp only [wfOptStr, Bool.not_eq_true', decide_eq_false_iff_not] at hwf
      simp [optStrField, hwf, getF, mapGet?]

/-- `getField?` on an object value is the assoc-list lookup. -/
theorem getField_obj (fs : List (String × Json)) (k : String) :
    (Json.obj fs).getField? k = getF fs k := by
  show Json.getField?.lookupField fs k = getF fs k
  induction fs with
  | nil => rfl
  | cons hd tl ih =>
      obtain ⟨k', v⟩ := hd
      by_cases h : k' = k <;> simp [Json.getField?.lookupField, getF, mapGet?, h, ih]

theorem mapGet_mapSet_self {K V : Type} [DecidableEq K]
    (m : List (K × V)) (k : K) (v : V) : mapGet? (mapSet m k v) k = some v := by
  induction m with
  | nil => simp [mapSet, mapGet?]
  | cons hd tl ih =>
      obtain ⟨k', v'⟩ := hd
      by_cases h : k' = k <;> simp [mapSet, mapGet?, h, ih]

/-- Writing back a value that is already present leaves the map
unchanged. -/
theorem mapSet_of_get_eq {K V : Type} [DecidableEq K]
    (m : List (K × V)) (k : K) (v : V) (h : mapGet? m k = some v) :
    mapSet m k v = m := by
  induction m with
  | nil => simp [mapGet?] at h
  | cons hd tl ih =>
      obtain ⟨k', v'⟩ := hd
      by_cases hk : k' = k
      · subst hk
        simp [mapGet?] at h
        simp [mapSet, h]
      · simp only [mapGet?, if_neg hk] at h
        simp [mapSet, hk, ih h]

theorem strIn_iff_mem (s : String) (l : List String) : strIn s l = true ↔ s ∈ l := by
  induction l with
  | nil => simp [strIn]
  | cons hd tl ih =>
      by_cases h : s = hd <;> simp [strIn, h, ih]

-- Structural sizes used as strong-induction measures.

mutual
def sizeJson : Json → Nat
  | .null => 1
  | .bool _ => 1
  | .num _ => 1
  | .str _ => 1
  | .arr es => 1 + sizeJsonList es
  | .obj fs => 1 + sizeJsonFields fs

def sizeJsonList : List Json → Nat
  | [] => 0
  | v :: tl => 1 + sizeJson v + sizeJsonList tl

def sizeJsonFields : List (String × Json) → Nat
  | [] => 0
  | (_, v) :: tl => 1 + sizeJson v + sizeJsonFields tl
end

mutual
def sizeEdge : SchemaOrRef → Nat
  | .ref _ => 1
  | .inline s => 1 + sizeSchema s

def sizeSchema : SchemaNode → Nat
  | .mk _ props items variants =>
      1 + sizePropsO props + sizeItemsO items + sizeVariantsO variants

def sizePropsO : Option (List (String × PropertyDef)) → Nat
  | none => 0
  | some l => sizeProps l

def sizeItemsO : Option SchemaOrRef → Nat
  | none => 0
  | some e => sizeEdge e

def sizeVariantsO : Option (List SchemaOrRef) → Nat
  | none => 0
  | some l => sizeVariants l

def sizeProps : List (String × PropertyDef) → Nat
  | [] => 0
  | (_, .mk _ sch _ _) :: tl => 1 + sizeEdge sch + sizeProps tl

def sizeVariants : List SchemaOrRef → Nat
  | [] => 0
  | e :: tl => 1 + sizeEdge e + sizeVariants tl
end

/-- The `$ref` pre-check never draws an id. -/
theorem parseRefOutcome_ctr (fs : List (String × Json)) (reg : Registry)
    (st : PState) : (parseRefOutcome fs reg st).2.ctr = st.ctr := by
  unfold parseRefOutcome
  repeat' split
  all_goals simp [pushError]
  all_goals rfl

/-- Transitivity of a counter bound through a branch. -/
theorem ctr_le_ite {c : Prop} [Decidable c] {A : Type} (x y : A × PState) (m : Nat)
    (hx : c → m ≤ x.2.ctr) (hy : ¬c → m ≤ y.2.ctr) :
    m ≤ (if c then x else y).2.ctr := by
  split
  · exact hx ‹_›
  · exact hy ‹_›

/-- The schema parser never decreases the id counter (bundled over the
mutual walkers, by strong induction on the input size). -/
theorem parse_ctr_mono (reg : Registry) : ∀ n : Nat,
    (∀ data st, sizeJson data ≤ n → st.ctr ≤ (parseEdge data reg st).2.ctr) ∧
    (∀ req fs st, sizeJsonFields fs ≤ n →
       st.ctr ≤ (findParseProps req fs reg st).2.ctr) ∧
    (∀ props req st, sizeJsonFields props ≤ n →
       st.ctr ≤ (parsePropList props req reg st).2.ctr) ∧
    (∀ fs st, sizeJsonFields fs ≤ n → st.ctr ≤ (findParseItems fs reg st).2.ctr) ∧
    (∀ key fs st, sizeJsonFields fs ≤ n →
       st.ctr ≤ (findParseVariants key fs reg st).2.ctr) ∧
    (∀ vs st, sizeJsonList vs ≤ n → st.ctr ≤ (parseEdgeList vs reg st).2.ctr) := by
  intro n
  induction n using Nat.strong_induction_on with
  | _ n IH =>
  refine ⟨?_, ?_, ?_, ?_, ?_, ?_⟩
  · -- parseEdge
    intro data st hsz
    cases data
    case obj fs =>
      rcases hro : parseRefOutcome fs reg st with ⟨o, st1⟩
      have hctr1 : st1.ctr = st.ctr := by
        have h := parseRefOutcome_ctr fs reg st
        rw [hro] at h
        exact h
      cases o with
      | some tid => simp [parseEdge, hro, hctr1]
      | none =>
          have hfs : sizeJsonFields fs ≤ n - 1 := by
            simp [sizeJson] at hsz
            omega
          have hn : n - 1 < n := by
            have h1 : 1 ≤ sizeJson (Json.obj fs) := by simp [sizeJson]
            omega
          obtain ⟨_, hP, _, hI, hV, _⟩ := IH (n - 1) hn
          simp only [parseEdge, hro]
          have h1 : st.ctr ≤ ((genId st1).2).ctr := by simp [genId, hctr1]
          apply ctr_le_ite
          · intro _
            refine le_trans ?_ (hV _ fs _ hfs)
            apply ctr_le_ite
            · intro _
              refine le_trans ?_ (hI fs _ hfs)
              apply ctr_le_ite
              · intro _
                exact le_trans h1 (hP _ fs _ hfs)
              · intro _
                exact h1
            · intro _
              apply ctr_le_ite
              · intro _
                exact le_trans h1 (hP _ fs _ hfs)
              · intro _
                exact h1
          · intro _
            apply ctr_le_ite
            · intro _
              refine le_trans ?_ (hI fs _ hfs)
              apply ctr_le_ite
              · intro _
                exact le_trans h1 (hP _ fs _ hfs)
              · intro _
                exact h1
            · intro _
              apply ctr_le_ite
              · intro _
                exact le_trans h1 (hP _ fs _ hfs)
              · intro _
                exact h1
    all_goals
      simp [parseEdge, genId]
  · -- findParseProps
    intro req fs st hsz
    cases fs with
    | nil => simp [findParseProps]
    | cons hd tl =>
        obtain ⟨k, v⟩ := hd
        have hb : sizeJson v ≤ n - 1 ∧ sizeJsonFields tl ≤ n - 1 ∧ 0 < n := by
          simp [sizeJsonFields] at hsz
          have h1 : 1 ≤ sizeJson v := by cases v <;> simp [sizeJson] <;> omega
          omega
        have hn : n - 1 < n := by omega
        obtain ⟨_, hP, hL, _, _, _⟩ := IH (n - 1) hn
        by_cases hk : k = "properties"
        · subst hk
          cases v with
          | obj props =>
              have hprops : sizeJsonFields props ≤ n - 1 := by
                have h2 := hb.1
                simp [sizeJson] at h2
                omega
              have ht : jsTruthy (Json.obj props) = true := rfl
              simp only [findParseProps, eq_self_iff_true, if_true, ht]
              exact hL props req st hprops
          | null => simp only [findParseProps, eq_self_iff_true, if_true]
                    split <;> simp
          | bool b => simp only [findParseProps, eq_self_iff_true, if_true]
                      split <;> simp
          | num m => simp only [findParseProps, eq_self_iff_true, if_true]
                     split <;> simp
          | str s => simp only [findParseProps, eq_self_iff_true, if_true]
                     split <;> simp
          | arr es => simp only [findParseProps, eq_self_iff_true, if_true]
                      split <;> simp
        · rw [findParseProps.eq_def]
          dsimp only
          rw [if_neg hk]
          exact hP req tl st hb.2.1
  · -- parsePropList
    intro props req st hsz
    cases props with
    | nil => simp [parsePropList]
    | cons hd tl =>
        obtain ⟨nm, pdata⟩ := hd
        have hb : sizeJson pdata ≤ n - 1 ∧ sizeJsonFields tl ≤ n - 1 ∧ 0 < n := by
          simp [sizeJsonFields] at hsz
          have h1 : 1 ≤ sizeJson pdata := by cases pdata <;> simp [sizeJson] <;> omega
          omega
        have hn : n - 1 < n := by omega
        obtain ⟨hE, _, hL, _, _, _⟩ := IH (n - 1) hn
        simp only [parsePropList]
        exact le_trans (hE pdata st hb.1) (hL tl req _ hb.2.1)
  · -- findParseItems
    intro fs st hsz
    cases fs with
    | nil => simp [findParseItems]
    | cons hd tl =>
        obtain ⟨k, v⟩ := hd
        have hb : sizeJson v ≤ n - 1 ∧ sizeJsonFields tl ≤ n - 1 ∧ 0 < n := by
          simp [sizeJsonFields] at hsz
          have h1 : 1 ≤ sizeJson v := by cases v <;> simp [sizeJson] <;> omega
          omega
        have hn : n - 1 < n := by omega
        obtain ⟨hE, _, _, hI, _, _⟩ := IH (n - 1) hn
        by_cases hk : k = "items"
        · subst hk
          by_cases ht : jsTruthy v = true
          · simp only [findParseItems, eq_self_iff_true, if_true, ht]
            exact hE v st hb.1
          · simp [findParseItems, ht]
        · rw [findParseItems.eq_def]
          dsimp only
          rw [if_neg hk]
          exact hI tl st hb.2.1
  · -- findParseVariants
    intro key fs st hsz
    cases fs with
    | nil => simp [findParseVariants]
    | cons hd tl =>
        obtain ⟨k, v⟩ := hd
        have hb : sizeJson v ≤ n - 1 ∧ sizeJsonFields tl ≤ n - 1 ∧ 0 < n := by
          simp [sizeJsonFields] at hsz
          have h1 : 1 ≤ sizeJson v := by cases v <;> simp [sizeJson] <;> omega
          omega
        have hn : n - 1 < n := by omega
        obtain ⟨_, _, _, _, hV, hLst⟩ := IH (n - 1) hn
        by_cases hk : k = key
        · subst hk
          cases v with
          | arr vs =>
              have hvs : sizeJsonList vs ≤ n - 1 := by
                have h2 := hb.1
                simp [sizeJson] at h2
                omega
              simp only [findParseVariants, eq_self_iff_true, if_true]
              exact hLst vs st hvs
          | null => simp [findParseVariants]
          | bool b => simp [findParseVariants]
          | num m => simp [findParseVariants]
          | str s => simp [findParseVariants]
          | obj fs2 => simp [findParseVariants]
        · rw [findParseVariants.eq_def]
          dsimp only
          rw [if_neg hk]
          exact hV key tl st hb.2.1
  · -- parseEdgeList
    intro vs st hsz
    cases vs with
    | nil => simp [parseEdgeList]
    | cons v tl =>
        have hb : sizeJson v ≤ n - 1 ∧ sizeJsonList tl ≤ n - 1 ∧ 0 < n := by
          simp [sizeJsonList] at hsz
          have h1 : 1 ≤ sizeJson v := by cases v <;> simp [sizeJson] <;> omega
          omega
        have hn : n - 1 < n := by omega
        obtain ⟨hE, _, _, _, _, hLst⟩ := IH (n - 1) hn
        simp only [parseEdgeList]
        exact le_trans (hE v st hb.1) (hLst tl _ hb.2.1)

theorem parseEdge_ctr_mono (data : Json) (reg : Registry) (st : PState) :
    st.ctr ≤ (parseEdge data reg st).2.ctr :=
  (parse_ctr_mono reg (sizeJson data)).1 data st le_rfl

theorem parseParameter_ctr_mono (data : Json) (reg : Registry) (st : PState) :
    st.ctr ≤ (parseParameter data reg st).2.ctr := by
  unfold parseParameter
  cases h : data.truthyField? "schema" with
  | none =>
      simp [h, genId]
      omega
  | some sv =>
      simp only [h, genId]
      have h2 := parseEdge_ctr_mono sv reg { st with ctr := st.ctr + 1 }
      simp at h2
      omega

theorem parseParamList_ctr_mono (elems : List Json) (reg : Registry) (st : PState) :
    st.ctr ≤ (parseParamList elems reg st).2.ctr := by
  induction elems generalizing st with
  | nil => simp [parseParamList]
  | cons p tl ih =>
      simp only [parseParamList]
      exact le_trans (parseParameter_ctr_mono p reg st) (ih _)

theorem parseContentEntries_ctr_mono (entries : List (String × Json))
    (deflt : SchemaType) (reg : Registry) (st : PState) :
    st.ctr ≤ (parseContentEntries entries deflt reg st).2.ctr := by
  induction entries generalizing st with
  | nil => simp [parseContentEntries]
  | cons hd tl ih =>
      obtain ⟨ct, media⟩ := hd
      simp only [parseContentEntries]
      refine le_trans ?_ (ih _)
      cases h : media.truthyField? "schema" with
      | none => simp [h, genId]
      | some sv =>
          simp only [h]
          exact parseEdge_ctr_mono sv reg st

theorem parseRequestBody_ctr_mono (data : Json) (reg : Registry) (st : PState) :
    st.ctr ≤ (parseRequestBody data reg st).2.ctr := by
  unfold parseRequestBody
  simp only [genId]
  have h1 : st.ctr ≤ (match data.truthyField? "content" with
      | some (.obj entries) => parseContentEntries entries "object" reg st
      | _ => ([], st)).2.ctr := by
    cases h : data.truthyField? "content" with
    | none => simp
    | some v =>
        cases v <;> simp [parseContentEntries_ctr_mono]
  have h2 := h1
  omega

theorem parseResponse_ctr_mono (data : Json) (reg : Registry) (st : PState) :
    st.ctr ≤ (parseResponse data reg st).2.ctr := by
  unfold parseResponse
  simp only [genId]
  have h1 : ∀ st' : PState, st'.ctr ≤ (match data.truthyField? "content" with
      | some (.obj entries) =>
          ((some (parseContentEntries entries "object" reg st').1,
            (parseContentEntries entries "object" reg st').2) :
            Option (List (String × MediaType)) × PState)
      | _ => (none, st')).2.ctr := by
    intro st'
    cases h : data.truthyField? "content" with
    | none => simp
    | some v =>
        cases v <;> simp [parseContentEntries_ctr_mono]
  have h2 := h1 { st with ctr := st.ctr + 1 }
  simp at h2
  omega

theorem parseResponseEntries_ctr_mono (entries : List (String × Json)) (reg : Registry)
    (st : PState) (acc : List (String × ResponseDef)) :
    st.ctr ≤ (parseResponseEntries entries reg st acc).2.ctr := by
  induction entries generalizing st acc with
  | nil => simp [parseResponseEntries]
  | cons hd tl ih =>
      obtain ⟨sc, rd⟩ := hd
      simp only [parseResponseEntries]
      exact le_trans (parseResponse_ctr_mono rd reg st) (ih _ _)

theorem ensureResponses_ctr_mono (responses0 : List (String × ResponseDef)) (st : PState) :
    st.ctr ≤ (ensureResponses responses0 st).2.ctr := by
  unfold ensureResponses
  split <;> simp [genId]

/-- `parseOperation` draws the route id first: the returned route is
labelled with the entry counter. -/
theorem parseOperation_id (path : String) (method : HttpMethod) (data : Json)
    (reg : Registry) (st : PState) :
    (parseOperation path method data reg st).1.id = st.ctr := rfl

theorem parseOperation_ctr_mono (path : String) (method : HttpMethod) (data : Json)
    (reg : Registry) (st : PState) :
    st.ctr < (parseOperation path method data reg st).2.ctr := by
  unfold parseOperation
  simp only [genId]
  have h1 : ∀ st' : PState, st'.ctr ≤ (match data.truthyField? "parameters" with
      | some (.arr elems) => parseParamList elems reg st'
      | _ => ([], st')).2.ctr := by
    intro st'
    cases h : data.truthyField? "parameters" with
    | none => simp
    | some v => cases v <;> simp [parseParamList_ctr_mono]
  have h2 : ∀ st' : PState, st'.ctr ≤ ((match data.truthyField? "requestBody" with
      | some bv => (some (parseRequestBody bv reg st').1, (parseRequestBody bv reg st').2)
      | none => (none, st')) : Option RequestBody × PState).2.ctr := by
    intro st'
    cases h : data.truthyField? "requestBody" with
    | none => simp
    | some bv => simp [parseRequestBody_ctr_mono]
  have h3 : ∀ st' : PState, st'.ctr ≤ (match data.truthyField? "responses" with
      | some (.obj entries) => parseResponseEntries entries reg st' []
      | _ => ([], st')).2.ctr := by
    intro st'
    cases h : data.truthyField? "responses" with
    | none => simp
    | some v => cases v <;> simp [parseResponseEntries_ctr_mono]
  have h4 := h1 { st with ctr := st.ctr + 1 }
  have h5 := h2 (match data.truthyField? "parameters" with
      | some (.arr elems) => parseParamList elems reg { st with ctr := st.ctr + 1 }
      | _ => ([], { st with ctr := st.ctr + 1 })).2
  have h6 := h3 ((match data.truthyField? "requestBody" with
      | some bv =>
          (some (parseRequestBody bv reg (match data.truthyField? "parameters" with
              | some (.arr elems) => parseParamList elems reg { st with ctr := st.ctr + 1 }
              | _ => ([], { st with ctr := st.ctr + 1 })).2).1,
           (parseRequestBody bv reg (match data.truthyField? "parameters" with
              | some (.arr elems) => parseParamList elems reg { st with ctr := st.ctr + 1 }
              | _ => ([], { st with ctr := st.ctr + 1 })).2).2)
      | none => (none, (match data.truthyField? "parameters" with
              | some (.arr elems) => parseParamList elems reg { st with ctr := st.ctr + 1 }
              | _ => ([], { st with ctr := st.ctr + 1 })).2)) :
        Option RequestBody × PState).2
  have h7 := ensureResponses_ctr_mono (match data.truthyField? "responses" with
      | some (.obj entries) => parseResponseEntries entries reg ((match data.truthyField? "requestBody" with
          | some bv =>
              (some (parseRequestBody bv reg (match data.truthyField? "parameters" with
                  | some (.arr elems) => parseParamList elems reg { st with ctr := st.ctr + 1 }
                  | _ => ([], { st with ctr := st.ctr + 1 })).2).1,
               (parseRequestBody bv reg (match data.truthyField? "parameters" with
                  | some (.arr elems) => parseParamList elems reg { st with ctr := st.ctr + 1 }
                  | _ => ([], { st with ctr := st.ctr + 1 })).2).2)
          | none => (none, (match data.truthyField? "parameters" with
                  | some (.arr elems) => parseParamList elems reg { st with ctr := st.ctr + 1 }
                  | _ => ([], { st with ctr := st.ctr + 1 })).2)) :
            Option RequestBody × PState).2 []
      | _ => ([], ((match data.truthyField? "requestBody" with
          | some bv =>
              (some (parseRequestBody bv reg (match data.truthyField? "parameters" with
                  | some (.arr elems) => parseParamList elems reg { st with ctr := st.ctr + 1 }
                  | _ => ([], { st with ctr := st.ctr + 1 })).2).1,
               (parseRequestBody bv reg (match data.truthyField? "parameters" with
                  | some (.arr elems) => parseParamList elems reg { st with ctr := st.ctr + 1 }
                  | _ => ([], { st with ctr := st.ctr + 1 })).2).2)
          | none => (none, (match data.truthyField? "parameters" with
                  | some (.arr elems) => parseParamList elems reg { st with ctr := st.ctr + 1 }
                  | _ => ([], { st with ctr := st.ctr + 1 })).2)) :
            Option RequestBody × PState).2)).1
    (match data.truthyField? "responses" with
      | some (.obj entries) => parseResponseEntries entries reg ((match data.truthyField? "requestBody" with
          | some bv =>
              (some (parseRequestBody bv reg (match data.truthyField? "parameters" with
                  | some (.arr elems) => parseParamList elems reg { st with ctr := st.ctr + 1 }
                  | _ => ([], { st with ctr := st.ctr + 1 })).2).1,
               (parseRequestBody bv reg (match data.truthyField? "parameters" with
                  | some (.arr elems) => parseParamList elems reg { st with ctr := st.ctr + 1 }
                  | _ => ([], { st with ctr := st.ctr + 1 })).2).2)
          | none => (none, (match data.truthyField? "parameters" with
                  | some (.arr elems) => parseParamList elems reg { st with ctr := st.ctr + 1 }
                  | _ => ([], { st with ctr := st.ctr + 1 })).2)) :
            Option RequestBody × PState).2 []
      | _ => ([], ((match data.truthyField? "requestBody" with
          | some bv =>
              (some (parseRequestBody bv reg (match data.truthyField? "parameters" with
                  | some (.arr elems) => parseParamList elems reg { st with ctr := st.ctr + 1 }
                  | _ => ([], { st with ctr := st.ctr + 1 })).2).1,
               (parseRequestBody bv reg (match data.truthyField? "parameters" with
                  | some (.arr elems) => parseParamList elems reg { st with ctr := st.ctr + 1 }
                  | _ => ([], { st with ctr := st.ctr + 1 })).2).2)
          | none => (none, (match data.truthyField? "parameters" with
                  | some (.arr elems) => parseParamList elems reg { st with ctr := st.ctr + 1 }
                  | _ => ([], { st with ctr := st.ctr + 1 })).2)) :
            Option RequestBody × PState).2)).2
  simp only [] at h4 h5 h6 h7 ⊢
  omega

set_option maxHeartbeats 4000000 in
/-- One-step unfolding of the schema serializer on a destructured node
(the auto-generated unfold lemma is unavailable for this nested mutual
definition, but the equation holds definitionally). -/
theorem serializeSchemaF_unfold (refFn : NodeId → Json) (core : SchemaCore)
    (props : Option (List (String × PropertyDef))) (items : Option SchemaOrRef)
    (variants : Option (List SchemaOrRef)) :
    serializeSchemaF refFn (.mk core props items variants) =
      (if core.type = "oneOf" ∨ core.type = "anyOf" ∨ core.type = "allOf" then
        Json.obj (
          serializeVariantsField refFn core.type variants ++
          (match core.discriminator with
           | some d =>
               if core.type = "oneOf" then
                 match d.propertyName with
                 | some p => if p ≠ "" then
                     [("discriminator", Json.obj [("propertyName", .str p)])] else []
                 | none => []
               else []
           | none => []) ++
          optStrField "description" core.description)
      else if core.type = "enum" then
        Json.obj (
          [("type", Json.str "string")] ++
          (match core.enumValues with
           | some vs => if vs.length > 0 then [("enum", Json.arr (vs.map Json.str))] else []
           | none => []) ++
          optStrField "description" core.description)
      else if core.type = "array" then
        Json.obj (
          [("type", Json.str "array")] ++
          serializeItemsField refFn items ++
          optStrField "description" core.description)
      else if core.type = "object" then
        Json.obj (
          [("type", Json.str "object")] ++
          serializePropsField refFn props ++
          (match core.required with
           | some r => if r.length > 0 then [("required", Json.arr (r.map Json.str))] else []
           | none => []) ++
          optStrField "description" core.description)
      else
        Json.obj (
          [("type", Json.str core.type)] ++
          optStrField "description" core.description ++
          optStrField "format" core.format ++
          emitOptNum "minimum" core.minimum ++
          emitOptNum "maximum" core.maximum ++
          emitOptNum "minLength" core.minLength ++
          emitOptNum "maxLength" core.maxLength ++
          optStrField "pattern" core.pattern ++
          emitOptJson "example" core.«example» ++
          emitOptJson "default" core.default)) := rfl

/-- The schema serializer always emits an object. -/
theorem serializeSchemaF_is_obj (refFn : NodeId → Json) (s : SchemaNode) :
    ∃ fs, serializeSchemaF refFn s = Json.obj fs := by
  cases s with
  | mk core props items variants =>
      rw [serializeSchemaF_unfold]
      split
      · exact ⟨_, rfl⟩
      split
      · exact ⟨_, rfl⟩
      split
      · exact ⟨_, rfl⟩
      split
      · exact ⟨_, rfl⟩
      exact ⟨_, rfl⟩

theorem jsTruthy_serializeSchemaF (refFn : NodeId → Json) (s : SchemaNode) :
    jsTruthy (serializeSchemaF refFn s) = true := by
  obtain ⟨fs, h⟩ := serializeSchemaF_is_obj refFn s
  rw [h]
  rfl

/-- Forcing the `name` field of a schema node. -/
def setSchemaName (nm : Option String) : SchemaNode → SchemaNode
  | .mk core p i v => .mk { core with name := nm } p i v

theorem setSchemaName_self (s : SchemaNode) (nm : Option String) (h : s.name = nm) :
    setSchemaName nm s = s := by
  cases s with
  | mk core p i v =>
      have h2 : core.name = nm := h
      subst h2
      rfl

theorem canonSchema_name (R : NodeId → Nat) (s : SchemaNode) :
    (canonSchema R s).name = s.name := by
  cases s with
  | mk core p i v => rfl

theorem parseSchema_name (data : Json) (nm : Option String) (id0 : NodeId)
    (reg : Registry) (st : PState) :
    (parseSchema data nm id0 reg st).1.name = nm := by
  cases data <;> rfl

/-- On an object with no `$ref` key, `parseSchemaOrRef` is the inline
branch: an anonymous `parseSchema` under a fresh id. -/
theorem parseEdge_as_parseSchema (fs : List (String × Json)) (reg : Registry) (st : PState)
    (h : strF fs "$ref" = none) :
    parseEdge (.obj fs) reg st =
      (.inline (parseSchema (.obj fs) none st.ctr reg { st with ctr := st.ctr + 1 }).1,
       (parseSchema (.obj fs) none st.ctr reg { st with ctr := st.ctr + 1 }).2) := by
  have hro : parseRefOutcome fs reg st = (none, st) := by
    unfold parseRefOutcome
    rw [h]
  rw [parseEdge.eq_def]
  dsimp only
  rw [hro]
  rw [parseSchema.eq_def]
  dsimp only
  simp [genId]

theorem wfSchemaBody_unfold (schemas : List (NodeId × SchemaNode)) (core : SchemaCore)
    (props : Option (List (String × PropertyDef))) (items : Option SchemaOrRef)
    (variants : Option (List SchemaOrRef)) :
    wfSchemaBody schemas (.mk core props items variants) =
      (wfOptStr core.description &&
      (if core.type = "object" then
        wfPropsO schemas core.required props &&
        items.isNone && variants.isNone && core.enumValues.isNone &&
        core.discriminator.isNone && noConstraints core
      else if core.type = "array" then
        wfItemsO schemas items &&
        props.isNone && core.required.isNone && variants.isNone &&
        core.enumValues.isNone && core.discriminator.isNone && noConstraints core
      else if core.type = "enum" then
        (match core.enumValues with
         | some l => !(decide (l = []))
         | none => false) &&
        props.isNone && core.required.isNone && items.isNone && variants.isNone &&
        core.discriminator.isNone && noConstraints core
      else if core.type = "oneOf" ∨ core.type = "anyOf" ∨ core.type = "allOf" then
        wfVariantsO schemas variants &&
        props.isNone && core.required.isNone && items.isNone &&
        core.enumValues.isNone && noConstraints core &&
        (if core.type = "oneOf" then
          (match core.discriminator with
           | some dsc =>
               (match dsc.propertyName with
                | some p => !(decide (p = "")) && dsc.mapping.isNone
                | none => false)
           | none => true)
         else core.discriminator.isNone)
      else if core.type = "string" ∨ core.type = "number" ∨ core.type = "integer" ∨
              core.type = "boolean" then
        wfOptStr core.format && wfOptStr core.pattern &&
        props.isNone && core.required.isNone && items.isNone && variants.isNone &&
        core.enumValues.isNone && core.discriminator.isNone
      else false)) := rfl

theorem canonSchema_unfold (R : NodeId → Nat) (core : SchemaCore)
    (props : Option (List (String × PropertyDef))) (items : Option SchemaOrRef)
    (variants : Option (List SchemaOrRef)) :
    canonSchema R (.mk core props items variants) =
      .mk { core with id := 0 } (canonPropsO R props) (canonItemsO R items)
        (canonVariantsO R variants) := rfl

theorem sizeSchema_unfold (core : SchemaCore)
    (props : Option (List (String × PropertyDef))) (items : Option SchemaOrRef)
    (variants : Option (List SchemaOrRef)) :
    sizeSchema (.mk core props items variants) =
      1 + sizePropsO props + sizeItemsO items + sizeVariantsO variants := rfl

-- getF pass-through lemmas for the serializer's emitted components

theorem getF_serializePropsField_ne (refFn : NodeId → Json)
    (o : Option (List (String × PropertyDef))) (rest : List (String × Json))
    (k : String) (h : k ≠ "properties") :
    getF (serializePropsField refFn o ++ rest) k = getF rest k := by
  cases o with
  | none => rfl
  | some l =>
      by_cases hl : l.length > 0 <;>
        simp [serializePropsField, hl, getF, mapGet?, Ne.symm h]

theorem getF_serializeItemsField_ne (refFn : NodeId → Json)
    (o : Option SchemaOrRef) (rest : List (String × Json))
    (k : String) (h : k ≠ "items") :
    getF (serializeItemsField refFn o ++ rest) k = getF rest k := by
  cases o with
  | none => rfl
  | some e => simp [serializeItemsField, getF, mapGet?, Ne.symm h]

theorem getF_serializeVariantsField_ne (refFn : NodeId → Json) (ty : SchemaType)
    (o : Option (List SchemaOrRef)) (rest : List (String × Json))
    (k : String) (h : k ≠ ty) :
    getF (serializeVariantsField refFn ty o ++ rest) k = getF rest k := by
  cases o with
  | none => rfl
  | some vs =>
      by_cases hl : vs.length > 0 <;>
        simp [serializeVariantsField, hl, getF, mapGet?, Ne.symm h]

theorem getF_ite_single_ne (c : Prop) [Decidable c] (k' k : String) (v : Json)
    (h : k' ≠ k) :
    getF (if c then [(k', v)] else []) k = none := by
  split <;> simp [getF, mapGet?, h]

theorem getF_ite_single_self (c : Prop) [Decidable c] (k : String) (v : Json) :
    getF (if c then [(k, v)] else []) k = if c then some v else none := by
  split <;> simp [getF, mapGet?]

theorem getF_ite_single_ne_rev (c : Prop) [Decidable c] (k' k : String) (v : Json)
    (h : k' ≠ k) :
    getF (if c then [] else [(k', v)]) k = none := by
  split <;> simp [getF, mapGet?, h]

theorem getF_ite_single_self_rev (c : Prop) [Decidable c] (k : String) (v : Json) :
    getF (if c then [] else [(k, v)]) k = if c then none else some v := by
  split <;> simp [getF, mapGet?]

theorem getF_emitOptNum_self (k : String) (o : Option Int) :
    getF (emitOptNum k o) k = o.map Json.num := by
  cases o <;> simp [emitOptNum, getF, mapGet?]

theorem getF_emitOptJson_self (k : String) (o : Option Json) :
    getF (emitOptJson k o) k = o := by
  cases o <;> simp [emitOptJson, getF, mapGet?]

theorem getF_serializePropsField_base (refFn : NodeId → Json)
    (o : Option (List (String × PropertyDef))) (k : String) (h : k ≠ "properties") :
    getF (serializePropsField refFn o) k = none := by
  cases o with
  | none => rfl
  | some l =>
      by_cases hl : l.length > 0 <;>
        simp [serializePropsField, hl, getF, mapGet?, Ne.symm h]

theorem getF_serializeItemsField_base (refFn : NodeId → Json)
    (o : Option SchemaOrRef) (k : String) (h : k ≠ "items") :
    getF (serializeItemsField refFn o) k = none := by
  cases o with
  | none => rfl
  | some e => simp [serializeItemsField, getF, mapGet?, Ne.symm h]

theorem getF_serializeVariantsField_base (refFn : NodeId → Json) (ty : SchemaType)
    (o : Option (List SchemaOrRef)) (k : String) (h : k ≠ ty) :
    getF (serializeVariantsField refFn ty o) k = none := by
  cases o with
  | none => rfl
  | some vs =>
      by_cases hl : vs.length > 0 <;>
        simp [serializeVariantsField, hl, getF, mapGet?, Ne.symm h]

/-- The schema serializer never emits a top-level `$ref` key. -/
theorem serializeSchemaF_no_ref (refFn : NodeId → Json) (core : SchemaCore)
    (props : Option (List (String × PropertyDef))) (items : Option SchemaOrRef)
    (variants : Option (List SchemaOrRef)) :
    (serializeSchemaF refFn (.mk core props items variants)).getField? "$ref" = none := by
  rw [serializeSchemaF_unfold]
  split
  · rename_i h
    rw [getField_obj]
    rcases h with h | h | h <;> rw [h] <;>
    [skip; skip; skip] <;>
    · cases hd : core.discriminator with
      | none =>
          simp [getF_append, getF_nil, getF_ite_single_ne,
            getF_optStrField_ne, getF_serializeVariantsField_base]
      | some d =>
          cases hp : d.propertyName with
          | none =>
              simp [getF_append, getF_nil, getF_ite_single_ne,
                getF_optStrField_ne, getF_serializeVariantsField_base, hp]
          | some p =>
              simp [getF_append, getF_nil, getF_ite_single_ne,
                getF_ite_single_ne_rev, getF_optStrField_ne,
                getF_serializeVariantsField_base, hp]
  split
  · rw [getField_obj]
    cases he : core.enumValues <;>
      simp [getF_append, getF_nil, getF_cons_ne, getF_ite_single_ne,
        getF_optStrField_ne]
  split
  · rw [getField_obj]
    simp [getF_append, getF_nil, getF_cons_ne, getF_ite_single_ne,
      getF_optStrField_ne, getF_serializeItemsField_base]
  split
  · rw [getField_obj]
    cases hr : core.required <;>
      simp [getF_append, getF_nil, getF_cons_ne, getF_ite_single_ne,
        getF_optStrField_ne, getF_serializePropsField_base]
  · rw [getField_obj]
    simp [getF_append, getF_nil, getF_cons_ne, getF_emitOptJson_ne,
      getF_emitOptNum_ne, getF_optStrField_ne]

/-- The serializer's top-level `description` key is exactly the node's
(truthiness-safe) description. -/
theorem serializeSchemaF_desc_key (refFn : NodeId → Json) (core : SchemaCore)
    (props : Option (List (String × PropertyDef))) (items : Option SchemaOrRef)
    (variants : Option (List SchemaOrRef)) (hdesc : wfOptStr core.description = true) :
    (serializeSchemaF refFn (.mk core props items variants)).getField? "description" =
      core.description.map Json.str := by
  have hself : getF (optStrField "description" core.description) "description" =
      core.description.map Json.str := getF_optStrField_self _ _ hdesc
  rw [serializeSchemaF_unfold]
  split
  · rename_i h
    rw [getField_obj]
    rcases h with h | h | h <;> rw [h] <;>
    [skip; skip; skip] <;>
    · cases hd : core.discriminator with
      | none =>
          simp [getF_append, getF_nil, getF_ite_single_ne,
            getF_serializeVariantsField_base, hself]
      | some d =>
          cases hp : d.propertyName with
          | none =>
              simp [getF_append, getF_nil, getF_ite_single_ne,
                getF_serializeVariantsField_base, hp, hself]
          | some p =>
              simp [getF_append, getF_nil, getF_ite_single_ne,
                getF_ite_single_ne_rev, getF_serializeVariantsField_base,
                hp, hself]
  split
  · rw [getField_obj]
    cases he : core.enumValues <;>
      simp [getF_append, getF_nil, getF_cons_ne, getF_ite_single_ne, hself]
  split
  · rw [getField_obj]
    simp [getF_append, getF_nil, getF_cons_ne,
      getF_serializeItemsField_base, hself]
  split
  · rw [getField_obj]
    cases hr : core.required <;>
      simp [getF_append, getF_nil, getF_cons_ne, getF_ite_single_ne,
        getF_serializePropsField_base, hself]
  · rw [getField_obj]
    simp [getF_append, getF_nil, getF_cons_ne, getF_emitOptJson_ne,
      getF_emitOptNum_ne, getF_optStrField_ne, hself]
    cases core.description <;> simp

theorem map_str_bind_asStr (o : Option String) :
    (o.map Json.str).bind Json.asStr? = o := by
  cases o <;> rfl

theorem strF_map_str (fs : List (String × Json)) (k : String) (o : Option String)
    (hg : getF fs k = o.map Json.str) : strF fs k = o := by
  cases o <;> simp [strF, hg, Json.asStr?]

theorem numF_map_num (fs : List (String × Json)) (k : String) (o : Option Int)
    (hg : getF fs k = o.map Json.num) : numF fs k = o := by
  cases o <;> simp [numF, hg, Json.asInt?]

theorem truthyStrF_map_str (fs : List (String × Json)) (k : String) (o : Option String)
    (hg : getF fs k = o.map Json.str) (hwf : wfOptStr o = true) :
    truthyStrF fs k = o := by
  cases o with
  | none => simp [truthyStrF, truthyF, hg]
  | some s =>
      simp only [wfOptStr, Bool.not_eq_true', decide_eq_false_iff_not] at hwf
      simp [truthyStrF, truthyF, hg, jsTruthy, hwf, Json.asStr?]

theorem truthyF_none_of_get_none (fs : List (String × Json)) (k : String)
    (hg : getF fs k = none) : truthyF fs k = none := by
  simp [truthyF, hg]

theorem elim_none_some {α : Type} (o : Option α) :
    (o.elim none some : Option α) = o := by
  cases o <;> rfl

theorem map_num_bind_asInt (o : Option Int) :
    (o.map Json.num).bind Json.asInt? = o := by
  cases o <;> rfl

theorem asStr_str (s : String) : Json.asStr? (Json.str s) = some s := rfl

/-- The primitive branch's emitted field list, right-nested for the
lookup calculus. -/
def primFields (cty : SchemaType) (cdesc cfmt : Option String)
    (cmin cmax cminl cmaxl : Option Int) (cpat : Option String)
    (cex cdef : Option Json) : List (String × Json) :=
  ("type", Json.str cty) ::
    (optStrField "description" cdesc ++
      (optStrField "format" cfmt ++
        (emitOptNum "minimum" cmin ++
          (emitOptNum "maximum" cmax ++
            (emitOptNum "minLength" cminl ++
              (emitOptNum "maxLength" cmaxl ++
                (optStrField "pattern" cpat ++
                  (emitOptJson "example" cex ++ emitOptJson "default" cdef))))))))

theorem serializePrim_eq (refFn : NodeId → Json)
    (cid : NodeId) (cnm : Option String) (cty : SchemaType) (cdesc : Option String)
    (cfmt : Option String) (cex cdef : Option Json) (cmin cmax cminl cmaxl : Option Int)
    (cpat : Option String)
    (hty : cty = "string" ∨ cty = "number" ∨ cty = "integer" ∨ cty = "boolean") :
    serializeSchemaF refFn
        (.mk ⟨cid, cnm, cty, cdesc, none, none, cfmt, cex, cdef, cmin, cmax, cminl,
          cmaxl, cpat, none⟩ none none none) =
      Json.obj (primFields cty cdesc cfmt cmin cmax cminl cmaxl cpat cex cdef) := by
  rw [serializeSchemaF_unfold]
  rcases hty with hty | hty | hty | hty <;> subst hty <;>
    simp [primFields, List.append_assoc]

theorem getF_primFields_no_comp (cty : SchemaType) (cdesc cfmt : Option String)
    (cmin cmax cminl cmaxl : Option Int) (cpat : Option String)
    (cex cdef : Option Json) (k : String)
    (h1 : k ≠ "type") (h2 : k ≠ "description") (h3 : k ≠ "format")
    (h4 : k ≠ "minimum") (h5 : k ≠ "maximum") (h6 : k ≠ "minLength")
    (h7 : k ≠ "maxLength") (h8 : k ≠ "pattern") (h9 : k ≠ "example")
    (h10 : k ≠ "default") :
    getF (primFields cty cdesc cfmt cmin cmax cminl cmaxl cpat cex cdef) k = none := by
  unfold primFields
  rw [getF_cons_ne _ _ _ _ (Ne.symm h1)]
  rw [getF_app_optStr _ _ _ _ (Ne.symm h2)]
  rw [getF_app_optStr _ _ _ _ (Ne.symm h3)]
  rw [getF_app_emitNum _ _ _ _ (Ne.symm h4)]
  rw [getF_app_emitNum _ _ _ _ (Ne.symm h5)]
  rw [getF_app_emitNum _ _ _ _ (Ne.symm h6)]
  rw [getF_app_emitNum _ _ _ _ (Ne.symm h7)]
  rw [getF_app_optStr _ _ _ _ (Ne.symm h8)]
  rw [getF_app_emitJson _ _ _ _ (Ne.symm h9)]
  exact getF_emitOptJson_ne _ _ _ (Ne.symm h10)

theorem determineType_primFields (cty : SchemaType) (cdesc cfmt : Option String)
    (cmin cmax cminl cmaxl : Option Int) (cpat : Option String)
    (cex cdef : Option Json)
    (hty : cty = "string" ∨ cty = "number" ∨ cty = "integer" ∨ cty = "boolean") :
    determineType (primFields cty cdesc cfmt cmin cmax cminl cmaxl cpat cex cdef) =
      cty := by
  have h1 := getF_primFields_no_comp cty cdesc cfmt cmin cmax cminl cmaxl cpat cex cdef
    "oneOf" (by decide) (by decide) (by decide) (by decide) (by decide) (by decide)
    (by decide) (by decide) (by decide) (by decide)
  have h2 := getF_primFields_no_comp cty cdesc cfmt cmin cmax cminl cmaxl cpat cex cdef
    "anyOf" (by decide) (by decide) (by decide) (by decide) (by decide) (by decide)
    (by decide) (by decide) (by decide) (by decide)
  have h3 := getF_primFields_no_comp cty cdesc cfmt cmin cmax cminl cmaxl cpat cex cdef
    "allOf" (by decide) (by decide) (by decide) (by decide) (by decide) (by decide)
    (by decide) (by decide) (by decide) (by decide)
  have h4 := getF_primFields_no_comp cty cdesc cfmt cmin cmax cminl cmaxl cpat cex cdef
    "enum" (by decide) (by decide) (by decide) (by decide) (by decide) (by decide)
    (by decide) (by decide) (by decide) (by decide)
  have h5 : getF (primFields cty cdesc cfmt cmin cmax cminl cmaxl cpat cex cdef)
      "type" = some (Json.str cty) := getF_cons_self _ _ _
  rw [determineType]
  rw [truthyF_none_of_get_none _ _ h1, truthyF_none_of_get_none _ _ h2,
    truthyF_none_of_get_none _ _ h3, truthyF_none_of_get_none _ _ h4]
  rw [h5]
  rcases hty with hty | hty | hty | hty <;> subst hty <;> simp

theorem strF_primFields_desc (cty : SchemaType) (cdesc cfmt : Option String)
    (cmin cmax cminl cmaxl : Option Int) (cpat : Option String)
    (cex cdef : Option Json) (hdesc : wfOptStr cdesc = true) :
    strF (primFields cty cdesc cfmt cmin cmax cminl cmaxl cpat cex cdef)
      "description" = cdesc := by
  refine strF_map_str _ _ _ ?_
  unfold primFields
  rw [getF_cons_ne _ _ _ _ (by decide)]
  rw [getF_app_optStr_self _ _ _ hdesc]
  rw [getF_app_optStr _ _ _ _ (by decide)]
  rw [getF_app_emitNum _ _ _ _ (by decide)]
  rw [getF_app_emitNum _ _ _ _ (by decide)]
  rw [getF_app_emitNum _ _ _ _ (by decide)]
  rw [getF_app_emitNum _ _ _ _ (by decide)]
  rw [getF_app_optStr _ _ _ _ (by decide)]
  rw [getF_app_emitJson _ _ _ _ (by decide)]
  exact getF_emitOptJson_ne _ _ _ (by decide)

theorem truthyStrF_primFields_format (cty : SchemaType) (cdesc cfmt : Option String)
    (cmin cmax cminl cmaxl : Option Int) (cpat : Option String)
    (cex cdef : Option Json) (hfmt : wfOptStr cfmt = true) :
    truthyStrF (primFields cty cdesc cfmt cmin cmax cminl cmaxl cpat cex cdef)
      "format" = cfmt := by
  refine truthyStrF_map_str _ _ _ ?_ hfmt
  unfold primFields
  rw [getF_cons_ne _ _ _ _ (by decide)]
  rw [getF_app_optStr _ _ _ _ (by decide)]
  rw [getF_app_optStr_self _ _ _ hfmt]
  rw [getF_app_emitNum _ _ _ _ (by decide)]
  rw [getF_app_emitNum _ _ _ _ (by decide)]
  rw [getF_app_emitNum _ _ _ _ (by decide)]
  rw [getF_app_emitNum _ _ _ _ (by decide)]
  rw [getF_app_optStr _ _ _ _ (by decide)]
  rw [getF_app_emitJson _ _ _ _ (by decide)]
  exact getF_emitOptJson_ne _ _ _ (by decide)

theorem truthyStrF_primFields_pattern (cty : SchemaType) (cdesc cfmt : Option String)
    (cmin cmax cminl cmaxl : Option Int) (cpat : Option String)
    (cex cdef : Option Json) (hpat : wfOptStr cpat = true) :
    truthyStrF (primFields cty cdesc cfmt cmin cmax cminl cmaxl cpat cex cdef)
      "pattern" = cpat := by
  refine truthyStrF_map_str _ _ _ ?_ hpat
  unfold primFields
  rw [getF_cons_ne _ _ _ _ (by decide)]
  rw [getF_app_optStr _ _ _ _ (by decide)]
  rw [getF_app_optStr _ _ _ _ (by decide)]
  rw [getF_app_emitNum _ _ _ _ (by decide)]
  rw [getF_app_emitNum _ _ _ _ (by decide)]
  rw [getF_app_emitNum _ _ _ _ (by decide)]
  rw [getF_app_emitNum _ _ _ _ (by decide)]
  rw [getF_app_optStr_self _ _ _ hpat]
  rw [getF_app_emitJson _ _ _ _ (by decide)]
  exact getF_emitOptJson_ne _ _ _ (by decide)

theorem numF_primFields_cmin (cty : SchemaType) (cdesc cfmt : Option String)
    (cmin cmax cminl cmaxl : Option Int) (cpat : Option String)
    (cex cdef : Option Json) :
    numF (primFields cty cdesc cfmt cmin cmax cminl cmaxl cpat cex cdef)
      "minimum" = cmin := by
  refine numF_map_num _ _ _ ?_
  unfold primFields
  rw [getF_cons_ne _ _ _ _ (by decide)]
  rw [getF_app_optStr _ _ _ _ (by decide)]
  rw [getF_app_optStr _ _ _ _ (by decide)]
  refine getF_app_emitNum_self _ _ _ ?_
  rw [getF_app_emitNum _ _ _ _ (by decide)]
  rw [getF_app_emitNum _ _ _ _ (by decide)]
  rw [getF_app_emitNum _ _ _ _ (by decide)]
  rw [getF_app_optStr _ _ _ _ (by decide)]
  rw [getF_app_emitJson _ _ _ _ (by decide)]
  exact getF_emitOptJson_ne _ _ _ (by decide)

theorem numF_primFields_cmax (cty : SchemaType) (cdesc cfmt : Option String)
    (cmin cmax cminl cmaxl : Option Int) (cpat : Option String)
    (cex cdef : Option Json) :
    numF (primFields cty cdesc cfmt cmin cmax cminl cmaxl cpat cex cdef)
      "maximum" = cmax := by
  refine numF_map_num _ _ _ ?_
  unfold primFields
  rw [getF_cons_ne _ _ _ _ (by decide)]
  rw [getF_app_optStr _ _ _ _ (by decide)]
  rw [getF_app_optStr _ _ _ _ (by decide)]
  rw [getF_app_emitNum _ _ _ _ (by decide)]
  refine getF_app_emitNum_self _ _ _ ?_
  rw [getF_app_emitNum _ _ _ _ (by decide)]
  rw [getF_app_emitNum _ _ _ _ (by decide)]
  rw [getF_app_optStr _ _ _ _ (by decide)]
  rw [getF_app_emitJson _ _ _ _ (by decide)]
  exact getF_emitOptJson_ne _ _ _ (by decide)

theorem numF_primFields_cminl (cty : SchemaType) (cdesc cfmt : Option String)
    (cmin cmax cminl cmaxl : Option Int) (cpat : Option String)
    (cex cdef : Option Json) :
    numF (primFields cty cdesc cfmt cmin cmax cminl cmaxl cpat cex cdef)
      "minLength" = cminl := by
  refine numF_map_num _ _ _ ?_
  unfold primFields
  rw [getF_cons_ne _ _ _ _ (by decide)]
  rw [getF_app_optStr _ _ _ _ (by decide)]
  rw [getF_app_optStr _ _ _ _ (by decide)]
  rw [getF_app_emitNum _ _ _ _ (by decide)]
  rw [getF_app_emitNum _ _ _ _ (by decide)]
  refine getF_app_emitNum_self _ _ _ ?_
  rw [getF_app_emitNum _ _ _ _ (by decide)]
  rw [getF_app_optStr _ _ _ _ (by decide)]
  rw [getF_app_emitJson _ _ _ _ (by decide)]
  exact getF_emitOptJson_ne _ _ _ (by decide)

theorem numF_primFields_cmaxl (cty : SchemaType) (cdesc cfmt : Option String)
    (cmin cmax cminl cmaxl : Option Int) (cpat : Option String)
    (cex cdef : Option Json) :
    numF (primFields cty cdesc cfmt cmin cmax cminl cmaxl cpat cex cdef)
      "maxLength" = cmaxl := by
  refine numF_map_num _ _ _ ?_
  unfold primFields
  rw [getF_cons_ne _ _ _ _ (by decide)]
  rw [getF_app_optStr _ _ _ _ (by decide)]
  rw [getF_app_optStr _ _ _ _ (by decide)]
  rw [getF_app_emitNum _ _ _ _ (by decide)]
  rw [getF_app_emitNum _ _ _ _ (by decide)]
  rw [getF_app_emitNum _ _ _ _ (by decide)]
  refine getF_app_emitNum_self _ _ _ ?_
  rw [getF_app_optStr _ _ _ _ (by decide)]
  rw [getF_app_emitJson _ _ _ _ (by decide)]
  exact getF_emitOptJson_ne _ _ _ (by decide)

theorem getF_primFields_example (cty : SchemaType) (cdesc cfmt : Option String)
    (cmin cmax cminl cmaxl : Option Int) (cpat : Option String)
    (cex cdef : Option Json) :
    getF (primFields cty cdesc cfmt cmin cmax cminl cmaxl cpat cex cdef)
      "example" = cex := by
  unfold primFields
  rw [getF_cons_ne _ _ _ _ (by decide)]
  rw [getF_app_optStr _ _ _ _ (by decide)]
  rw [getF_app_optStr _ _ _ _ (by decide)]
  rw [getF_app_emitNum _ _ _ _ (by decide)]
  rw [getF_app_emitNum _ _ _ _ (by decide)]
  rw [getF_app_emitNum _ _ _ _ (by decide)]
  rw [getF_app_emitNum _ _ _ _ (by decide)]
  rw [getF_app_optStr _ _ _ _ (by decide)]
  refine getF_app_emitJson_self _ _ _ ?_
  exact getF_emitOptJson_ne _ _ _ (by decide)

theorem getF_primFields_default (cty : SchemaType) (cdesc cfmt : Option String)
    (cmin cmax cminl cmaxl : Option Int) (cpat : Option String)
    (cex cdef : Option Json) :
    getF (primFields cty cdesc cfmt cmin cmax cminl cmaxl cpat cex cdef)
      "default" = cdef := by
  unfold primFields
  rw [getF_cons_ne _ _ _ _ (by decide)]
  rw [getF_app_optStr _ _ _ _ (by decide)]
  rw [getF_app_optStr _ _ _ _ (by decide)]
  rw [getF_app_emitNum _ _ _ _ (by decide)]
  rw [getF_app_emitNum _ _ _ _ (by decide)]
  rw [getF_app_emitNum _ _ _ _ (by decide)]
  rw [getF_app_emitNum _ _ _ _ (by decide)]
  rw [getF_app_optStr _ _ _ _ (by decide)]
  rw [getF_app_emitJson _ _ _ _ (by decide)]
  exact getF_emitOptJson_self _ _

/-- Round trip of a primitive-typed schema body. -/
theorem roundPrim (refFn : NodeId → Json) (reg : Registry) (R RP : NodeId → Nat)
    (cid : NodeId) (cnm : Option String) (cty : SchemaType) (cdesc : Option String)
    (cfmt : Option String) (cex cdef : Option Json) (cmin cmax cminl cmaxl : Option Int)
    (cpat : Option String)
    (hty : cty = "string" ∨ cty = "number" ∨ cty = "integer" ∨ cty = "boolean")
    (hdesc : wfOptStr cdesc = true) (hfmt : wfOptStr cfmt = true)
    (hpat : wfOptStr cpat = true)
    (nmOpt : Option String) (id0 : NodeId) (st : PState) :
    canonSchema RP (parseSchema (serializeSchemaF refFn
        (.mk ⟨cid, cnm, cty, cdesc, none, none, cfmt, cex, cdef, cmin, cmax, cminl,
          cmaxl, cpat, none⟩ none none none)) nmOpt id0 reg st).1 =
      setSchemaName nmOpt (canonSchema R
        (.mk ⟨cid, cnm, cty, cdesc, none, none, cfmt, cex, cdef, cmin, cmax, cminl,
          cmaxl, cpat, none⟩ none none none)) := by
  rw [serializePrim_eq refFn cid cnm cty cdesc cfmt cex cdef cmin cmax cminl cmaxl
    cpat hty]
  rw [parseSchema.eq_def]
  dsimp only
  rw [determineType_primFields _ _ _ _ _ _ _ _ _ _ hty]
  have hne : (cty = "object") = False ∧ (cty = "array") = False ∧
      (cty = "enum") = False ∧ (cty = "oneOf") = False ∧ (cty = "anyOf") = False ∧
      (cty = "allOf") = False := by
    rcases hty with hty | hty | hty | hty <;> subst hty <;> simp
  rw [if_neg (by simp [hne.1]), if_neg (by simp [hne.2.1]),
    if_neg (by simp [hne.2.2.2, hne.2.2.2.2.1, hne.2.2.2.2.2])]
  rw [buildSchemaNode]
  rw [strF_primFields_desc _ _ _ _ _ _ _ _ _ _ hdesc]
  rw [truthyStrF_primFields_format _ _ _ _ _ _ _ _ _ _ hfmt]
  rw [truthyStrF_primFields_pattern _ _ _ _ _ _ _ _ _ _ hpat]
  rw [numF_primFields_cmin, numF_primFields_cmax, numF_primFields_cminl,
    numF_primFields_cmaxl, getF_primFields_example, getF_primFields_default]
  rw [if_neg (by simp [hne.2.2.1]), if_neg (by simp [hne.2.2.2.1])]
  rw [canonSchema_unfold, canonSchema_unfold, setSchemaName]
  simp [canonPropsO, canonItemsO, canonVariantsO]

/-- The enum branch's emitted field list. -/
def enumFields (evs : List String) (cdesc : Option String) : List (String × Json) :=
  ("type", Json.str "string") :: ("enum", Json.arr (evs.map Json.str)) ::
    optStrField "description" cdesc

theorem serializeEnum_eq (refFn : NodeId → Json)
    (cid : NodeId) (cnm : Option String) (cdesc : Option String) (evs : List String)
    (hne : evs ≠ []) :
    serializeSchemaF refFn
        (.mk ⟨cid, cnm, "enum", cdesc, some evs, none, none, none, none, none, none,
          none, none, none, none⟩ none none none) =
      Json.obj (enumFields evs cdesc) := by
  rw [serializeSchemaF_unfold]
  have hl : evs.length > 0 := List.length_pos.mpr hne
  simp [enumFields, hl, List.append_assoc]

theorem getF_enumFields_no_comp (evs : List String) (cdesc : Option String)
    (k : String) (h1 : k ≠ "type") (h2 : k ≠ "enum") (h3 : k ≠ "description") :
    getF (enumFields evs cdesc) k = none := by
  unfold enumFields
  rw [getF_cons_ne _ _ _ _ (Ne.symm h1)]
  rw [getF_cons_ne _ _ _ _ (Ne.symm h2)]
  exact getF_optStrField_ne _ _ _ (Ne.symm h3)

theorem determineType_enumFields (evs : List String) (cdesc : Option String) :
    determineType (enumFields evs cdesc) = "enum" := by
  have h1 := getF_enumFields_no_comp evs cdesc "oneOf" (by decide) (by decide) (by decide)
  have h2 := getF_enumFields_no_comp evs cdesc "anyOf" (by decide) (by decide) (by decide)
  have h3 := getF_enumFields_no_comp evs cdesc "allOf" (by decide) (by decide) (by decide)
  have h4 : getF (enumFields evs cdesc) "enum" = some (Json.arr (evs.map Json.str)) := by
    unfold enumFields
    rw [getF_cons_ne _ _ _ _ (by decide)]
    exact getF_cons_self _ _ _
  rw [determineType]
  rw [truthyF_none_of_get_none _ _ h1, truthyF_none_of_get_none _ _ h2,
    truthyF_none_of_get_none _ _ h3]
  simp [truthyF, h4, jsTruthy]

/-- Round trip of an enum-typed schema body (with a non-empty value
list, which the exporter preserves). -/
theorem roundEnum (refFn : NodeId → Json) (reg : Registry) (R RP : NodeId → Nat)
    (cid : NodeId) (cnm : Option String) (cdesc : Option String) (evs : List String)
    (hne : evs ≠ []) (hdesc : wfOptStr cdesc = true)
    (nmOpt : Option String) (id0 : NodeId) (st : PState) :
    canonSchema RP (parseSchema (serializeSchemaF refFn
        (.mk ⟨cid, cnm, "enum", cdesc, some evs, none, none, none, none, none, none,
          none, none, none, none⟩ none none none)) nmOpt id0 reg st).1 =
      setSchemaName nmOpt (canonSchema R
        (.mk ⟨cid, cnm, "enum", cdesc, some evs, none, none, none, none, none, none,
          none, none, none, none⟩ none none none)) := by
  rw [serializeEnum_eq refFn cid cnm cdesc evs hne]
  rw [parseSchema.eq_def]
  dsimp only
  rw [determineType_enumFields]
  rw [if_neg (by decide), if_neg (by decide), if_neg (by decide)]
  rw [buildSchemaNode]
  have hdescF : strF (enumFields evs cdesc) "description" = cdesc := by
    refine strF_map_str _ _ _ ?_
    unfold enumFields
    rw [getF_cons_ne _ _ _ _ (by decide)]
    rw [getF_cons_ne _ _ _ _ (by decide)]
    exact getF_optStrField_self _ _ hdesc
  have henumF : truthyF (enumFields evs cdesc) "enum" =
      some (Json.arr (evs.map Json.str)) := by
    have h4 : getF (enumFields evs cdesc) "enum" =
        some (Json.arr (evs.map Json.str)) := by
      unfold enumFields
      rw [getF_cons_ne _ _ _ _ (by decide)]
      exact getF_cons_self _ _ _
    simp [truthyF, h4, jsTruthy]
  have hfmtF : truthyStrF (enumFields evs cdesc) "format" = none := by
    simp [truthyStrF, truthyF_none_of_get_none _ _
      (getF_enumFields_no_comp evs cdesc "format" (by decide) (by decide) (by decide))]
  have hpatF : truthyStrF (enumFields evs cdesc) "pattern" = none := by
    simp [truthyStrF, truthyF_none_of_get_none _ _
      (getF_enumFields_no_comp evs cdesc "pattern" (by decide) (by decide) (by decide))]
  have hexF := getF_enumFields_no_comp evs cdesc "example" (by decide) (by decide) (by decide)
  have hdefF := getF_enumFields_no_comp evs cdesc "default" (by decide) (by decide) (by decide)
  have hminF : numF (enumFields evs cdesc) "minimum" = none := by
    simp [numF, getF_enumFields_no_comp evs cdesc "minimum" (by decide) (by decide) (by decide)]
  have hmaxF : numF (enumFields evs cdesc) "maximum" = none := by
    simp [numF, getF_enumFields_no_comp evs cdesc "maximum" (by decide) (by decide) (by decide)]
  have hminlF : numF (enumFields evs cdesc) "minLength" = none := by
    simp [numF, getF_enumFields_no_comp evs cdesc "minLength" (by decide) (by decide) (by decide)]
  have hmaxlF : numF (enumFields evs cdesc) "maxLength" = none := by
    simp [numF, getF_enumFields_no_comp evs cdesc "maxLength" (by decide) (by decide) (by decide)]
  rw [hdescF, henumF, hfmtF, hpatF, hexF, hdefF, hminF, hmaxF, hminlF, hmaxlF]
  rw [canonSchema_unfold, canonSchema_unfold, setSchemaName]
  simp [canonPropsO, canonItemsO, canonVariantsO, asStrList_map_str]

/-- The array branch's emitted field list (items present). -/
def arrFields (ij : Json) (cdesc : Option String) : List (String × Json) :=
  ("type", Json.str "array") :: ("items", ij) :: optStrField "description" cdesc

/-- The array branch's emitted field list (no items). -/
def arrFields0 (cdesc : Option String) : List (String × Json) :=
  ("type", Json.str "array") :: optStrField "description" cdesc

theorem getF_arrFields_no_comp (ij : Json) (cdesc : Option String)
    (k : String) (h1 : k ≠ "type") (h2 : k ≠ "items") (h3 : k ≠ "description") :
    getF (arrFields ij cdesc) k = none := by
  unfold arrFields
  rw [getF_cons_ne _ _ _ _ (Ne.symm h1)]
  rw [getF_cons_ne _ _ _ _ (Ne.symm h2)]
  exact getF_optStrField_ne _ _ _ (Ne.symm h3)

theorem getF_arrFields0_no_comp (cdesc : Option String)
    (k : String) (h1 : k ≠ "type") (h3 : k ≠ "description") :
    getF (arrFields0 cdesc) k = none := by
  unfold arrFields0
  rw [getF_cons_ne _ _ _ _ (Ne.symm h1)]
  exact getF_optStrField_ne _ _ _ (Ne.symm h3)

theorem determineType_arrFields (ij : Json) (cdesc : Option String) :
    determineType (arrFields ij cdesc) = "array" := by
  have h1 := getF_arrFields_no_comp ij cdesc "oneOf" (by decide) (by decide) (by decide)
  have h2 := getF_arrFields_no_comp ij cdesc "anyOf" (by decide) (by decide) (by decide)
  have h3 := getF_arrFields_no_comp ij cdesc "allOf" (by decide) (by decide) (by decide)
  have h4 := getF_arrFields_no_comp ij cdesc "enum" (by decide) (by decide) (by decide)
  have h5 : getF (arrFields ij cdesc) "type" = some (Json.str "array") := by
    unfold arrFields
    exact getF_cons_self _ _ _
  rw [determineType]
  rw [truthyF_none_of_get_none _ _ h1, truthyF_none_of_get_none _ _ h2,
    truthyF_none_of_get_none _ _ h3, truthyF_none_of_get_none _ _ h4]
  rw [h5]
  simp

theorem determineType_arrFields0 (cdesc : Option String) :
    determineType (arrFields0 cdesc) = "array" := by
  have h1 := getF_arrFields0_no_comp cdesc "oneOf" (by decide) (by decide)
  have h2 := getF_arrFields0_no_comp cdesc "anyOf" (by decide) (by decide)
  have h3 := getF_arrFields0_no_comp cdesc "allOf" (by decide) (by decide)
  have h4 := getF_arrFields0_no_comp cdesc "enum" (by decide) (by decide)
  have h5 : getF (arrFields0 cdesc) "type" = some (Json.str "array") := by
    unfold arrFields0
    exact getF_cons_self _ _ _
  rw [determineType]
  rw [truthyF_none_of_get_none _ _ h1, truthyF_none_of_get_none _ _ h2,
    truthyF_none_of_get_none _ _ h3, truthyF_none_of_get_none _ _ h4]
  rw [h5]
  simp

/-- Common tail for the array family: the flat reads of both shapes. -/
theorem arr_flat_reads (fs : List (String × Json)) (cdesc : Option String)
    (hdesc' : strF fs "description" = cdesc)
    (hno : ∀ k, k ≠ "type" → k ≠ "items" → k ≠ "description" → getF fs k = none) :
    truthyStrF fs "format" = none ∧ truthyStrF fs "pattern" = none ∧
    getF fs "example" = none ∧ getF fs "default" = none ∧
    numF fs "minimum" = none ∧ numF fs "maximum" = none ∧
    numF fs "minLength" = none ∧ numF fs "maxLength" = none := by
  refine ⟨?_, ?_, ?_, ?_, ?_, ?_, ?_, ?_⟩
  · simp [truthyStrF, truthyF_none_of_get_none _ _
      (hno "format" (by decide) (by decide) (by decide))]
  · simp [truthyStrF, truthyF_none_of_get_none _ _
      (hno "pattern" (by decide) (by decide) (by decide))]
  · exact hno "example" (by decide) (by decide) (by decide)
  · exact hno "default" (by decide) (by decide) (by decide)
  · simp [numF, hno "minimum" (by decide) (by decide) (by decide)]
  · simp [numF, hno "maximum" (by decide) (by decide) (by decide)]
  · simp [numF, hno "minLength" (by decide) (by decide) (by decide)]
  · simp [numF, hno "maxLength" (by decide) (by decide) (by decide)]

/-- Round trip of an array-typed schema body with an items edge. -/
theorem roundArrSome (refFn : NodeId → Json) (reg : Registry) (R RP : NodeId → Nat)
    (cid : NodeId) (cnm : Option String) (cdesc : Option String) (e : SchemaOrRef)
    (hdesc : wfOptStr cdesc = true)
    (htr : jsTruthy (serializeEdgeF refFn e) = true)
    (hIH : ∀ st : PState,
      canonEdge RP (parseEdge (serializeEdgeF refFn e) reg st).1 = canonEdge R e)
    (nmOpt : Option String) (id0 : NodeId) (st : PState) :
    canonSchema RP (parseSchema (serializeSchemaF refFn
        (.mk ⟨cid, cnm, "array", cdesc, none, none, none, none, none, none, none,
          none, none, none, none⟩ none (some e) none)) nmOpt id0 reg st).1 =
      setSchemaName nmOpt (canonSchema R
        (.mk ⟨cid, cnm, "array", cdesc, none, none, none, none, none, none, none,
          none, none, none, none⟩ none (some e) none)) := by
  have hser : serializeSchemaF refFn
      (.mk ⟨cid, cnm, "array", cdesc, none, none, none, none, none, none, none,
        none, none, none, none⟩ none (some e) none) =
      Json.obj (arrFields (serializeEdgeF refFn e) cdesc) := by
    rw [serializeSchemaF_unfold]
    simp [arrFields, serializeItemsField, List.append_assoc]
  rw [hser]
  rw [parseSchema.eq_def]
  dsimp only
  rw [determineType_arrFields]
  rw [if_neg (by decide)]
  have hfi : findParseItems (arrFields (serializeEdgeF refFn e) cdesc) reg st =
      (some (parseEdge (serializeEdgeF refFn e) reg st).1,
       (parseEdge (serializeEdgeF refFn e) reg st).2) := by
    unfold arrFields
    rw [findParseItems.eq_def]
    dsimp only
    rw [if_neg (by decide)]
    rw [findParseItems.eq_def]
    dsimp only
    rw [if_pos rfl, if_pos htr]
  rw [if_pos rfl]
  rw [hfi]
  rw [if_neg (by decide)]
  rw [buildSchemaNode]
  have hdesc' : strF (arrFields (serializeEdgeF refFn e) cdesc) "description" = cdesc := by
    refine strF_map_str _ _ _ ?_
    unfold arrFields
    rw [getF_cons_ne _ _ _ _ (by decide)]
    rw [getF_cons_ne _ _ _ _ (by decide)]
    exact getF_optStrField_self _ _ hdesc
  obtain ⟨hf1, hf2, hf3, hf4, hf5, hf6, hf7, hf8⟩ :=
    arr_flat_reads (arrFields (serializeEdgeF refFn e) cdesc) cdesc hdesc'
      (fun k hk1 hk2 hk3 => getF_arrFields_no_comp _ _ k hk1 hk2 hk3)
  rw [hdesc', hf1, hf2, hf3, hf4, hf5, hf6, hf7, hf8]
  rw [canonSchema_unfold, canonSchema_unfold, setSchemaName]
  simp [canonPropsO, canonItemsO, canonVariantsO, hIH st]

/-- Round trip of an array-typed schema body without items. -/
theorem roundArrNone (refFn : NodeId → Json) (reg : Registry) (R RP : NodeId → Nat)
    (cid : NodeId) (cnm : Option String) (cdesc : Option String)
    (hdesc : wfOptStr cdesc = true)
    (nmOpt : Option String) (id0 : NodeId) (st : PState) :
    canonSchema RP (parseSchema (serializeSchemaF refFn
        (.mk ⟨cid, cnm, "array", cdesc, none, none, none, none, none, none, none,
          none, none, none, none⟩ none none none)) nmOpt id0 reg st).1 =
      setSchemaName nmOpt (canonSchema R
        (.mk ⟨cid, cnm, "array", cdesc, none, none, none, none, none, none, none,
          none, none, none, none⟩ none none none)) := by
  have hser : serializeSchemaF refFn
      (.mk ⟨cid, cnm, "array", cdesc, none, none, none, none, none, none, none,
        none, none, none, none⟩ none none none) =
      Json.obj (arrFields0 cdesc) := by
    rw [serializeSchemaF_unfold]
    simp [arrFields0, serializeItemsField, List.append_assoc]
  rw [hser]
  rw [parseSchema.eq_def]
  dsimp only
  rw [determineType_arrFields0]
  rw [if_neg (by decide)]
  have hfi : findParseItems (arrFields0 cdesc) reg st = (none, st) := by
    unfold arrFields0
    rw [findParseItems.eq_def]
    dsimp only
    rw [if_neg (by decide)]
    cases cdesc with
    | none => rfl
    | some d =>
        by_cases hd : d ≠ "" <;> simp [optStrField, hd, findParseItems]
  rw [if_pos rfl]
  rw [hfi]
  rw [if_neg (by decide)]
  rw [buildSchemaNode]
  have hdesc' : strF (arrFields0 cdesc) "description" = cdesc := by
    refine strF_map_str _ _ _ ?_
    unfold arrFields0
    rw [getF_cons_ne _ _ _ _ (by decide)]
    exact getF_optStrField_self _ _ hdesc
  obtain ⟨hf1, hf2, hf3, hf4, hf5, hf6, hf7, hf8⟩ :=
    arr_flat_reads (arrFields0 cdesc) cdesc hdesc'
      (fun k hk1 _ hk3 => getF_arrFields0_no_comp _ k hk1 hk3)
  rw [hdesc', hf1, hf2, hf3, hf4, hf5, hf6, hf7, hf8]
  rw [canonSchema_unfold, canonSchema_unfold, setSchemaName]
  simp [canonPropsO, canonItemsO, canonVariantsO]

/-- Flat primitive-field reads are all absent on a field list without
those keys. -/
theorem flat_reads_gen (fs : List (String × Json))
    (hno : ∀ k : String,
      k = "format" ∨ k = "pattern" ∨ k = "example" ∨ k = "default" ∨
      k = "minimum" ∨ k = "maximum" ∨ k = "minLength" ∨ k = "maxLength" →
      getF fs k = none) :
    truthyStrF fs "format" = none ∧ truthyStrF fs "pattern" = none ∧
    getF fs "example" = none ∧ getF fs "default" = none ∧
    numF fs "minimum" = none ∧ numF fs "maximum" = none ∧
    numF fs "minLength" = none ∧ numF fs "maxLength" = none := by
  refine ⟨?_, ?_, ?_, ?_, ?_, ?_, ?_, ?_⟩
  · simp [truthyStrF, truthyF_none_of_get_none _ _ (hno "format" (by simp))]
  · simp [truthyStrF, truthyF_none_of_get_none _ _ (hno "pattern" (by simp))]
  · exact hno "example" (by simp)
  · exact hno "default" (by simp)
  · simp [numF, hno "minimum" (by simp)]
  · simp [numF, hno "maximum" (by simp)]
  · simp [numF, hno "minLength" (by simp)]
  · simp [numF, hno "maxLength" (by simp)]

/-- The object branch's emitted field list (with properties). -/
def objFields (pj : Json) (r : List String) (cdesc : Option String) :
    List (String × Json) :=
  ("type", Json.str "object") :: ("properties", pj) ::
    ((if r.length > 0 then [("required", Json.arr (r.map Json.str))] else []) ++
      optStrField "description" cdesc)

/-- The object branch's emitted field list (no properties). -/
def objFields0 (cdesc : Option String) : List (String × Json) :=
  ("type", Json.str "object") :: optStrField "description" cdesc

theorem getF_objFields_ne (pj : Json) (r : List String) (cdesc : Option String)
    (k : String) (h1 : k ≠ "type") (h2 : k ≠ "properties") (h3 : k ≠ "required")
    (h4 : k ≠ "description") :
    getF (objFields pj r cdesc) k = none := by
  unfold objFields
  rw [getF_cons_ne _ _ _ _ (Ne.symm h1)]
  rw [getF_cons_ne _ _ _ _ (Ne.symm h2)]
  rw [getF_append]
  rw [getF_ite_single_ne _ _ _ _ (Ne.symm h3)]
  rw [getF_optStrField_ne _ _ _ (Ne.symm h4)]
  rfl

theorem getF_objFields0_ne (cdesc : Option String)
    (k : String) (h1 : k ≠ "type") (h4 : k ≠ "description") :
    getF (objFields0 cdesc) k = none := by
  unfold objFields0
  rw [getF_cons_ne _ _ _ _ (Ne.symm h1)]
  exact getF_optStrField_ne _ _ _ (Ne.symm h4)

theorem determineType_objFields (pj : Json) (r : List String) (cdesc : Option String) :
    determineType (objFields pj r cdesc) = "object" := by
  have h1 := getF_objFields_ne pj r cdesc "oneOf" (by decide) (by decide) (by decide) (by decide)
  have h2 := getF_objFields_ne pj r cdesc "anyOf" (by decide) (by decide) (by decide) (by decide)
  have h3 := getF_objFields_ne pj r cdesc "allOf" (by decide) (by decide) (by decide) (by decide)
  have h4 := getF_objFields_ne pj r cdesc "enum" (by decide) (by decide) (by decide) (by decide)
  have h5 : getF (objFields pj r cdesc) "type" = some (Json.str "object") := by
    unfold objFields
    exact getF_cons_self _ _ _
  rw [determineType]
  rw [truthyF_none_of_get_none _ _ h1, truthyF_none_of_get_none _ _ h2,
    truthyF_none_of_get_none _ _ h3, truthyF_none_of_get_none _ _ h4]
  rw [h5]
  simp

theorem determineType_objFields0 (cdesc : Option String) :
    determineType (objFields0 cdesc) = "object" := by
  have h1 := getF_objFields0_ne cdesc "oneOf" (by decide) (by decide)
  have h2 := getF_objFields0_ne cdesc "anyOf" (by decide) (by decide)
  have h3 := getF_objFields0_ne cdesc "allOf" (by decide) (by decide)
  have h4 := getF_objFields0_ne cdesc "enum" (by decide) (by decide)
  have h5 : getF (objFields0 cdesc) "type" = some (Json.str "object") := by
    unfold objFields0
    exact getF_cons_self _ _ _
  rw [determineType]
  rw [truthyF_none_of_get_none _ _ h1, truthyF_none_of_get_none _ _ h2,
    truthyF_none_of_get_none _ _ h3, truthyF_none_of_get_none _ _ h4]
  rw [h5]
  simp

theorem strListF_objFields_required (pj : Json) (r : List String)
    (cdesc : Option String) :
    strListF (objFields pj r cdesc) "required" = r := by
  cases r with
  | nil =>
      have h : getF (objFields pj [] cdesc) "required" = none := by
        unfold objFields
        rw [getF_cons_ne _ _ _ _ (by decide)]
        rw [getF_cons_ne _ _ _ _ (by decide)]
        simp only [List.length_nil, gt_iff_lt, lt_self_iff_false, if_false,
          List.nil_append]
        exact getF_optStrField_ne _ _ _ (by decide)
      simp [strListF, h]
  | cons hd tl =>
      have h : getF (objFields pj (hd :: tl) cdesc) "required" =
          some (Json.arr ((hd :: tl).map Json.str)) := by
        unfold objFields
        rw [getF_cons_ne _ _ _ _ (by decide)]
        rw [getF_cons_ne _ _ _ _ (by decide)]
        simp only [List.length_cons, gt_iff_lt, Nat.succ_pos, if_true,
          List.singleton_append]
        exact getF_cons_self _ _ _
      have h2 := asStrList_map_str (hd :: tl)
      simp only [List.map_cons] at h2
      simp [strListF, h, jsTruthy, h2]

/-- Round trip of an object-typed schema body with properties. -/
theorem roundObjSome (refFn : NodeId → Json) (reg : Registry) (R RP : NodeId → Nat)
    (cid : NodeId) (cnm : Option String) (cdesc : Option String)
    (l : List (String × PropertyDef)) (r : List String)
    (hne : l ≠ []) (hdesc : wfOptStr cdesc = true)
    (hIH : ∀ st : PState,
      canonProps RP (parsePropList (serializePropListF refFn l) r reg st).1 =
        canonProps R l)
    (nmOpt : Option String) (id0 : NodeId) (st : PState) :
    canonSchema RP (parseSchema (serializeSchemaF refFn
        (.mk ⟨cid, cnm, "object", cdesc, none, some r, none, none, none, none, none,
          none, none, none, none⟩ (some l) none none)) nmOpt id0 reg st).1 =
      setSchemaName nmOpt (canonSchema R
        (.mk ⟨cid, cnm, "object", cdesc, none, some r, none, none, none, none, none,
          none, none, none, none⟩ (some l) none none)) := by
  have hser : serializeSchemaF refFn
      (.mk ⟨cid, cnm, "object", cdesc, none, some r, none, none, none, none, none,
        none, none, none, none⟩ (some l) none none) =
      Json.obj (objFields (Json.obj (serializePropListF refFn l)) r cdesc) := by
    rw [serializeSchemaF_unfold]
    have hl : l.length > 0 := List.length_pos.mpr hne
    simp [objFields, serializePropsField, hl, List.append_assoc]
  rw [hser]
  rw [parseSchema.eq_def]
  dsimp only
  rw [determineType_objFields]
  rw [if_pos rfl]
  rw [strListF_objFields_required]
  have hfp : findParseProps r (objFields (Json.obj (serializePropListF refFn l)) r cdesc)
      reg st =
      ((some (parsePropList (serializePropListF refFn l) r reg st).1, some r),
       (parsePropList (serializePropListF refFn l) r reg st).2) := by
    unfold objFields
    rw [findParseProps.eq_def]
    dsimp only
    rw [if_neg (by decide)]
    rw [findParseProps.eq_def]
    dsimp only
    rw [if_pos rfl]
    rw [if_pos (by simp [jsTruthy])]
  rw [hfp]
  rw [if_neg (by decide), if_neg (by decide)]
  rw [buildSchemaNode]
  have hdesc' : strF (objFields (Json.obj (serializePropListF refFn l)) r cdesc)
      "description" = cdesc := by
    refine strF_map_str _ _ _ ?_
    unfold objFields
    rw [getF_cons_ne _ _ _ _ (by decide)]
    rw [getF_cons_ne _ _ _ _ (by decide)]
    rw [getF_append]
    rw [getF_ite_single_ne _ _ _ _ (by decide)]
    rw [getF_optStrField_self _ _ hdesc]
    rfl
  obtain ⟨hf1, hf2, hf3, hf4, hf5, hf6, hf7, hf8⟩ :=
    flat_reads_gen (objFields (Json.obj (serializePropListF refFn l)) r cdesc)
      (fun k hk => getF_objFields_ne _ _ _ k
        (by rcases hk with h|h|h|h|h|h|h|h <;> subst h <;> decide)
        (by rcases hk with h|h|h|h|h|h|h|h <;> subst h <;> decide)
        (by rcases hk with h|h|h|h|h|h|h|h <;> subst h <;> decide)
        (by rcases hk with h|h|h|h|h|h|h|h <;> subst h <;> decide))
  rw [hdesc', hf1, hf2, hf3, hf4, hf5, hf6, hf7, hf8]
  rw [canonSchema_unfold, canonSchema_unfold, setSchemaName]
  simp [canonPropsO, canonItemsO, canonVariantsO, hIH st]

/-- Round trip of an object-typed schema body without properties. -/
theorem roundObjNone (refFn : NodeId → Json) (reg : Registry) (R RP : NodeId → Nat)
    (cid : NodeId) (cnm : Option String) (cdesc : Option String)
    (hdesc : wfOptStr cdesc = true)
    (nmOpt : Option String) (id0 : NodeId) (st : PState) :
    canonSchema RP (parseSchema (serializeSchemaF refFn
        (.mk ⟨cid, cnm, "object", cdesc, none, none, none, none, none, none, none,
          none, none, none, none⟩ none none none)) nmOpt id0 reg st).1 =
      setSchemaName nmOpt (canonSchema R
        (.mk ⟨cid, cnm, "object", cdesc, none, none, none, none, none, none, none,
          none, none, none, none⟩ none none none)) := by
  have hser : serializeSchemaF refFn
      (.mk ⟨cid, cnm, "object", cdesc, none, none, none, none, none, none, none,
        none, none, none, none⟩ none none none) =
      Json.obj (objFields0 cdesc) := by
    rw [serializeSchemaF_unfold]
    simp [objFields0, serializePropsField, List.append_assoc]
  rw [hser]
  rw [parseSchema.eq_def]
  dsimp only
  rw [determineType_objFields0]
  rw [if_pos rfl]
  have hfp : ∀ req, findParseProps req (objFields0 cdesc) reg st = ((none, none), st) := by
    intro req
    unfold objFields0
    rw [findParseProps.eq_def]
    dsimp only
    rw [if_neg (by decide)]
    cases cdesc with
    | none => rfl
    | some d =>
        by_cases hd : d ≠ "" <;> simp [optStrField, hd, findParseProps]
  rw [hfp]
  rw [if_neg (by decide), if_neg (by decide)]
  rw [buildSchemaNode]
  have hdesc' : strF (objFields0 cdesc) "description" = cdesc := by
    refine strF_map_str _ _ _ ?_
    unfold objFields0
    rw [getF_cons_ne _ _ _ _ (by decide)]
    exact getF_optStrField_self _ _ hdesc
  obtain ⟨hf1, hf2, hf3, hf4, hf5, hf6, hf7, hf8⟩ :=
    flat_reads_gen (objFields0 cdesc)
      (fun k hk => getF_objFields0_ne _ k
        (by rcases hk with h|h|h|h|h|h|h|h <;> subst h <;> decide)
        (by rcases hk with h|h|h|h|h|h|h|h <;> subst h <;> decide))
  rw [hdesc', hf1, hf2, hf3, hf4, hf5, hf6, hf7, hf8]
  rw [canonSchema_unfold, canonSchema_unfold, setSchemaName]
  simp [canonPropsO, canonItemsO, canonVariantsO]

/-- The composition branch's emitted field list; `dp` is the emitted
discriminator property name, if any. -/
def compFields (T : String) (vj : List Json) (dp : Option String)
    (cdesc : Option String) : List (String × Json) :=
  (T, Json.arr vj) ::
    ((match dp with
      | some p => [("discriminator", Json.obj [("propertyName", Json.str p)])]
      | none => []) ++
      optStrField "description" cdesc)

theorem getF_compFields_ne (T : String) (vj : List Json) (dp : Option String)
    (cdesc : Option String) (k : String) (h1 : k ≠ T) (h2 : k ≠ "discriminator")
    (h3 : k ≠ "description") :
    getF (compFields T vj dp cdesc) k = none := by
  unfold compFields
  rw [getF_cons_ne _ _ _ _ (Ne.symm h1)]
  cases dp with
  | none =>
      simp only [List.nil_append]
      exact getF_optStrField_ne _ _ _ (Ne.symm h3)
  | some p =>
      simp only [List.singleton_append]
      rw [getF_cons_ne _ _ _ _ (Ne.symm h2)]
      exact getF_optStrField_ne _ _ _ (Ne.symm h3)

theorem getF_compFields_self (T : String) (vj : List Json) (dp : Option String)
    (cdesc : Option String) (hT1 : T ≠ "discriminator") (hT2 : T ≠ "description") :
    getF (compFields T vj dp cdesc) T = some (Json.arr vj) := by
  unfold compFields
  exact getF_cons_self _ _ _

theorem determineType_compFields (T : String) (vj : List Json) (dp : Option String)
    (cdesc : Option String) (hT : T = "oneOf" ∨ T = "anyOf" ∨ T = "allOf") :
    determineType (compFields T vj dp cdesc) = T := by
  rcases hT with hT | hT | hT <;> subst hT
  · have h0 := getF_compFields_self "oneOf" vj dp cdesc (by decide) (by decide)
    rw [determineType]
    simp [truthyF, h0, jsTruthy]
  · have h1 := getF_compFields_ne "anyOf" vj dp cdesc "oneOf" (by decide) (by decide) (by decide)
    have h0 := getF_compFields_self "anyOf" vj dp cdesc (by decide) (by decide)
    rw [determineType]
    rw [truthyF_none_of_get_none _ _ h1]
    simp [truthyF, h0, jsTruthy]
  · have h1 := getF_compFields_ne "allOf" vj dp cdesc "oneOf" (by decide) (by decide) (by decide)
    have h2 := getF_compFields_ne "allOf" vj dp cdesc "anyOf" (by decide) (by decide) (by decide)
    have h0 := getF_compFields_self "allOf" vj dp cdesc (by decide) (by decide)
    rw [determineType]
    rw [truthyF_none_of_get_none _ _ h1, truthyF_none_of_get_none _ _ h2]
    simp [truthyF, h0, jsTruthy]

theorem getF_compFields_desc (T : String) (vj : List Json) (dp : Option String)
    (cdesc : Option String) (hT : T ≠ "description") (hdesc : wfOptStr cdesc = true) :
    getF (compFields T vj dp cdesc) "description" = cdesc.map Json.str := by
  unfold compFields
  rw [getF_cons_ne _ _ _ _ hT]
  cases dp with
  | none =>
      simp only [List.nil_append]
      exact getF_optStrField_self _ _ hdesc
  | some p =>
      simp only [List.singleton_append]
      rw [getF_cons_ne _ _ _ _ (by decide)]
      exact getF_optStrField_self _ _ hdesc

theorem getF_compFields_disc_none (T : String) (vj : List Json)
    (cdesc : Option String) (hT : T ≠ "discriminator") :
    getF (compFields T vj none cdesc) "discriminator" = none := by
  unfold compFields
  rw [getF_cons_ne _ _ _ _ hT]
  simp only [List.nil_append]
  exact getF_optStrField_ne _ _ _ (by decide)

theorem getF_compFields_disc_some (T : String) (vj : List Json) (p : String)
    (cdesc : Option String) (hT : T ≠ "discriminator") :
    getF (compFields T vj (some p) cdesc) "discriminator" =
      some (Json.obj [("propertyName", Json.str p)]) := by
  unfold compFields
  rw [getF_cons_ne _ _ _ _ hT]
  simp only [List.singleton_append]
  exact getF_cons_self _ _ _

theorem findParseVariants_compFields (T : String) (vj : List Json) (dp : Option String)
    (cdesc : Option String) (reg : Registry) (st : PState) :
    findParseVariants T (compFields T vj dp cdesc) reg st =
      (some (parseEdgeList vj reg st).1, (parseEdgeList vj reg st).2) := by
  unfold compFields
  rw [findParseVariants.eq_def]
  dsimp only
  rw [if_pos rfl]

/-- Round trip of a `oneOf` schema body carrying a discriminator. -/
theorem roundCompDisc (refFn : NodeId → Json) (reg : Registry) (R RP : NodeId → Nat)
    (cid : NodeId) (cnm : Option String) (cdesc : Option String) (p : String)
    (vl : List SchemaOrRef)
    (hdesc : wfOptStr cdesc = true) (hp : p ≠ "") (hvl : 0 < vl.length)
    (hIH : ∀ st : PState,
      canonVariants RP (parseEdgeList (serializeEdgeListF refFn vl) reg st).1 =
        canonVariants R vl)
    (nmOpt : Option String) (id0 : NodeId) (st : PState) :
    canonSchema RP (parseSchema (serializeSchemaF refFn
        (.mk ⟨cid, cnm, "oneOf", cdesc, none, none, none, none, none, none, none,
          none, none, none, some ⟨some p, none⟩⟩ none none (some vl))) nmOpt id0 reg st).1 =
      setSchemaName nmOpt (canonSchema R
        (.mk ⟨cid, cnm, "oneOf", cdesc, none, none, none, none, none, none, none,
          none, none, none, some ⟨some p, none⟩⟩ none none (some vl))) := by
  have hser : serializeSchemaF refFn
      (.mk ⟨cid, cnm, "oneOf", cdesc, none, none, none, none, none, none, none,
        none, none, none, some ⟨some p, none⟩⟩ none none (some vl)) =
      Json.obj (compFields "oneOf" (serializeEdgeListF refFn vl) (some p) cdesc) := by
    rw [serializeSchemaF_unfold]
    simp [compFields, serializeVariantsField, hvl, hp, List.append_assoc]
  rw [hser]
  rw [parseSchema.eq_def]
  dsimp only
  rw [determineType_compFields "oneOf" _ _ _ (Or.inl rfl)]
  rw [if_neg (by decide)]
  rw [if_neg (by decide)]
  rw [if_pos (Or.inl rfl)]
  rw [findParseVariants_compFields]
  rw [buildSchemaNode]
  have hdesc' : strF (compFields "oneOf" (serializeEdgeListF refFn vl) (some p) cdesc)
      "description" = cdesc :=
    strF_map_str _ _ _ (getF_compFields_desc "oneOf" _ _ _ (by decide) hdesc)
  obtain ⟨hf1, hf2, hf3, hf4, hf5, hf6, hf7, hf8⟩ :=
    flat_reads_gen (compFields "oneOf" (serializeEdgeListF refFn vl) (some p) cdesc)
      (fun k hk => getF_compFields_ne "oneOf" _ _ _ k
        (by rcases hk with h|h|h|h|h|h|h|h <;> subst h <;> decide)
        (by rcases hk with h|h|h|h|h|h|h|h <;> subst h <;> decide)
        (by rcases hk with h|h|h|h|h|h|h|h <;> subst h <;> decide))
  have hdiscF : truthyF (compFields "oneOf" (serializeEdgeListF refFn vl) (some p) cdesc)
      "discriminator" = some (Json.obj [("propertyName", Json.str p)]) := by
    have hg := getF_compFields_disc_some "oneOf" (serializeEdgeListF refFn vl) p cdesc
      (by decide)
    simp [truthyF, hg, jsTruthy]
  have hpn : (Json.getField? (Json.obj [("propertyName", Json.str p)])
      "propertyName").bind Json.asStr? = some p := rfl
  rw [hdesc', hf1, hf2, hf3, hf4, hf5, hf6, hf7, hf8, hdiscF]
  rw [canonSchema_unfold, canonSchema_unfold, setSchemaName]
  simp [canonPropsO, canonItemsO, canonVariantsO, hIH st, hpn]

/-- Round trip of a composition schema body without a discriminator
(any of the three composition keywords). -/
theorem roundCompNone (refFn : NodeId → Json) (reg : Registry) (R RP : NodeId → Nat)
    (cid : NodeId) (cnm : Option String) (T : SchemaType) (cdesc : Option String)
    (vl : List SchemaOrRef)
    (hT : T = "oneOf" ∨ T = "anyOf" ∨ T = "allOf")
    (hdesc : wfOptStr cdesc = true) (hvl : 0 < vl.length)
    (hIH : ∀ st : PState,
      canonVariants RP (parseEdgeList (serializeEdgeListF refFn vl) reg st).1 =
        canonVariants R vl)
    (nmOpt : Option String) (id0 : NodeId) (st : PState) :
    canonSchema RP (parseSchema (serializeSchemaF refFn
        (.mk ⟨cid, cnm, T, cdesc, none, none, none, none, none, none, none,
          none, none, none, none⟩ none none (some vl))) nmOpt id0 reg st).1 =
      setSchemaName nmOpt (canonSchema R
        (.mk ⟨cid, cnm, T, cdesc, none, none, none, none, none, none, none,
          none, none, none, none⟩ none none (some vl))) := by
  have hTo : ¬ (T = "object") := by rcases hT with h|h|h <;> subst h <;> decide
  have hTa : ¬ (T = "array") := by rcases hT with h|h|h <;> subst h <;> decide
  have hTe : ¬ (T = "enum") := by rcases hT with h|h|h <;> subst h <;> decide
  have hTd : T ≠ "description" := by rcases hT with h|h|h <;> subst h <;> decide
  have hTdi : T ≠ "discriminator" := by rcases hT with h|h|h <;> subst h <;> decide
  have hkT : ∀ k : String,
      k = "format" ∨ k = "pattern" ∨ k = "example" ∨ k = "default" ∨
      k = "minimum" ∨ k = "maximum" ∨ k = "minLength" ∨ k = "maxLength" → k ≠ T := by
    intro k hk
    rcases hT with h|h|h <;> subst h <;>
      rcases hk with h|h|h|h|h|h|h|h <;> subst h <;> decide
  have hser : serializeSchemaF refFn
      (.mk ⟨cid, cnm, T, cdesc, none, none, none, none, none, none, none,
        none, none, none, none⟩ none none (some vl)) =
      Json.obj (compFields T (serializeEdgeListF refFn vl) none cdesc) := by
    rw [serializeSchemaF_unfold]
    rw [if_pos hT]
    simp [compFields, serializeVariantsField, hvl, List.append_assoc]
  rw [hser]
  rw [parseSchema.eq_def]
  dsimp only
  rw [determineType_compFields T _ _ _ hT]
  rw [if_neg hTo]
  rw [if_neg hTa]
  rw [if_pos hT]
  rw [findParseVariants_compFields]
  rw [buildSchemaNode]
  have hdesc' : strF (compFields T (serializeEdgeListF refFn vl) none cdesc)
      "description" = cdesc :=
    strF_map_str _ _ _ (getF_compFields_desc T _ _ _ hTd hdesc)
  obtain ⟨hf1, hf2, hf3, hf4, hf5, hf6, hf7, hf8⟩ :=
    flat_reads_gen (compFields T (serializeEdgeListF refFn vl) none cdesc)
      (fun k hk => getF_compFields_ne T _ _ _ k (hkT k hk)
        (by rcases hk with h|h|h|h|h|h|h|h <;> subst h <;> decide)
        (by rcases hk with h|h|h|h|h|h|h|h <;> subst h <;> decide))
  have hdiscN : truthyF (compFields T (serializeEdgeListF refFn vl) none cdesc)
      "discriminator" = none :=
    truthyF_none_of_get_none _ _ (getF_compFields_disc_none T _ _ hTdi)
  rw [hdesc', hf1, hf2, hf3, hf4, hf5, hf6, hf7, hf8, hdiscN]
  rw [if_neg hTe]
  rw [canonSchema_unfold, canonSchema_unfold, setSchemaName]
  simp [canonPropsO, canonItemsO, canonVariantsO, hIH st]

-- ---------------------------------------------------------------------
-- Round-trip proof, phase 2b: the schema-forest induction
-- ---------------------------------------------------------------------

theorem wfSchemaBody_desc (schemas : List (NodeId × SchemaNode)) (s : SchemaNode)
    (h : wfSchemaBody schemas s = true) : wfOptStr s.description = true := by
  cases s with
  | mk core p i v =>
      rw [wfSchemaBody_unfold] at h
      simp only [Bool.and_eq_true] at h
      exact h.1

theorem serializeSchemaF_desc_key_node (refFn : NodeId → Json) (s : SchemaNode)
    (hdesc : wfOptStr s.description = true) :
    (serializeSchemaF refFn s).getField? "description" = s.description.map Json.str := by
  cases s with
  | mk core p i v => exact serializeSchemaF_desc_key refFn core p i v hdesc

theorem serializeSchemaF_no_ref_node (refFn : NodeId → Json) (s : SchemaNode) :
    (serializeSchemaF refFn s).getField? "$ref" = none := by
  cases s with
  | mk core p i v => exact serializeSchemaF_no_ref refFn core p i v

/-- Parsing an emitted `$ref` object (possibly carrying extra fields
such as the property-description overwrite) resolves through the
registry without drawing an id or pushing an error. -/
theorem parseEdge_refObj (nm : String) (rid : NodeId) (rest : List (String × Json))
    (reg : Registry) (st : PState)
    (hnm : nm ≠ "") (hreg : mapGet? reg nm = some rid) :
    parseEdge (Json.obj (("$ref", Json.str ("#/components/schemas/" ++ nm)) :: rest))
      reg st = (.ref rid, st) := by
  have hsf : strF (("$ref", Json.str ("#/components/schemas/" ++ nm)) :: rest) "$ref" =
      some ("#/components/schemas/" ++ nm) := by
    simp [strF, getF, mapGet?, Json.asStr?]
  have hro : parseRefOutcome (("$ref", Json.str ("#/components/schemas/" ++ nm)) :: rest)
      reg st = (some rid, st) := by
    unfold parseRefOutcome
    rw [hsf]
    dsimp only
    rw [if_neg (refEmitted_ne_empty nm)]
    rw [matchRefName_emitted nm hnm]
    dsimp only
    rw [hreg]
  rw [parseEdge.eq_def]
  dsimp only
  rw [hro]

/-- The schema-forest round trip: under a resolver emitting registered
`$ref` pointers for every well-formed ref target, parsing the serialized
form of any well-formed edge / schema body / property map / variant list
yields the original up to identifier renaming (`R` on the source side,
`RP` on the parsed side), for every starting parser state. -/
theorem roundAux (refFn : NodeId → Json) (reg : Registry)
    (schemas : List (NodeId × SchemaNode)) (R RP : NodeId → Nat)
    (href : ∀ tid, wfRefTarget schemas tid = true →
      ∃ nm rid, refFn tid = Json.obj [("$ref", Json.str ("#/components/schemas/" ++ nm))] ∧
        nm ≠ "" ∧ mapGet? reg nm = some rid ∧ RP rid = R tid) :
    ∀ n : Nat,
      (∀ e : SchemaOrRef, sizeEdge e ≤ n → wfEdge schemas e = true →
        ∀ st : PState,
          canonEdge RP (parseEdge (serializeEdgeF refFn e) reg st).1 = canonEdge R e) ∧
      (∀ s : SchemaNode, sizeSchema s ≤ n → wfSchemaBody schemas s = true →
        ∀ (nmOpt : Option String) (id0 : NodeId) (st : PState),
          canonSchema RP (parseSchema (serializeSchemaF refFn s) nmOpt id0 reg st).1 =
            setSchemaName nmOpt (canonSchema R s)) ∧
      (∀ (r : List String) (l : List (String × PropertyDef)), sizeProps l ≤ n →
        wfProps schemas r l = true →
        ∀ st : PState,
          canonProps RP (parsePropList (serializePropListF refFn l) r reg st).1 =
            canonProps R l) ∧
      (∀ l : List SchemaOrRef, sizeVariants l ≤ n → wfVariants schemas l = true →
        ∀ st : PState,
          canonVariants RP (parseEdgeList (serializeEdgeListF refFn l) reg st).1 =
            canonVariants R l) := by
  have htruthyE : ∀ e, wfEdge schemas e = true →
      jsTruthy (serializeEdgeF refFn e) = true := by
    intro e he
    cases e with
    | ref tid =>
        have he' : wfRefTarget schemas tid = true := by simpa [wfEdge] using he
        obtain ⟨nm, rid, hrf, -⟩ := href tid he'
        show jsTruthy (refFn tid) = true
        rw [hrf]
        rfl
    | inline s' => exact jsTruthy_serializeSchemaF refFn s'
  intro n
  induction n using Nat.strong_induction_on with
  | _ n IH =>
  refine ⟨?_, ?_, ?_, ?_⟩
  · -- edges
    intro e hsz hwf st
    cases e with
    | ref tid =>
        have hwf' : wfRefTarget schemas tid = true := by simpa [wfEdge] using hwf
        obtain ⟨nm, rid, hrf, hnm, hreg, hRP⟩ := href tid hwf'
        show canonEdge RP (parseEdge (refFn tid) reg st).1 = canonEdge R (.ref tid)
        rw [hrf]
        rw [parseEdge_refObj nm rid [] reg st hnm hreg]
        simp [canonEdge, hRP]
    | inline s' =>
        simp only [wfEdge, Bool.and_eq_true] at hwf
        obtain ⟨hname, hbody⟩ := hwf
        have hlt : sizeSchema s' < n := by
          simp only [sizeEdge] at hsz
          omega
        show canonEdge RP (parseEdge (serializeSchemaF refFn s') reg st).1 =
          canonEdge R (.inline s')
        obtain ⟨fsS, hfsS⟩ := serializeSchemaF_is_obj refFn s'
        have hnoref : strF fsS "$ref" = none := by
          have h0 := serializeSchemaF_no_ref_node refFn s'
          rw [hfsS, getField_obj] at h0
          simp [strF, h0]
        rw [hfsS, parseEdge_as_parseSchema fsS reg st hnoref]
        simp only [canonEdge]
        rw [← hfsS]
        rw [(IH (sizeSchema s') hlt).2.1 s' le_rfl hbody none st.ctr
          { st with ctr := st.ctr + 1 }]
        rw [setSchemaName_self _ none (by
          rw [canonSchema_name]
          exact Option.isNone_iff_eq_none.mp hname)]
  · -- schema bodies
    intro s hsz hwf nmOpt id0 st
    obtain ⟨core, props, items, variants⟩ := s
    obtain ⟨cid, cnm, cty, cdesc, cev, creq, cfmt, cex, cdef, cmin, cmax, cminl,
      cmaxl, cpat, cdisc⟩ := core
    rw [wfSchemaBody_unfold] at hwf
    by_cases hobj : cty = "object"
    · subst hobj
      simp [noConstraints] at hwf
      obtain ⟨hdesc, ⟨⟨⟨⟨hpr, hit⟩, hva⟩, hev⟩, hdi⟩,
        ⟨⟨⟨⟨⟨⟨⟨hf, hx⟩, hdf⟩, hmn⟩, hmx⟩, hml⟩, hxl⟩, hpa⟩⟩ := hwf
      subst hit hva hev hdi hf hx hdf hmn hmx hml hxl hpa
      cases props with
      | none =>
          simp [wfPropsO] at hpr
          subst hpr
          exact roundObjNone refFn reg R RP cid cnm cdesc hdesc nmOpt id0 st
      | some l =>
          cases creq with
          | none => simp [wfPropsO] at hpr
          | some r =>
              simp only [wfPropsO, Bool.and_eq_true] at hpr
              obtain ⟨⟨hne0, hnodup⟩, hwfp⟩ := hpr
              have hne : l ≠ [] := by simpa using hne0
              have hlt : sizeProps l < n := by
                rw [sizeSchema_unfold] at hsz
                simp [sizePropsO, sizeItemsO, sizeVariantsO] at hsz
                omega
              exact roundObjSome refFn reg R RP cid cnm cdesc l r hne hdesc
                (fun st2 => (IH (sizeProps l) hlt).2.2.1 r l le_rfl hwfp st2)
                nmOpt id0 st
    · by_cases harr : cty = "array"
      · subst harr
        simp [hobj, noConstraints] at hwf
        obtain ⟨hdesc, ⟨⟨⟨⟨⟨hit, hpr⟩, hrq⟩, hva⟩, hev⟩, hdi⟩,
          ⟨⟨⟨⟨⟨⟨⟨hf, hx⟩, hdf⟩, hmn⟩, hmx⟩, hml⟩, hxl⟩, hpa⟩⟩ := hwf
        subst hpr hrq hva hev hdi hf hx hdf hmn hmx hml hxl hpa
        cases items with
        | none => exact roundArrNone refFn reg R RP cid cnm cdesc hdesc nmOpt id0 st
        | some e =>
            simp only [wfItemsO] at hit
            have htr := htruthyE e hit
            have hlt : sizeEdge e < n := by
              rw [sizeSchema_unfold] at hsz
              simp [sizePropsO, sizeItemsO, sizeVariantsO] at hsz
              omega
            exact roundArrSome refFn reg R RP cid cnm cdesc e hdesc htr
              (fun st2 => (IH (sizeEdge e) hlt).1 e le_rfl hit st2) nmOpt id0 st
      · by_cases henum : cty = "enum"
        · subst henum
          cases cev with
          | none => simp [hobj, harr, noConstraints] at hwf
          | some evs =>
              simp [hobj, harr, noConstraints] at hwf
              obtain ⟨hdesc, ⟨⟨⟨⟨⟨hne0, hpr⟩, hrq⟩, hit⟩, hva⟩, hdi⟩,
                ⟨⟨⟨⟨⟨⟨⟨hf, hx⟩, hdf⟩, hmn⟩, hmx⟩, hml⟩, hxl⟩, hpa⟩⟩ := hwf
              subst hpr hrq hit hva hdi hf hx hdf hmn hmx hml hxl hpa
              have hne : evs ≠ [] := by simpa using hne0
              exact roundEnum refFn reg R RP cid cnm cdesc evs hne hdesc nmOpt id0 st
        · by_cases hcomp : cty = "oneOf" ∨ cty = "anyOf" ∨ cty = "allOf"
          · simp [hobj, harr, henum, hcomp, noConstraints] at hwf
            obtain ⟨hdesc, ⟨⟨⟨⟨⟨hva, hpr⟩, hrq⟩, hit⟩, hev⟩,
              ⟨⟨⟨⟨⟨⟨⟨hf, hx⟩, hdf⟩, hmn⟩, hmx⟩, hml⟩, hxl⟩, hpa⟩⟩, hdc⟩ := hwf
            subst hpr hrq hit hev hf hx hdf hmn hmx hml hxl hpa
            cases variants with
            | none => simp [wfVariantsO] at hva
            | some vl =>
                simp only [wfVariantsO, Bool.and_eq_true] at hva
                obtain ⟨hvne0, hwfv⟩ := hva
                have hvne : vl ≠ [] := by simpa using hvne0
                have hvl : 0 < vl.length := List.length_pos.mpr hvne
                have hlt : sizeVariants vl < n := by
                  rw [sizeSchema_unfold] at hsz
                  simp [sizePropsO, sizeItemsO, sizeVariantsO] at hsz
                  omega
                have hIHv : ∀ st2 : PState,
                    canonVariants RP
                      (parseEdgeList (serializeEdgeListF refFn vl) reg st2).1 =
                    canonVariants R vl :=
                  fun st2 => (IH (sizeVariants vl) hlt).2.2.2 vl le_rfl hwfv st2
                by_cases hone : cty = "oneOf"
                · subst hone
                  rw [if_pos rfl] at hdc
                  cases cdisc with
                  | none =>
                      exact roundCompNone refFn reg R RP cid cnm "oneOf" cdesc vl
                        (Or.inl rfl) hdesc hvl hIHv nmOpt id0 st
                  | some dsc =>
                      obtain ⟨pn, mp⟩ := dsc
                      cases pn with
                      | none => simp at hdc
                      | some p =>
                          simp at hdc
                          obtain ⟨hp, hmp⟩ := hdc
                          subst hmp
                          exact roundCompDisc refFn reg R RP cid cnm cdesc p vl
                            hdesc hp hvl hIHv nmOpt id0 st
                · rw [if_neg hone] at hdc
                  subst hdc
                  exact roundCompNone refFn reg R RP cid cnm cty cdesc vl hcomp
                    hdesc hvl hIHv nmOpt id0 st
          · simp [hobj, harr, henum, hcomp] at hwf
            obtain ⟨hdesc, hprim, hrest⟩ := hwf
            obtain ⟨⟨⟨⟨⟨⟨⟨hfmt, hpat⟩, hpr⟩, hrq⟩, hit⟩, hva⟩, hev⟩, hdi⟩ := hrest
            subst hpr hrq hit hva hev hdi
            exact roundPrim refFn reg R RP cid cnm cty cdesc cfmt cex cdef cmin cmax
              cminl cmaxl cpat hprim hdesc hfmt hpat nmOpt id0 st
  · -- property maps
    intro r l hsz hwf st
    cases l with
    | nil => simp [serializePropListF, parsePropList, canonProps]
    | cons hd tl =>
        obtain ⟨key, pd⟩ := hd
        obtain ⟨pname, pschema, preq, pdesc⟩ := pd
        simp only [wfProps, Bool.and_eq_true, decide_eq_true_eq] at hwf
        obtain ⟨⟨⟨⟨hkey, hreq⟩, hdesc⟩, hedge⟩, htl⟩ := hwf
        subst hkey
        subst hreq
        simp only [sizeProps] at hsz
        have hltE : sizeEdge pschema < n := by omega
        have hltT : sizeProps tl < n := by omega
        have htail : ∀ st2 : PState,
            canonProps RP (parsePropList (serializePropListF refFn tl) r reg st2).1 =
              canonProps R tl :=
          fun st2 => (IH (sizeProps tl) hltT).2.2.1 r tl le_rfl htl st2
        simp only [serializePropListF]
        cases pschema with
        | ref tid =>
            simp only [wfPropEdge] at hedge
            obtain ⟨nm, rid, hrf, hnm, hreg, hRP⟩ := href tid hedge
            simp only [serializeEdgeF]
            rw [hrf]
            cases pdesc with
            | none =>
                simp only [parsePropList]
                rw [parseEdge_refObj nm rid [] reg st hnm hreg]
                have hdg : ((Json.obj
                    [("$ref", Json.str ("#/components/schemas/" ++ nm))]).getField?
                    "description") = none := by
                  rw [getField_obj]
                  rw [getF_cons_ne _ _ _ _ (by decide)]
                  rfl
                simp [canonProps, canonEdge, hRP, ← strIn_eq_contains, hdg, htail]
            | some d =>
                simp only [wfOptStr] at hdesc
                have hd : d ≠ "" := by simpa using hdesc
                simp only [if_pos hd]
                have hms : jsonSetField
                    (Json.obj [("$ref", Json.str ("#/components/schemas/" ++ nm))])
                    "description" (Json.str d) =
                    Json.obj [("$ref", Json.str ("#/components/schemas/" ++ nm)),
                      ("description", Json.str d)] := by
                  simp only [jsonSetField]
                  rw [mapSet_append_of_get_none _ _ _ (by simp [mapGet?])]
                  rfl
                rw [hms]
                simp only [parsePropList]
                rw [parseEdge_refObj nm rid [("description", Json.str d)] reg st hnm hreg]
                have hdg : ((Json.obj
                    [("$ref", Json.str ("#/components/schemas/" ++ nm)),
                      ("description", Json.str d)]).getField? "description") =
                    some (Json.str d) := by
                  rw [getField_obj]
                  rw [getF_cons_ne _ _ _ _ (by decide)]
                  exact getF_cons_self _ _ _
                simp [canonProps, canonEdge, hRP, ← strIn_eq_contains, hdg, htail,
                  Json.asStr?]
        | inline s' =>
            simp only [wfPropEdge, Bool.and_eq_true, decide_eq_true_eq] at hedge
            obtain ⟨⟨hname, hbody⟩, hpd⟩ := hedge
            have hwfE : wfEdge schemas (.inline s') = true := by
              simp [wfEdge, hname, hbody]
            have hE := (IH (sizeEdge (.inline s')) hltE).1 (.inline s') le_rfl hwfE st
            have hwfdesc : wfOptStr s'.description = true := wfSchemaBody_desc schemas s' hbody
            have hdk : (serializeEdgeF refFn (.inline s')).getField? "description" =
                s'.description.map Json.str :=
              serializeSchemaF_desc_key_node refFn s' hwfdesc
            subst hpd
            cases hsd : s'.description with
            | none =>
                rw [hsd] at hdk
                simp only [serializeEdgeF] at hdk hE ⊢
                simp only [parsePropList]
                simp [canonProps, canonEdge, hE, ← strIn_eq_contains, hdk, htail]
            | some d =>
                have hd : d ≠ "" := by
                  rw [hsd] at hwfdesc
                  simpa [wfOptStr] using hwfdesc
                rw [hsd] at hdk
                simp only [serializeEdgeF] at hdk hE ⊢
                simp only [if_pos hd]
                have hset : jsonSetField (serializeSchemaF refFn s') "description"
                    (Json.str d) = serializeSchemaF refFn s' := by
                  obtain ⟨fsS, hfsS⟩ := serializeSchemaF_is_obj refFn s'
                  have hg : getF fsS "description" = some (Json.str d) := by
                    rw [hfsS, getField_obj] at hdk
                    exact hdk
                  rw [hfsS]
                  simp only [jsonSetField]
                  rw [mapSet_of_get_eq fsS "description" (Json.str d) hg]
                rw [hset]
                simp only [parsePropList]
                simp [canonProps, canonEdge, hE, ← strIn_eq_contains, hdk, htail,
                  Json.asStr?]
  · -- variant lists
    intro l hsz hwf st
    cases l with
    | nil => simp [serializeEdgeListF, parseEdgeList, canonVariants]
    | cons e tl =>
        simp only [wfVariants, Bool.and_eq_true] at hwf
        obtain ⟨hwfE, htl⟩ := hwf
        simp only [sizeVariants] at hsz
        have hltE : sizeEdge e < n := by omega
        have hltT : sizeVariants tl < n := by omega
        simp only [serializeEdgeListF, parseEdgeList]
        simp [canonVariants, (IH (sizeEdge e) hltE).1 e le_rfl hwfE st,
          fun st2 => (IH (sizeVariants tl) hltT).2.2.2 tl le_rfl htl st2]

-- ---------------------------------------------------------------------
-- Round-trip proof, phase 3: route-level entities
-- ---------------------------------------------------------------------

theorem roundParam (doc : ApiDocument) (reg : Registry)
    (schemas : List (NodeId × SchemaNode)) (R RP : NodeId → Nat)
    (hE : ∀ e, wfEdge schemas e = true → ∀ st : PState,
      canonEdge RP (parseEdge (serializeSchemaOrRef e doc) reg st).1 = canonEdge R e)
    (hT : ∀ e, wfEdge schemas e = true → jsTruthy (serializeSchemaOrRef e doc) = true)
    (p : ParameterDef) (hwf : wfParam schemas p = true) (st : PState) :
    canonParam RP (parseParameter (serializeParameter p doc) reg st).1 = canonParam R p := by
  obtain ⟨pid, pnm, pin, prq, psc, pds, pex⟩ := p
  simp only [wfParam, Bool.and_eq_true, Bool.not_eq_true', decide_eq_false_iff_not] at hwf
  obtain ⟨⟨⟨hnm, hin⟩, hds⟩, hsc⟩ := hwf
  have hTe := hT _ hsc
  have hEe := hE _ hsc
  have h1 : jsTruthy (Json.str pnm) = true := by simp [jsTruthy, hnm]
  have h2 : jsTruthy (Json.str pin) = true := by simp [jsTruthy, hin]
  have h3 : jsTruthy (Json.bool true) = true := rfl
  cases pds with
  | none =>
      cases prq <;> cases pex <;>
        simp [serializeParameter, parseParameter, optStrField, canonParam, genId,
          Json.truthyField?, Json.truthyStrField?, Json.strField?, Json.getField?,
          Json.getField?.lookupField, Json.asStr?, hTe, hEe, h1, h2, h3]
  | some d =>
      simp only [wfOptStr, Bool.not_eq_true', decide_eq_false_iff_not] at hds
      have h4 : jsTruthy (Json.str d) = true := by simp [jsTruthy, hds]
      cases prq <;> cases pex <;>
        simp [serializeParameter, parseParameter, optStrField, canonParam, genId,
          Json.truthyField?, Json.truthyStrField?, Json.strField?, Json.getField?,
          Json.getField?.lookupField, Json.asStr?, hTe, hEe, h1, h2, h3, h4, hds]

theorem roundParamList (doc : ApiDocument) (reg : Registry)
    (schemas : List (NodeId × SchemaNode)) (R RP : NodeId → Nat)
    (hE : ∀ e, wfEdge schemas e = true → ∀ st : PState,
      canonEdge RP (parseEdge (serializeSchemaOrRef e doc) reg st).1 = canonEdge R e)
    (hT : ∀ e, wfEdge schemas e = true → jsTruthy (serializeSchemaOrRef e doc) = true)
    (ps : List ParameterDef) (hwf : ps.all (wfParam schemas) = true) (st : PState) :
    (parseParamList (ps.map (serializeParameter · doc)) reg st).1.map (canonParam RP) =
      ps.map (canonParam R) := by
  induction ps generalizing st with
  | nil => simp [parseParamList]
  | cons p tl ih =>
      simp only [List.all_cons, Bool.and_eq_true] at hwf
      obtain ⟨hp, htl⟩ := hwf
      simp only [List.map_cons, parseParamList]
      simp [roundParam doc reg schemas R RP hE hT p hp st, ih htl]

theorem roundContentEntries (doc : ApiDocument) (reg : Registry)
    (schemas : List (NodeId × SchemaNode)) (R RP : NodeId → Nat)
    (hE : ∀ e, wfEdge schemas e = true → ∀ st : PState,
      canonEdge RP (parseEdge (serializeSchemaOrRef e doc) reg st).1 = canonEdge R e)
    (hT : ∀ e, wfEdge schemas e = true → jsTruthy (serializeSchemaOrRef e doc) = true)
    (c : List (String × MediaType))
    (hwf : c.all (fun m => wfEdge schemas m.2.schema) = true) (st : PState) :
    canonContent RP (parseContentEntries
        (c.map (fun m => (m.1, serializeMediaType m.2 doc))) "object" reg st).1 =
      canonContent R c := by
  induction c generalizing st with
  | nil => simp [parseContentEntries, canonContent]
  | cons m tl ih =>
      obtain ⟨ct, msch, mex⟩ := m
      simp only [List.all_cons, Bool.and_eq_true] at hwf
      obtain ⟨hm, htl⟩ := hwf
      have hTe := hT _ hm
      have hEe := hE _ hm
      have ih2 := ih htl
      have hmt : (serializeMediaType ⟨msch, mex⟩ doc).truthyField? "schema" =
          some (serializeSchemaOrRef msch doc) := by
        cases mex <;>
          simp [serializeMediaType, Json.truthyField?, Json.getField?,
            Json.getField?.lookupField, hTe]
      have hex : (serializeMediaType ⟨msch, mex⟩ doc).getField? "example" = mex := by
        cases mex <;>
          simp [serializeMediaType, Json.getField?, Json.getField?.lookupField]
      simp only [List.map_cons, parseContentEntries, hmt, hex]
      simp only [canonContent, canonMedia, List.map_cons] at ih2 ⊢
      simp [canonMedia, hEe, ih2]

theorem roundBody (doc : ApiDocument) (reg : Registry)
    (schemas : List (NodeId × SchemaNode)) (R RP : NodeId → Nat)
    (hE : ∀ e, wfEdge schemas e = true → ∀ st : PState,
      canonEdge RP (parseEdge (serializeSchemaOrRef e doc) reg st).1 = canonEdge R e)
    (hT : ∀ e, wfEdge schemas e = true → jsTruthy (serializeSchemaOrRef e doc) = true)
    (b : RequestBody) (hwf : wfBody schemas b = true) (st : PState) :
    canonBody RP (parseRequestBody (serializeRequestBody b doc) reg st).1 =
      canonBody R b := by
  obtain ⟨bid, bds, brq, bc⟩ := b
  simp only [wfBody, Bool.and_eq_true] at hwf
  obtain ⟨hds, hc⟩ := hwf
  simp only [wfContent, Bool.and_eq_true] at hc
  obtain ⟨-, hc⟩ := hc
  have hrc := fun st2 => roundContentEntries doc reg schemas R RP hE hT bc hc st2
  cases bds with
  | none =>
      cases brq <;>
        simp [serializeRequestBody, parseRequestBody, serializeContent, optStrField,
          canonBody, genId, Json.truthyField?, Json.strField?, Json.getField?,
          Json.getField?.lookupField, Json.asStr?, jsTruthy, hrc]
  | some d =>
      simp only [wfOptStr, Bool.not_eq_true', decide_eq_false_iff_not] at hds
      cases brq <;>
        simp [serializeRequestBody, parseRequestBody, serializeContent, optStrField,
          canonBody, genId, Json.truthyField?, Json.strField?, Json.getField?,
          Json.getField?.lookupField, Json.asStr?, jsTruthy, hds, hrc]

theorem roundResponse (doc : ApiDocument) (reg : Registry)
    (schemas : List (NodeId × SchemaNode)) (R RP : NodeId → Nat)
    (hE : ∀ e, wfEdge schemas e = true → ∀ st : PState,
      canonEdge RP (parseEdge (serializeSchemaOrRef e doc) reg st).1 = canonEdge R e)
    (hT : ∀ e, wfEdge schemas e = true → jsTruthy (serializeSchemaOrRef e doc) = true)
    (r : ResponseDef) (hwf : wfResponse schemas r = true) (st : PState) :
    canonResponse RP (parseResponse (serializeResponse r doc) reg st).1 =
      canonResponse R r := by
  obtain ⟨rid, rds, rc, rh⟩ := r
  simp only [wfResponse, Bool.and_eq_true, Bool.not_eq_true',
    decide_eq_false_iff_not] at hwf
  obtain ⟨⟨hds, hc⟩, hh⟩ := hwf
  simp only [Option.isNone_iff_eq_none] at hh
  subst hh
  cases rc with
  | none =>
      simp [serializeResponse, parseResponse, canonResponse, genId,
        Json.truthyField?, Json.truthyStrField?, Json.getField?,
        Json.getField?.lookupField, Json.asStr?, jsTruthy, hds]
  | some c =>
      simp only [Bool.and_eq_true] at hc
      obtain ⟨hcne, hc⟩ := hc
      simp only [wfContent, Bool.and_eq_true] at hc
      obtain ⟨-, hc⟩ := hc
      have hlen : c.length > 0 := by
        cases c with
        | nil => simp at hcne
        | cons a tl => simp
      have hrc := fun st2 => roundContentEntries doc reg schemas R RP hE hT c hc st2
      simp [serializeResponse, parseResponse, serializeContent, canonResponse, genId,
        Json.truthyField?, Json.truthyStrField?, Json.getField?,
        Json.getField?.lookupField, Json.asStr?, jsTruthy, hds, hlen, hrc]

theorem mapGet_none_of_mem {K V : Type} [DecidableEq K] (m : List (K × V)) (k : K)
    (h : mapGet? m k = none) : ∀ e ∈ m, e.1 ≠ k := by
  induction m with
  | nil => simp
  | cons hd tl ih =>
      obtain ⟨k', v⟩ := hd
      by_cases hk : k' = k
      · simp [mapGet?, hk] at h
      · simp only [mapGet?, if_neg hk] at h
        intro e he
        rcases List.mem_cons.mp he with he | he
        · subst he
          exact hk
        · exact ih h e he

theorem roundResponseEntries (doc : ApiDocument) (reg : Registry)
    (schemas : List (NodeId × SchemaNode)) (R RP : NodeId → Nat)
    (hE : ∀ e, wfEdge schemas e = true → ∀ st : PState,
      canonEdge RP (parseEdge (serializeSchemaOrRef e doc) reg st).1 = canonEdge R e)
    (hT : ∀ e, wfEdge schemas e = true → jsTruthy (serializeSchemaOrRef e doc) = true)
    (rs : List (String × ResponseDef)) :
    ∀ (acc : List (String × ResponseDef)) (st : PState),
      rs.all (fun e => wfResponse schemas e.2) = true →
      keyNodup rs = true →
      (∀ e ∈ rs, mapGet? acc e.1 = none) →
      (parseResponseEntries (rs.map (fun e => (e.1, serializeResponse e.2 doc)))
          reg st acc).1.map (fun e => (e.1, canonResponse RP e.2)) =
        acc.map (fun e => (e.1, canonResponse RP e.2)) ++
          rs.map (fun e => (e.1, canonResponse R e.2)) := by
  induction rs with
  | nil =>
      intro acc st hwf hnd hacc
      simp [parseResponseEntries]
  | cons hd tl ih =>
      obtain ⟨k, r⟩ := hd
      intro acc st hwf hnd hacc
      simp only [List.all_cons, Bool.and_eq_true] at hwf
      obtain ⟨hr, htl⟩ := hwf
      simp only [keyNodup, Bool.and_eq_true, Option.isNone_iff_eq_none] at hnd
      obtain ⟨hk, hndtl⟩ := hnd
      simp only [List.map_cons, parseResponseEntries]
      have hacck : mapGet? acc k = none := hacc (k, r) (List.mem_cons_self _ _)
      rw [mapSet_append_of_get_none acc k _ hacck]
      rw [ih (acc ++ [(k, (parseResponse (serializeResponse r doc) reg st).1)])
        (parseResponse (serializeResponse r doc) reg st).2 htl hndtl ?_]
      · simp [roundResponse doc reg schemas R RP hE hT r hr st]
      · intro e he
        rw [mapGet_append]
        rw [hacc e (List.mem_cons_of_mem _ he)]
        have hne := mapGet_none_of_mem tl k hk e he
        simp [mapGet?, Ne.symm hne]

theorem roundResponses (doc : ApiDocument) (reg : Registry)
    (schemas : List (NodeId × SchemaNode)) (R RP : NodeId → Nat)
    (hE : ∀ e, wfEdge schemas e = true → ∀ st : PState,
      canonEdge RP (parseEdge (serializeSchemaOrRef e doc) reg st).1 = canonEdge R e)
    (hT : ∀ e, wfEdge schemas e = true → jsTruthy (serializeSchemaOrRef e doc) = true)
    (rs : List (String × ResponseDef))
    (hwf : rs.all (fun e => wfResponse schemas e.2) = true)
    (hnd : keyNodup rs = true) (hne : rs ≠ []) (st : PState) :
    (ensureResponses
        (parseResponseEntries (rs.map (fun e => (e.1, serializeResponse e.2 doc)))
          reg st []).1
        (parseResponseEntries (rs.map (fun e => (e.1, serializeResponse e.2 doc)))
          reg st []).2).1.map (fun e => (e.1, canonResponse RP e.2)) =
      rs.map (fun e => (e.1, canonResponse R e.2)) := by
  have h := roundResponseEntries doc reg schemas R RP hE hT rs [] st hwf hnd
    (by intro e he; rfl)
  simp only [List.map_nil, List.nil_append] at h
  have hpne : (parseResponseEntries (rs.map (fun e => (e.1, serializeResponse e.2 doc)))
      reg st []).1 ≠ [] := by
    intro h0
    rw [h0] at h
    cases rs with
    | nil => exact hne rfl
    | cons a b => simp at h
  unfold ensureResponses
  rw [if_neg (by simpa using hpne)]
  exact h

theorem truthyField_obj (fs : List (String × Json)) (k : String) :
    (Json.obj fs).truthyField? k = truthyF fs k := by
  simp [Json.truthyField?, truthyF, getField_obj]

theorem truthyStrField_obj (fs : List (String × Json)) (k : String) :
    (Json.obj fs).truthyStrField? k = truthyStrF fs k := by
  simp [Json.truthyStrField?, truthyStrF, truthyField_obj]

theorem strField_obj (fs : List (String × Json)) (k : String) :
    (Json.obj fs).strField? k = strF fs k := by
  simp [Json.strField?, strF, getField_obj]

theorem getF_blk_ne (bk : String) (b rest : List (String × Json)) (k : String)
    (hb : b = [] ∨ ∃ v, b = [(bk, v)]) (hk : bk ≠ k) :
    getF (b ++ rest) k = getF rest k := by
  rcases hb with hb | ⟨v, hb⟩ <;> subst hb <;> simp [getF, mapGet?, hk]

theorem jsTruthy_serializeRequestBody (b : RequestBody) (doc : ApiDocument) :
    jsTruthy (serializeRequestBody b doc) = true := rfl

/-- All the field reads `parseOperation` performs on the object
`serializeOperation` emits, reduced to the individual emitted blocks. -/
theorem opFieldReads (S D O : Option String) (b4 b5 b6 b7 : List (String × Json))
    (rj : List (String × Json))
    (hS : wfOptStr S = true) (hD : wfOptStr D = true) (hO : wfOptStr O = true)
    (h4 : b4 = [] ∨ ∃ v, b4 = [("tags", v)])
    (h5 : b5 = [] ∨ ∃ v, b5 = [("deprecated", v)])
    (h6 : b6 = [] ∨ ∃ v, b6 = [("parameters", v)])
    (h7 : b7 = [] ∨ ∃ v, b7 = [("requestBody", v)]) :
    ∀ FS, FS = optStrField "summary" S ++ (optStrField "description" D ++
      (optStrField "operationId" O ++ (b4 ++ (b5 ++ (b6 ++ (b7 ++ [("responses", Json.obj rj)])))))) →
    (Json.obj FS).truthyStrField? "summary" = S ∧
    (Json.obj FS).truthyStrField? "description" = D ∧
    (Json.obj FS).truthyStrField? "operationId" = O ∧
    (Json.obj FS).getField? "tags" = getF b4 "tags" ∧
    (Json.obj FS).getField? "deprecated" = getF b5 "deprecated" ∧
    (Json.obj FS).truthyField? "parameters" = truthyF b6 "parameters" ∧
    (Json.obj FS).truthyField? "requestBody" = truthyF b7 "requestBody" ∧
    (Json.obj FS).truthyField? "responses" = some (Json.obj rj) := by
  intro FS hFS
  subst hFS
  refine ⟨?_, ?_, ?_, ?_, ?_, ?_, ?_, ?_⟩
  · rw [truthyStrField_obj]
    refine truthyStrF_map_str _ _ _ ?_ hS
    rw [getF_app_optStr_self _ _ _ hS ?_]
    rw [getF_app_optStr _ _ _ _ (by decide)]
    rw [getF_app_optStr _ _ _ _ (by decide)]
    rw [getF_blk_ne "tags" _ _ _ h4 (by decide)]
    rw [getF_blk_ne "deprecated" _ _ _ h5 (by decide)]
    rw [getF_blk_ne "parameters" _ _ _ h6 (by decide)]
    rw [getF_blk_ne "requestBody" _ _ _ h7 (by decide)]
    rw [getF_cons_ne _ _ _ _ (by decide)]
    rfl
  · rw [truthyStrField_obj]
    refine truthyStrF_map_str _ _ _ ?_ hD
    rw [getF_app_optStr _ _ _ _ (by decide)]
    rw [getF_app_optStr_self _ _ _ hD ?_]
    rw [getF_app_optStr _ _ _ _ (by decide)]
    rw [getF_blk_ne "tags" _ _ _ h4 (by decide)]
    rw [getF_blk_ne "deprecated" _ _ _ h5 (by decide)]
    rw [getF_blk_ne "parameters" _ _ _ h6 (by decide)]
    rw [getF_blk_ne "requestBody" _ _ _ h7 (by decide)]
    rw [getF_cons_ne _ _ _ _ (by decide)]
    rfl
  · rw [truthyStrField_obj]
    refine truthyStrF_map_str _ _ _ ?_ hO
    rw [getF_app_optStr _ _ _ _ (by decide)]
    rw [getF_app_optStr _ _ _ _ (by decide)]
    rw [getF_app_optStr_self _ _ _ hO ?_]
    rw [getF_blk_ne "tags" _ _ _ h4 (by decide)]
    rw [getF_blk_ne "deprecated" _ _ _ h5 (by decide)]
    rw [getF_blk_ne "parameters" _ _ _ h6 (by decide)]
    rw [getF_blk_ne "requestBody" _ _ _ h7 (by decide)]
    rw [getF_cons_ne _ _ _ _ (by decide)]
    rfl
  · rw [getField_obj]
    rw [getF_app_optStr _ _ _ _ (by decide)]
    rw [getF_app_optStr _ _ _ _ (by decide)]
    rw [getF_app_optStr _ _ _ _ (by decide)]
    rw [getF_append]
    rcases h4 with h4 | ⟨v, h4⟩ <;> subst h4
    · rw [getF_blk_ne "deprecated" _ _ _ h5 (by decide)]
      rw [getF_blk_ne "parameters" _ _ _ h6 (by decide)]
      rw [getF_blk_ne "requestBody" _ _ _ h7 (by decide)]
      rw [getF_cons_ne _ _ _ _ (by decide)]
      rfl
    · simp [getF, mapGet?]
  · rw [getField_obj]
    rw [getF_app_optStr _ _ _ _ (by decide)]
    rw [getF_app_optStr _ _ _ _ (by decide)]
    rw [getF_app_optStr _ _ _ _ (by decide)]
    rw [getF_blk_ne "tags" _ _ _ h4 (by decide)]
    rw [getF_append]
    rcases h5 with h5 | ⟨v, h5⟩ <;> subst h5
    · rw [getF_blk_ne "parameters" _ _ _ h6 (by decide)]
      rw [getF_blk_ne "requestBody" _ _ _ h7 (by decide)]
      rw [getF_cons_ne _ _ _ _ (by decide)]
      rfl
    · simp [getF, mapGet?]
  · rw [truthyField_obj]
    have hg : getF (optStrField "summary" S ++ (optStrField "description" D ++
        (optStrField "operationId" O ++ (b4 ++ (b5 ++ (b6 ++
          (b7 ++ [("responses", Json.obj rj)]))))))) "parameters" =
        getF b6 "parameters" := by
      rw [getF_app_optStr _ _ _ _ (by decide)]
      rw [getF_app_optStr _ _ _ _ (by decide)]
      rw [getF_app_optStr _ _ _ _ (by decide)]
      rw [getF_blk_ne "tags" _ _ _ h4 (by decide)]
      rw [getF_blk_ne "deprecated" _ _ _ h5 (by decide)]
      rw [getF_append]
      rcases h6 with h6 | ⟨v, h6⟩ <;> subst h6
      · rw [getF_blk_ne "requestBody" _ _ _ h7 (by decide)]
        rw [getF_cons_ne _ _ _ _ (by decide)]
        rfl
      · simp [getF, mapGet?]
    unfold truthyF
    rw [hg]
  · rw [truthyField_obj]
    have hg : getF (optStrField "summary" S ++ (optStrField "description" D ++
        (optStrField "operationId" O ++ (b4 ++ (b5 ++ (b6 ++
          (b7 ++ [("responses", Json.obj rj)]))))))) "requestBody" =
        getF b7 "requestBody" := by
      rw [getF_app_optStr _ _ _ _ (by decide)]
      rw [getF_app_optStr _ _ _ _ (by decide)]
      rw [getF_app_optStr _ _ _ _ (by decide)]
      rw [getF_blk_ne "tags" _ _ _ h4 (by decide)]
      rw [getF_blk_ne "deprecated" _ _ _ h5 (by decide)]
      rw [getF_blk_ne "parameters" _ _ _ h6 (by decide)]
      rw [getF_append]
      rcases h7 with h7 | ⟨v, h7⟩ <;> subst h7
      · rw [getF_cons_ne _ _ _ _ (by decide)]
        rfl
      · simp [getF, mapGet?]
    unfold truthyF
    rw [hg]
  · rw [truthyField_obj]
    have hg : getF (optStrField "summary" S ++ (optStrField "description" D ++
        (optStrField "operationId" O ++ (b4 ++ (b5 ++ (b6 ++
          (b7 ++ [("responses", Json.obj rj)]))))))) "responses" =
        some (Json.obj rj) := by
      rw [getF_app_optStr _ _ _ _ (by decide)]
      rw [getF_app_optStr _ _ _ _ (by decide)]
      rw [getF_app_optStr _ _ _ _ (by decide)]
      rw [getF_blk_ne "tags" _ _ _ h4 (by decide)]
      rw [getF_blk_ne "deprecated" _ _ _ h5 (by decide)]
      rw [getF_blk_ne "parameters" _ _ _ h6 (by decide)]
      rw [getF_blk_ne "requestBody" _ _ _ h7 (by decide)]
      exact getF_cons_self _ _ _
    unfold truthyF
    rw [hg]
    rfl

theorem serializeOperation_eq (doc : ApiDocument) (rtid : NodeId) (rpath : String)
    (rmethod : HttpMethod) (rsum rdesc2 ropid : Option String) (rtags : List String)
    (rparams : List ParameterDef) (rbody : Option RequestBody)
    (rresps : List (String × ResponseDef)) (rdep : Option Bool) :
    serializeOperation ⟨rtid, rpath, rmethod, rsum, rdesc2, ropid, rtags, rparams,
      rbody, rresps, none, rdep⟩ doc =
    Json.obj (optStrField "summary" rsum ++ (optStrField "description" rdesc2 ++
      (optStrField "operationId" ropid ++
      ((if rtags.length > 0 then [("tags", Json.arr (rtags.map Json.str))] else []) ++
      ((match rdep with
        | some b => if b then [("deprecated", Json.bool true)] else []
        | none => []) ++
      ((if rparams.length > 0 then
          [("parameters", Json.arr (rparams.map (serializeParameter · doc)))] else []) ++
      ((match rbody with
        | some body => [("requestBody", serializeRequestBody body doc)]
        | none => []) ++
      [("responses", Json.obj (rresps.map (fun e => (e.1, serializeResponse e.2 doc))))]))))))) := by
  simp only [serializeOperation, List.append_assoc, List.append_nil]

/-- Every field read `parseOperation` performs, fully evaluated on the
emitted operation object. -/
theorem opFieldReadsOp (doc : ApiDocument) (rtid : NodeId) (rpath : String)
    (rmethod : HttpMethod) (rsum rdesc2 ropid : Option String) (rtags : List String)
    (rparams : List ParameterDef) (rbody : Option RequestBody)
    (rresps : List (String × ResponseDef)) (rdep : Option Bool)
    (hS : wfOptStr rsum = true) (hD : wfOptStr rdesc2 = true)
    (hO : wfOptStr ropid = true) :
    (serializeOperation ⟨rtid, rpath, rmethod, rsum, rdesc2, ropid, rtags, rparams,
      rbody, rresps, none, rdep⟩ doc).truthyStrField? "summary" = rsum ∧
    (serializeOperation ⟨rtid, rpath, rmethod, rsum, rdesc2, ropid, rtags, rparams,
      rbody, rresps, none, rdep⟩ doc).truthyStrField? "description" = rdesc2 ∧
    (serializeOperation ⟨rtid, rpath, rmethod, rsum, rdesc2, ropid, rtags, rparams,
      rbody, rresps, none, rdep⟩ doc).truthyStrField? "operationId" = ropid ∧
    (serializeOperation ⟨rtid, rpath, rmethod, rsum, rdesc2, ropid, rtags, rparams,
      rbody, rresps, none, rdep⟩ doc).getField? "tags" =
      (if rtags.length > 0 then some (Json.arr (rtags.map Json.str)) else none) ∧
    (serializeOperation ⟨rtid, rpath, rmethod, rsum, rdesc2, ropid, rtags, rparams,
      rbody, rresps, none, rdep⟩ doc).getField? "deprecated" =
      (if rdep = some true then some (Json.bool true) else none) ∧
    (serializeOperation ⟨rtid, rpath, rmethod, rsum, rdesc2, ropid, rtags, rparams,
      rbody, rresps, none, rdep⟩ doc).truthyField? "parameters" =
      (if rparams.length > 0 then
        some (Json.arr (rparams.map (serializeParameter · doc))) else none) ∧
    (serializeOperation ⟨rtid, rpath, rmethod, rsum, rdesc2, ropid, rtags, rparams,
      rbody, rresps, none, rdep⟩ doc).truthyField? "requestBody" =
      rbody.map (fun b => serializeRequestBody b doc) ∧
    (serializeOperation ⟨rtid, rpath, rmethod, rsum, rdesc2, ropid, rtags, rparams,
      rbody, rresps, none, rdep⟩ doc).truthyField? "responses" =
      some (Json.obj (rresps.map (fun e => (e.1, serializeResponse e.2 doc)))) := by
  obtain ⟨r1, r2, r3, r4, r5, r6, r7, r8⟩ :=
    opFieldReads rsum rdesc2 ropid
      (if rtags.length > 0 then [("tags", Json.arr (rtags.map Json.str))] else [])
      (match rdep with
        | some b => if b then [("deprecated", Json.bool true)] else []
        | none => [])
      (if rparams.length > 0 then
        [("parameters", Json.arr (rparams.map (serializeParameter · doc)))] else [])
      (match rbody with
        | some body => [("requestBody", serializeRequestBody body doc)]
        | none => [])
      (rresps.map (fun e => (e.1, serializeResponse e.2 doc)))
      hS hD hO
      (by by_cases h : rtags.length > 0 <;> simp [h])
      (by rcases rdep with _ | b
          · exact Or.inl rfl
          · cases b
            · exact Or.inl (by simp)
            · exact Or.inr ⟨Json.bool true, by simp⟩)
      (by by_cases h : rparams.length > 0 <;> simp [h])
      (by rcases rbody with _ | b
          · exact Or.inl rfl
          · exact Or.inr ⟨serializeRequestBody b doc, rfl⟩)
      _ rfl
  rw [serializeOperation_eq]
  refine ⟨r1, r2, r3, ?_, ?_, ?_, ?_, r8⟩
  · rw [r4]
    exact getF_ite_single_self _ _ _
  · rw [r5]
    rcases rdep with _ | b
    · rfl
    · cases b <;> simp [getF, mapGet?]
  · rw [r6]
    by_cases h : rparams.length > 0 <;> simp [h, truthyF, getF, mapGet?, jsTruthy]
  · rw [r7]
    rcases rbody with _ | b
    · rfl
    · simp [truthyF, getF, mapGet?, jsTruthy_serializeRequestBody]

theorem roundOperation (doc : ApiDocument) (reg : Registry)
    (schemas : List (NodeId × SchemaNode)) (R RP : NodeId → Nat)
    (hE : ∀ e, wfEdge schemas e = true → ∀ st : PState,
      canonEdge RP (parseEdge (serializeSchemaOrRef e doc) reg st).1 = canonEdge R e)
    (hT : ∀ e, wfEdge schemas e = true → jsTruthy (serializeSchemaOrRef e doc) = true)
    (r : Route) (hwf : wfRoute schemas r = true) (st : PState) :
    canonRoute RP (parseOperation r.path r.method (serializeOperation r doc) reg st).1 =
      canonRoute R r := by
  obtain ⟨rtid, rpath, rmethod, rsum, rdesc2, ropid, rtags, rparams, rbody, rresps,
    rsec, rdep⟩ := r
  simp only [wfRoute, Bool.and_eq_true, Bool.not_eq_true', decide_eq_false_iff_not,
    Option.isNone_iff_eq_none] at hwf
  obtain ⟨⟨⟨⟨⟨⟨⟨⟨⟨⟨hmeth, hsum⟩, hdsc⟩, hopid⟩, hdep⟩, hsec⟩, hparams⟩, hbody⟩,
    hrne⟩, hrnd⟩, hresp⟩ := hwf
  subst hsec
  obtain ⟨r1, r2, r3, r4, r5, r6, r7, r8⟩ :=
    opFieldReadsOp doc rtid rpath rmethod rsum rdesc2 ropid rtags rparams rbody
      rresps rdep hsum hdsc hopid
  simp only [parseOperation]
  rw [r1, r2, r3, r4, r5, r6, r7, r8]
  have hrne' : rresps ≠ [] := by
    intro h0
    rw [h0] at hrne
    simp at hrne
  have hPL := fun st2 => roundParamList doc reg schemas R RP hE hT rparams hparams st2
  have hRS := fun st2 =>
    roundResponses doc reg schemas R RP hE hT rresps hresp hrnd hrne' st2
  have hBC : ∀ b, rbody = some b → ∀ st2 : PState,
      canonBody RP (parseRequestBody (serializeRequestBody b doc) reg st2).1 =
        canonBody R b := by
    intro b hb st2
    rw [hb] at hbody
    exact roundBody doc reg schemas R RP hE hT b hbody st2
  rcases rbody with _ | bb <;> rcases rdep with _ | (_ | _) <;>
    by_cases h4c : rtags = [] <;> by_cases h6c : rparams = [] <;>
    first
      | exact absurd rfl hdep
      | simp [h4c, h6c, List.length_pos, canonRoute, genId, jsTruthy,
          asStrList_map_str, hPL, hRS, hBC _ rfl]
      | simp [h4c, h6c, List.length_pos, canonRoute, genId, jsTruthy,
          asStrList_map_str, hPL, hRS]

-- ---------------------------------------------------------------------
-- Round-trip proof, phase 4: document-level components
-- ---------------------------------------------------------------------

theorem mapGet_none_of_lt {α : Type} (m : List (NodeId × α)) (k : NodeId)
    (h : ∀ e ∈ m, e.1 < k) : mapGet? m k = none := by
  induction m with
  | nil => rfl
  | cons hd tl ih =>
      obtain ⟨k', v⟩ := hd
      have hk' : k' < k := h (k', v) (List.mem_cons_self _ _)
      simp only [mapGet?]
      rw [if_neg (Nat.ne_of_lt hk')]
      exact ih (fun e he => h e (List.mem_cons_of_mem _ he))

theorem strListNodup_nodup : ∀ l : List String, strListNodup l = true → l.Nodup := by
  intro l
  induction l with
  | nil => intro h; exact List.nodup_nil
  | cons x tl ih =>
      intro h
      simp only [strListNodup, Bool.and_eq_true, Bool.not_eq_true'] at h
      obtain ⟨hx, htl⟩ := h
      refine List.nodup_cons.mpr ⟨?_, ih htl⟩
      intro hmem
      rw [(strIn_iff_mem x tl).mpr hmem] at hx
      simp at hx

theorem parseSecurityScheme_id (name : String) (data : Json) (st : PState) :
    (parseSecurityScheme name data st).1.id = st.ctr := rfl

theorem parseSecurityScheme_ctr (name : String) (data : Json) (st : PState) :
    (parseSecurityScheme name data st).2.ctr = st.ctr + 1 := rfl

/-- Round trip of one security scheme under its well-formedness shape. -/
theorem roundScheme (s : SecurityScheme) (hwf : wfScheme s = true) (st : PState) :
    canonScheme (parseSecurityScheme s.name (serializeSecurityScheme s) st).1 =
      canonScheme s := by
  obtain ⟨sid, snm, styp, sdesc, sin, spn, ssch, sbf, sfl, surl⟩ := s
  simp only [wfScheme, Bool.and_eq_true, Bool.not_eq_true', decide_eq_false_iff_not,
    Option.isNone_iff_eq_none] at hwf
  obtain ⟨⟨⟨hty, hdsc⟩, hfl⟩, hrest⟩ := hwf
  subst hfl
  by_cases h1 : styp = "http"
  · subst h1
    simp only [ite_true, ite_false, Bool.and_eq_true, Option.isNone_iff_eq_none] at hrest
    obtain ⟨⟨⟨⟨hsv, hbf⟩, hin⟩, hpn⟩, hurl⟩ := hrest
    subst hin hpn hurl
    cases ssch with
    | none => simp at hsv
    | some sv =>
        simp only [Bool.not_eq_true', decide_eq_false_iff_not] at hsv
        cases sdesc with
        | none =>
            cases sbf with
            | none =>
                simp [serializeSecurityScheme, parseSecurityScheme, canonScheme,
                  optStrField, genId, Json.truthyStrField?, Json.truthyField?,
                  Json.strField?, Json.getField?, Json.getField?.lookupField,
                  Json.asStr?, jsTruthy, hsv]
            | some bf =>
                simp only [wfOptStr, Bool.not_eq_true', decide_eq_false_iff_not] at hbf
                simp [serializeSecurityScheme, parseSecurityScheme, canonScheme,
                  optStrField, genId, Json.truthyStrField?, Json.truthyField?,
                  Json.strField?, Json.getField?, Json.getField?.lookupField,
                  Json.asStr?, jsTruthy, hsv, hbf]
        | some d =>
            simp only [wfOptStr, Bool.not_eq_true', decide_eq_false_iff_not] at hdsc
            cases sbf with
            | none =>
                simp [serializeSecurityScheme, parseSecurityScheme, canonScheme,
                  optStrField, genId, Json.truthyStrField?, Json.truthyField?,
                  Json.strField?, Json.getField?, Json.getField?.lookupField,
                  Json.asStr?, jsTruthy, hsv, hdsc]
            | some bf =>
                simp only [wfOptStr, Bool.not_eq_true', decide_eq_false_iff_not] at hbf
                simp [serializeSecurityScheme, parseSecurityScheme, canonScheme,
                  optStrField, genId, Json.truthyStrField?, Json.truthyField?,
                  Json.strField?, Json.getField?, Json.getField?.lookupField,
                  Json.asStr?, jsTruthy, hsv, hdsc, hbf]
  · by_cases h2 : styp = "apiKey"
    · subst h2
      simp at hrest
      obtain ⟨⟨⟨⟨hiv, hpv⟩, hsc⟩, hbf⟩, hurl⟩ := hrest
      subst hsc hbf hurl
      cases sin with
      | none => simp at hiv
      | some iv =>
          simp only [Bool.not_eq_true', decide_eq_false_iff_not] at hiv
          cases spn with
          | none => simp at hpv
          | some pv =>
              simp only [Bool.not_eq_true', decide_eq_false_iff_not] at hpv
              cases sdesc with
              | none =>
                  simp [serializeSecurityScheme, parseSecurityScheme, canonScheme,
                    optStrField, genId, Json.truthyStrField?, Json.truthyField?,
                    Json.strField?, Json.getField?, Json.getField?.lookupField,
                    Json.asStr?, jsTruthy, hiv, hpv]
              | some d =>
                  simp only [wfOptStr, Bool.not_eq_true',
                    decide_eq_false_iff_not] at hdsc
                  simp [serializeSecurityScheme, parseSecurityScheme, canonScheme,
                    optStrField, genId, Json.truthyStrField?, Json.truthyField?,
                    Json.strField?, Json.getField?, Json.getField?.lookupField,
                    Json.asStr?, jsTruthy, hiv, hpv, hdsc]
    · by_cases h3 : styp = "openIdConnect"
      · subst h3
        simp at hrest
        obtain ⟨⟨⟨⟨hurl, hsc⟩, hbf⟩, hin⟩, hpn⟩ := hrest
        subst hsc hbf hin hpn
        cases surl with
        | none =>
            cases sdesc with
            | none =>
                simp [serializeSecurityScheme, parseSecurityScheme, canonScheme,
                  optStrField, genId, Json.truthyStrField?, Json.truthyField?,
                  Json.strField?, Json.getField?, Json.getField?.lookupField,
                  Json.asStr?, jsTruthy, hty]
            | some d =>
                simp only [wfOptStr, Bool.not_eq_true', decide_eq_false_iff_not] at hdsc
                simp [serializeSecurityScheme, parseSecurityScheme, canonScheme,
                  optStrField, genId, Json.truthyStrField?, Json.truthyField?,
                  Json.strField?, Json.getField?, Json.getField?.lookupField,
                  Json.asStr?, jsTruthy, hty, hdsc]
        | some u =>
            simp only [wfOptStr, Bool.not_eq_true', decide_eq_false_iff_not] at hurl
            cases sdesc with
            | none =>
                simp [serializeSecurityScheme, parseSecurityScheme, canonScheme,
                  optStrField, genId, Json.truthyStrField?, Json.truthyField?,
                  Json.strField?, Json.getField?, Json.getField?.lookupField,
                  Json.asStr?, jsTruthy, hty, hurl]
            | some d =>
                simp only [wfOptStr, Bool.not_eq_true', decide_eq_false_iff_not] at hdsc
                simp [serializeSecurityScheme, parseSecurityScheme, canonScheme,
                  optStrField, genId, Json.truthyStrField?, Json.truthyField?,
                  Json.strField?, Json.getField?, Json.getField?.lookupField,
                  Json.asStr?, jsTruthy, hty, hurl, hdsc]
      · simp only [if_neg h1, if_neg h2, if_neg h3, Bool.and_eq_true,
          Option.isNone_iff_eq_none] at hrest
        obtain ⟨⟨⟨⟨hsc, hbf⟩, hin⟩, hpn⟩, hurl⟩ := hrest
        subst hsc hbf hin hpn hurl
        cases sdesc with
        | none =>
            simp [serializeSecurityScheme, parseSecurityScheme, canonScheme,
              optStrField, genId, Json.truthyStrField?, Json.truthyField?,
              Json.strField?, Json.getField?, Json.getField?.lookupField,
              Json.asStr?, jsTruthy, hty, h1, h2, h3]
        | some d =>
            simp only [wfOptStr, Bool.not_eq_true', decide_eq_false_iff_not] at hdsc
            simp [serializeSecurityScheme, parseSecurityScheme, canonScheme,
              optStrField, genId, Json.truthyStrField?, Json.truthyField?,
              Json.strField?, Json.getField?, Json.getField?.lookupField,
              Json.asStr?, jsTruthy, hty, hdsc, h1, h2, h3]

theorem roundSchemeEntries : ∀ (l : List (NodeId × SecurityScheme))
    (acc : List (NodeId × SecurityScheme)) (st : PState),
    (l.all fun e => wfScheme e.2) = true →
    (∀ e ∈ acc, e.1 < st.ctr) →
    (parseSecuritySchemeEntries (l.map (fun e => (e.2.name, serializeSecurityScheme e.2)))
        st acc).1.map (fun e => canonScheme e.2) =
      acc.map (fun e => canonScheme e.2) ++ l.map (fun e => canonScheme e.2) := by
  intro l
  induction l with
  | nil =>
      intro acc st h1 h2
      simp [parseSecuritySchemeEntries]
  | cons e tl ih =>
      obtain ⟨eid, es⟩ := e
      intro acc st h1 h2
      simp only [List.all_cons, Bool.and_eq_true] at h1
      obtain ⟨he, htl⟩ := h1
      simp only [List.map_cons, parseSecuritySchemeEntries]
      have hget : mapGet? acc
          (parseSecurityScheme es.name (serializeSecurityScheme es) st).1.id = none := by
        rw [parseSecurityScheme_id]
        exact mapGet_none_of_lt acc st.ctr h2
      rw [mapSet_append_of_get_none _ _ _ hget]
      rw [ih _ _ htl ?_]
      · simp [roundScheme es he st]
      · intro b hb
        rcases List.mem_append.mp hb with hb | hb
        · have h3 := h2 b hb
          have h4 : (parseSecurityScheme es.name (serializeSecurityScheme es) st).2.ctr =
              st.ctr + 1 := parseSecurityScheme_ctr _ _ _
          rw [h4]
          exact Nat.lt_succ_of_lt h3
        · simp only [List.mem_singleton] at hb
          subst hb
          have h4 : (parseSecurityScheme es.name (serializeSecurityScheme es) st).2.ctr =
              st.ctr + 1 := parseSecurityScheme_ctr _ _ _
          have h5 : (parseSecurityScheme es.name (serializeSecurityScheme es) st).1.id =
              st.ctr := parseSecurityScheme_id _ _ _
          rw [h4, h5]
          exact Nat.lt_succ_self _

theorem secFold_eq : ∀ (l : List (NodeId × SecurityScheme)) (acc : List (String × Json)),
    (∀ e ∈ l, mapGet? acc e.2.name = none) →
    (l.map (fun e => e.2.name)).Nodup →
    l.foldl (fun acc entry => mapSet acc entry.2.name (serializeSecurityScheme entry.2)) acc =
      acc ++ l.map (fun e => (e.2.name, serializeSecurityScheme e.2)) := by
  intro l
  induction l with
  | nil =>
      intro acc h1 h2
      simp
  | cons e tl ih =>
      intro acc h1 h2
      simp only [List.foldl_cons, List.map_cons]
      rw [mapSet_append_of_get_none _ _ _ (h1 e (List.mem_cons_self _ _))]
      simp only [List.map_cons, List.nodup_cons] at h2
      rw [ih (acc ++ [(e.2.name, serializeSecurityScheme e.2)]) ?_ h2.2]
      · simp
      · intro b hb
        rw [mapGet_append, h1 b (List.mem_cons_of_mem _ hb)]
        have hne : b.2.name ≠ e.2.name := by
          intro he
          exact h2.1 (he ▸ List.mem_map_of_mem (fun x => x.2.name) hb)
        simp [mapGet?, Ne.symm hne]

theorem schemasFold_eq (doc : ApiDocument) :
    ∀ (l : List (NodeId × SchemaNode)) (acc : List (String × Json)),
    (∀ e ∈ l, ∃ nm, e.2.name = some nm ∧ nm ≠ "" ∧ mapGet? acc nm = none) →
    (l.filterMap (fun e => e.2.name)).Nodup →
    l.foldl (fun acc entry =>
      match entry.2.name with
      | some nm => if nm ≠ "" then mapSet acc nm (serializeSchema entry.2 doc) else acc
      | none => acc) acc =
      acc ++ l.map (fun e => (e.2.name.getD "", serializeSchema e.2 doc)) := by
  intro l
  induction l with
  | nil =>
      intro acc h1 h2
      simp
  | cons e tl ih =>
      intro acc h1 h2
      obtain ⟨nm, hnm, hne, hget⟩ := h1 e (List.mem_cons_self _ _)
      simp only [List.foldl_cons, List.map_cons]
      rw [hnm]
      simp only [if_pos hne]
      rw [mapSet_append_of_get_none _ _ _ hget]
      simp only [List.filterMap_cons, hnm, List.nodup_cons] at h2
      rw [ih (acc ++ [(nm, serializeSchema e.2 doc)]) ?_ h2.2]
      · simp [hnm]
      · intro b hb
        obtain ⟨nmb, hnmb, hneb, hgetb⟩ := h1 b (List.mem_cons_of_mem _ hb)
        refine ⟨nmb, hnmb, hneb, ?_⟩
        rw [mapGet_append, hgetb]
        have hne2 : nmb ≠ nm := by
          intro he
          apply h2.1
          rw [← he]
          exact List.mem_filterMap.mpr ⟨b, hb, hnmb⟩
        simp [mapGet?, Ne.symm hne2]

theorem getF_blk_none (bk : String) (b : List (String × Json)) (k : String)
    (hb : b = [] ∨ ∃ v, b = [(bk, v)]) (hk : bk ≠ k) : getF b k = none := by
  rcases hb with hb | ⟨v, hb⟩ <;> subst hb <;> simp [getF, mapGet?, hk]

/-- Field reads of the contact sub-object. -/
theorem contactReads (c : ContactObject)
    (hn : wfOptStr c.name = true) (he : wfOptStr c.email = true)
    (hu : wfOptStr c.url = true) :
    strF (optStrField "name" c.name ++ (optStrField "email" c.email ++
        optStrField "url" c.url)) "name" = c.name ∧
    strF (optStrField "name" c.name ++ (optStrField "email" c.email ++
        optStrField "url" c.url)) "email" = c.email ∧
    strF (optStrField "name" c.name ++ (optStrField "email" c.email ++
        optStrField "url" c.url)) "url" = c.url := by
  refine ⟨?_, ?_, ?_⟩
  · refine strF_map_str _ _ _ ?_
    rw [getF_app_optStr_self _ _ _ hn ?_]
    rw [getF_app_optStr _ _ _ _ (by decide)]
    exact getF_optStrField_ne _ _ _ (by decide)
  · refine strF_map_str _ _ _ ?_
    rw [getF_app_optStr _ _ _ _ (by decide)]
    rw [getF_app_optStr_self _ _ _ he ?_]
    exact getF_optStrField_ne _ _ _ (by decide)
  · refine strF_map_str _ _ _ ?_
    rw [getF_app_optStr _ _ _ _ (by decide)]
    rw [getF_app_optStr _ _ _ _ (by decide)]
    exact getF_optStrField_self _ _ hu

/-- Field reads `parseInfo` performs on the emitted `info` object. -/
theorem infoFieldReads (T V : String) (D TOS : Option String)
    (bc bl : List (String × Json))
    (hD : wfOptStr D = true) (hTOS : wfOptStr TOS = true)
    (hbc : bc = [] ∨ ∃ v, bc = [("contact", v)])
    (hbl : bl = [] ∨ ∃ v, bl = [("license", v)]) :
    ∀ L, L = ("title", Json.str T) :: ("version", Json.str V) ::
      (optStrField "description" D ++ (optStrField "termsOfService" TOS ++ (bc ++ bl))) →
    (Json.obj L).truthyField? "title" =
      (if T = "" then none else some (Json.str T)) ∧
    (Json.obj L).truthyField? "version" =
      (if V = "" then none else some (Json.str V)) ∧
    (Json.obj L).truthyStrField? "description" = D ∧
    (Json.obj L).truthyStrField? "termsOfService" = TOS ∧
    (Json.obj L).truthyField? "contact" = truthyF bc "contact" ∧
    (Json.obj L).getField? "license" = getF bl "license" := by
  intro L hL
  subst hL
  refine ⟨?_, ?_, ?_, ?_, ?_, ?_⟩
  · rw [truthyField_obj]
    unfold truthyF
    rw [getF_cons_self]
    by_cases hT : T = "" <;> simp [jsTruthy, hT]
  · rw [truthyField_obj]
    unfold truthyF
    rw [getF_cons_ne _ _ _ _ (by decide), getF_cons_self]
    by_cases hV : V = "" <;> simp [jsTruthy, hV]
  · rw [truthyStrField_obj]
    refine truthyStrF_map_str _ _ _ ?_ hD
    rw [getF_cons_ne _ _ _ _ (by decide), getF_cons_ne _ _ _ _ (by decide)]
    rw [getF_app_optStr_self _ _ _ hD ?_]
    rw [getF_app_optStr _ _ _ _ (by decide)]
    rw [getF_append]
    rw [getF_blk_none "contact" _ _ hbc (by decide)]
    rw [getF_blk_none "license" _ _ hbl (by decide)]
    rfl
  · rw [truthyStrField_obj]
    refine truthyStrF_map_str _ _ _ ?_ hTOS
    rw [getF_cons_ne _ _ _ _ (by decide), getF_cons_ne _ _ _ _ (by decide)]
    rw [getF_app_optStr _ _ _ _ (by decide)]
    rw [getF_app_optStr_self _ _ _ hTOS ?_]
    rw [getF_append]
    rw [getF_blk_none "contact" _ _ hbc (by decide)]
    rw [getF_blk_none "license" _ _ hbl (by decide)]
    rfl
  · rw [truthyField_obj]
    have hg : getF (("title", Json.str T) :: ("version", Json.str V) ::
        (optStrField "description" D ++ (optStrField "termsOfService" TOS ++ (bc ++ bl))))
        "contact" = getF bc "contact" := by
      rw [getF_cons_ne _ _ _ _ (by decide), getF_cons_ne _ _ _ _ (by decide)]
      rw [getF_app_optStr _ _ _ _ (by decide)]
      rw [getF_app_optStr _ _ _ _ (by decide)]
      rw [getF_append]
      rw [getF_blk_none "license" _ _ hbl (by decide)]
      exact elim_none_some _
    unfold truthyF
    rw [hg]
  · rw [getField_obj]
    rw [getF_cons_ne _ _ _ _ (by decide), getF_cons_ne _ _ _ _ (by decide)]
    rw [getF_app_optStr _ _ _ _ (by decide)]
    rw [getF_app_optStr _ _ _ _ (by decide)]
    rw [getF_append]
    rw [getF_blk_none "contact" _ _ hbc (by decide)]
    rfl

/-- A wf contact object satisfies the exporter's truthy-field emission test. -/
theorem contactEmitCond (c : ContactObject)
    (hn : wfOptStr c.name = true) (he : wfOptStr c.email = true)
    (hu : wfOptStr c.url = true)
    (hd : (c.name.isSome = true ∨ c.email.isSome = true) ∨ c.url.isSome = true) :
    (c.name.getD "") ≠ "" ∨ (c.email.getD "") ≠ "" ∨ (c.url.getD "") ≠ "" := by
  obtain ⟨nm, url, em⟩ := c
  rcases nm with _ | n <;> rcases em with _ | e <;> rcases url with _ | u <;>
    simp_all [wfOptStr]

/-- The `info` member `serializeDocument` emits. -/
def infoJsonOf (i : InfoObject) : Json :=
  .obj (
    [("title", Json.str i.title), ("version", Json.str i.version)] ++
    optStrField "description" i.description ++
    optStrField "termsOfService" i.termsOfService ++
    (match i.contact with
     | some c =>
         if (c.name.getD "") ≠ "" ∨ (c.email.getD "") ≠ "" ∨ (c.url.getD "") ≠ "" then
           [("contact", Json.obj (
              optStrField "name" c.name ++
              optStrField "email" c.email ++
              optStrField "url" c.url))]
         else []
     | none => []) ++
    (match i.license with
     | some l =>
         if l.name ≠ "" then
           [("license", Json.obj ([("name", Json.str l.name)] ++ optStrField "url" l.url))]
         else []
     | none => []))

/-- Round trip of the info object through `parseInfo`. -/
theorem roundInfo (i : InfoObject) (hwf : wfInfo i = true) (st : PState) :
    (parseInfo (infoJsonOf i) st).1 = i := by
  obtain ⟨T, V, D, TOS, co, li⟩ := i
  rw [infoJsonOf]
  rcases co with _ | c <;> rcases li with _ | l
  · simp [wfInfo] at hwf
    obtain ⟨⟨⟨hT, hV⟩, hD⟩, hTOS⟩ := hwf
    obtain ⟨r1, r2, r3, r4, r5, r6⟩ := infoFieldReads T V D TOS [] [] hD hTOS
      (Or.inl rfl) (Or.inl rfl)
      (("title", Json.str T) :: ("version", Json.str V) ::
        (optStrField "description" D ++ optStrField "termsOfService" TOS))
      (by simp)
    simp only [List.append_assoc, List.append_nil, List.nil_append, List.cons_append]
    simp only [parseInfo]
    rw [r1, r2, r3, r4, r5, r6]
    simp [if_neg hT, if_neg hV, truthyF, getF, mapGet?, Json.asStr?]
  · simp [wfInfo] at hwf
    obtain ⟨⟨⟨⟨hT, hV⟩, hD⟩, hTOS⟩, hln, hlu⟩ := hwf
    obtain ⟨r1, r2, r3, r4, r5, r6⟩ := infoFieldReads T V D TOS []
      [("license", Json.obj (("name", Json.str l.name) :: optStrField "url" l.url))]
      hD hTOS (Or.inl rfl) (Or.inr ⟨_, rfl⟩)
      (("title", Json.str T) :: ("version", Json.str V) ::
        (optStrField "description" D ++ (optStrField "termsOfService" TOS ++
          [("license", Json.obj (("name", Json.str l.name) :: optStrField "url" l.url))])))
      (by simp)
    have hname : (Json.obj (("name", Json.str l.name) ::
        optStrField "url" l.url)).truthyStrField? "name" = some l.name := by
      rw [truthyStrField_obj]
      refine truthyStrF_map_str _ _ (some l.name) ?_ ?_
      · rw [getF_cons_self]; rfl
      · simp [wfOptStr, hln]
    have hurl : (Json.obj (("name", Json.str l.name) ::
        optStrField "url" l.url)).strField? "url" = l.url := by
      rw [strField_obj]
      refine strF_map_str _ _ _ ?_
      rw [getF_cons_ne _ _ _ _ (by decide)]
      exact getF_optStrField_self _ _ hlu
    simp only [if_pos hln, List.append_assoc, List.append_nil, List.nil_append,
      List.cons_append, List.singleton_append]
    simp only [parseInfo]
    rw [r1, r2, r3, r4, r5, r6]
    simp [if_neg hT, if_neg hV, truthyF, getF, mapGet?, Json.asStr?, hname, hurl]
  · simp [wfInfo] at hwf
    obtain ⟨⟨⟨⟨hT, hV⟩, hD⟩, hTOS⟩, ⟨⟨hcn, hcu⟩, hce⟩, hd⟩ := hwf
    have hcond := contactEmitCond c hcn hce hcu hd
    obtain ⟨r1, r2, r3, r4, r5, r6⟩ := infoFieldReads T V D TOS
      [("contact", Json.obj (optStrField "name" c.name ++
        (optStrField "email" c.email ++ optStrField "url" c.url)))] []
      hD hTOS (Or.inr ⟨_, rfl⟩) (Or.inl rfl)
      (("title", Json.str T) :: ("version", Json.str V) ::
        (optStrField "description" D ++ (optStrField "termsOfService" TOS ++
          [("contact", Json.obj (optStrField "name" c.name ++
            (optStrField "email" c.email ++ optStrField "url" c.url)))])))
      (by simp)
    obtain ⟨cn, ce, cu⟩ := contactReads c hcn hce hcu
    have h5' : truthyF [("contact", Json.obj (optStrField "name" c.name ++
        (optStrField "email" c.email ++ optStrField "url" c.url)))] "contact" =
        some (Json.obj (optStrField "name" c.name ++
          (optStrField "email" c.email ++ optStrField "url" c.url))) := rfl
    simp only [if_pos hcond, List.append_assoc, List.append_nil, List.nil_append,
      List.cons_append, List.singleton_append]
    simp only [parseInfo]
    rw [r1, r2, r3, r4, r5, r6, h5']
    simp [if_neg hT, if_neg hV, getF, mapGet?, Json.asStr?, strField_obj, cn, ce, cu]
  · simp [wfInfo] at hwf
    obtain ⟨⟨⟨⟨⟨hT, hV⟩, hD⟩, hTOS⟩, ⟨⟨hcn, hcu⟩, hce⟩, hd⟩, hln, hlu⟩ := hwf
    have hcond := contactEmitCond c hcn hce hcu hd
    obtain ⟨r1, r2, r3, r4, r5, r6⟩ := infoFieldReads T V D TOS
      [("contact", Json.obj (optStrField "name" c.name ++
        (optStrField "email" c.email ++ optStrField "url" c.url)))]
      [("license", Json.obj (("name", Json.str l.name) :: optStrField "url" l.url))]
      hD hTOS (Or.inr ⟨_, rfl⟩) (Or.inr ⟨_, rfl⟩)
      (("title", Json.str T) :: ("version", Json.str V) ::
        (optStrField "description" D ++ (optStrField "termsOfService" TOS ++
          (("contact", Json.obj (optStrField "name" c.name ++
            (optStrField "email" c.email ++ optStrField "url" c.url))) ::
           [("license", Json.obj (("name", Json.str l.name) :: optStrField "url" l.url))]))))
      (by simp)
    obtain ⟨cn, ce, cu⟩ := contactReads c hcn hce hcu
    have hname : (Json.obj (("name", Json.str l.name) ::
        optStrField "url" l.url)).truthyStrField? "name" = some l.name := by
      rw [truthyStrField_obj]
      refine truthyStrF_map_str _ _ (some l.name) ?_ ?_
      · rw [getF_cons_self]; rfl
      · simp [wfOptStr, hln]
    have hurl : (Json.obj (("name", Json.str l.name) ::
        optStrField "url" l.url)).strField? "url" = l.url := by
      rw [strField_obj]
      refine strF_map_str _ _ _ ?_
      rw [getF_cons_ne _ _ _ _ (by decide)]
      exact getF_optStrField_self _ _ hlu
    have h5' : truthyF [("contact", Json.obj (optStrField "name" c.name ++
        (optStrField "email" c.email ++ optStrField "url" c.url)))] "contact" =
        some (Json.obj (optStrField "name" c.name ++
          (optStrField "email" c.email ++ optStrField "url" c.url))) := rfl
    have h6' : getF [("license", Json.obj (("name", Json.str l.name) ::
        optStrField "url" l.url))] "license" =
        some (Json.obj (("name", Json.str l.name) :: optStrField "url" l.url)) := rfl
    simp only [if_pos hcond, if_pos hln, List.append_assoc, List.append_nil,
      List.nil_append, List.cons_append, List.singleton_append]
    simp only [parseInfo]
    rw [r1, r2, r3, r4, r5, r6, h5', h6']
    simp [if_neg hT, if_neg hV, Json.asStr?,
      strField_obj, cn, ce, cu, hname, hurl]

/-- Round trip of the servers array. -/
theorem roundServerList (l : List Server) (hwf : ∀ s ∈ l, wfServer s = true) :
    parseServerList (l.map (fun s =>
      Json.obj ([("url", Json.str s.url)] ++ optStrField "description" s.description))) = l := by
  induction l with
  | nil => rfl
  | cons s tl ih =>
      obtain ⟨su, sd, sv⟩ := s
      have hs := hwf _ (List.mem_cons_self _ _)
      simp [wfServer] at hs
      obtain ⟨⟨hu, hd⟩, hv⟩ := hs
      subst hv
      have hu' : (Json.obj (("url", Json.str su) ::
          optStrField "description" sd)).truthyField? "url" = some (Json.str su) := by
        rw [truthyField_obj]
        unfold truthyF
        rw [getF_cons_self]
        simp [jsTruthy, hu]
      have hd' : (Json.obj (("url", Json.str su) ::
          optStrField "description" sd)).strField? "description" = sd := by
        rw [strField_obj]
        refine strF_map_str _ _ _ ?_
        rw [getF_cons_ne _ _ _ _ (by decide)]
        exact getF_optStrField_self _ _ hd
      simp only [List.map_cons, List.singleton_append]
      rw [parseServerList]
      rw [if_pos ⟨rfl, by rw [hu']; rfl⟩]
      have ih' := ih (fun x hx => hwf x (List.mem_cons_of_mem _ hx))
      simp only [List.singleton_append] at ih'
      rw [ih']
      simp [hu', hd', Json.asStr?]

/-- Round trip of the tags array. -/
theorem roundTagList (l : List Tag) (hwf : ∀ t ∈ l, wfTag t = true) :
    parseTagList (l.map (fun t =>
      Json.obj ([("name", Json.str t.name)] ++ optStrField "description" t.description))) = l := by
  induction l with
  | nil => rfl
  | cons t tl ih =>
      obtain ⟨tn, td⟩ := t
      have ht := hwf _ (List.mem_cons_self _ _)
      simp [wfTag] at ht
      obtain ⟨hn, hd⟩ := ht
      have hn' : (Json.obj (("name", Json.str tn) ::
          optStrField "description" td)).truthyField? "name" = some (Json.str tn) := by
        rw [truthyField_obj]
        unfold truthyF
        rw [getF_cons_self]
        simp [jsTruthy, hn]
      have hd' : (Json.obj (("name", Json.str tn) ::
          optStrField "description" td)).strField? "description" = td := by
        rw [strField_obj]
        refine strF_map_str _ _ _ ?_
        rw [getF_cons_ne _ _ _ _ (by decide)]
        exact getF_optStrField_self _ _ hd
      simp only [List.map_cons, List.singleton_append]
      rw [parseTagList]
      rw [if_pos ⟨rfl, by rw [hn']; rfl⟩]
      have ih' := ih (fun x hx => hwf x (List.mem_cons_of_mem _ hx))
      simp only [List.singleton_append] at ih'
      rw [ih']
      simp [hn', hd', Json.asStr?]

-- ---------------------------------------------------------------------
-- Round-trip proof, phase 5: the schema registry and the schemas walk
-- ---------------------------------------------------------------------

/-- The registry pass 1 builds: consecutive ids from the start counter. -/
def regFrom : List String → Nat → Registry
  | [], _ => []
  | n :: tl, c => (n, c) :: regFrom tl (c + 1)

theorem registerSchemaNames_eq : ∀ (entries : List (String × Json)) (reg : Registry)
    (st : PState),
    (∀ k ∈ entries.map Prod.fst, mapGet? reg k = none) →
    (entries.map Prod.fst).Nodup →
    registerSchemaNames entries reg st =
      (reg ++ regFrom (entries.map Prod.fst) st.ctr,
       { st with ctr := st.ctr + entries.length }) := by
  intro entries
  induction entries with
  | nil =>
      intro reg st h1 h2
      simp [registerSchemaNames, regFrom]
  | cons e tl ih =>
      intro reg st h1 h2
      obtain ⟨nm, v⟩ := e
      simp only [registerSchemaNames, genId]
      rw [mapSet_append_of_get_none _ _ _ (h1 nm (by simp))]
      simp only [List.map_cons, List.nodup_cons] at h2
      rw [ih (reg ++ [(nm, st.ctr)]) { st with ctr := st.ctr + 1 } ?_ h2.2]
      · simp [regFrom]
        omega
      · intro k hk
        rw [mapGet_append, h1 k (by simp [hk])]
        have hne : nm ≠ k := fun he => h2.1 (he ▸ hk)
        simp [mapGet?, hne]

theorem mapGet_regFrom_self : ∀ (names : List String) (c : Nat) (nm : String),
    nm ∈ names →
    mapGet? (regFrom names c) nm = some (c + idxOfStr nm names) := by
  intro names
  induction names with
  | nil =>
      intro c nm h
      cases h
  | cons x tl ih =>
      intro c nm h
      by_cases hx : x = nm
      · subst hx
        simp [regFrom, mapGet?, idxOfStr]
      · have hm : nm ∈ tl := by
          rcases List.mem_cons.mp h with h | h
          · exact absurd h.symm hx
          · exact h
        simp only [regFrom, mapGet?, if_neg hx]
        rw [ih (c + 1) nm hm]
        simp [idxOfStr, hx]
        omega

theorem regFrom_rank_nodup : ∀ (names : List String) (c : Nat), names.Nodup →
    (names.map (fun nm => c + idxOfStr nm names)).Nodup := by
  intro names
  induction names with
  | nil =>
      intro c h
      simp
  | cons x tl ih =>
      intro c h
      obtain ⟨hx, htl⟩ := List.nodup_cons.mp h
      have hmap : tl.map (fun nm => c + idxOfStr nm (x :: tl)) =
          tl.map (fun nm => (c + 1) + idxOfStr nm tl) := by
        refine List.map_congr_left ?_
        intro a ha
        have hax : ¬x = a := fun he => hx (he ▸ ha)
        simp [idxOfStr, hax]
        omega
      rw [List.map_cons, List.nodup_cons, hmap]
      refine ⟨?_, ih (c + 1) htl⟩
      intro hmem
      obtain ⟨a, ha, hae⟩ := List.mem_map.mp hmem
      simp [idxOfStr] at hae
      omega

/-- Pass 2 of the importer appends one node per serialized entry, keyed by
the registered id, named by the entry key, and canonically equal to the
source schema. -/
theorem roundSchemaEntries (doc : ApiDocument) (reg : Registry)
    (schemas : List (NodeId × SchemaNode)) (R RP : NodeId → Nat)
    (href : ∀ tid, wfRefTarget schemas tid = true →
      ∃ nm rid, refResolve doc (serializeChase doc) tid =
          Json.obj [("$ref", Json.str ("#/components/schemas/" ++ nm))] ∧
        nm ≠ "" ∧ mapGet? reg nm = some rid ∧ RP rid = R tid) :
    ∀ (l : List (NodeId × SchemaNode)) (st : PState) (acc : List (NodeId × SchemaNode)),
    (∀ e ∈ l, (∃ nm, e.2.name = some nm ∧ nm ≠ "") ∧ wfSchemaBody schemas e.2 = true) →
    (∀ e ∈ l, mapGet? acc ((mapGet? reg (e.2.name.getD "")).getD 0) = none) →
    (l.map (fun e => (mapGet? reg (e.2.name.getD "")).getD 0)).Nodup →
    ∃ rest,
      (parseSchemaEntries (l.map (fun e => (e.2.name.getD "", serializeSchema e.2 doc)))
          reg st acc).1 = acc ++ rest ∧
      rest.map Prod.fst = l.map (fun e => (mapGet? reg (e.2.name.getD "")).getD 0) ∧
      rest.map (fun e => e.2.name) = l.map (fun e => e.2.name) ∧
      rest.map (fun e => canonSchema RP e.2) = l.map (fun e => canonSchema R e.2) := by
  intro l
  induction l with
  | nil =>
      intro st acc h1 h2 h3
      exact ⟨[], by simp [parseSchemaEntries], rfl, rfl, rfl⟩
  | cons e tl ih =>
      intro st acc h1 h2 h3
      obtain ⟨⟨nm0, hnm0, hne0⟩, hwfb⟩ := h1 e (List.mem_cons_self _ _)
      simp only [List.map_cons, List.nodup_cons] at h3
      obtain ⟨hid0, h3tl⟩ := h3
      simp only [List.map_cons]
      simp only [parseSchemaEntries]
      rw [mapSet_append_of_get_none _ _ _ (h2 e (List.mem_cons_self _ _))]
      have hfresh : ∀ b ∈ tl, mapGet? (acc ++ [((mapGet? reg (e.2.name.getD "")).getD 0,
          (parseSchema (serializeSchema e.2 doc) (some (e.2.name.getD ""))
            ((mapGet? reg (e.2.name.getD "")).getD 0) reg st).1)])
          ((mapGet? reg (b.2.name.getD "")).getD 0) = none := by
        intro b hb
        rw [mapGet_append, h2 b (List.mem_cons_of_mem _ hb)]
        have hne : (mapGet? reg (e.2.name.getD "")).getD 0 ≠
            (mapGet? reg (b.2.name.getD "")).getD 0 := by
          intro he
          exact hid0 (he ▸ List.mem_map.mpr ⟨b, hb, rfl⟩)
        simp [mapGet?, hne]
      obtain ⟨rest, hr1, hr2, hr3, hr4⟩ := ih
        (parseSchema (serializeSchema e.2 doc) (some (e.2.name.getD ""))
          ((mapGet? reg (e.2.name.getD "")).getD 0) reg st).2
        (acc ++ [((mapGet? reg (e.2.name.getD "")).getD 0,
          (parseSchema (serializeSchema e.2 doc) (some (e.2.name.getD ""))
            ((mapGet? reg (e.2.name.getD "")).getD 0) reg st).1)])
        (fun b hb => h1 b (List.mem_cons_of_mem _ hb)) hfresh h3tl
      refine ⟨((mapGet? reg (e.2.name.getD "")).getD 0,
        (parseSchema (serializeSchema e.2 doc) (some (e.2.name.getD ""))
          ((mapGet? reg (e.2.name.getD "")).getD 0) reg st).1) :: rest, ?_, ?_, ?_, ?_⟩
      · rw [hr1]
        simp
      · simp [hr2]
      · simp only [List.map_cons, hr3, List.cons.injEq]
        refine ⟨?_, trivial⟩
        rw [parseSchema_name, hnm0]
        rfl
      · simp only [List.map_cons, hr4, List.cons.injEq]
        refine ⟨?_, trivial⟩
        have hround := (roundAux (refResolve doc (serializeChase doc)) reg schemas R RP
          href (sizeSchema e.2)).2.1 e.2 le_rfl hwfb
          (some (e.2.name.getD "")) ((mapGet? reg (e.2.name.getD "")).getD 0) st
        rw [setSchemaName_self _ _ (by rw [canonSchema_name, hnm0]; simp)] at hround
        simpa [serializeSchema] using hround

/-- Ranked lookup: in a list whose keys are `c + rank` over nodup names,
looking up a name's rank finds its node. -/
theorem lookup_by_rank : ∀ (rest : List (NodeId × SchemaNode)) (names : List String)
    (c : Nat), names.Nodup →
    rest.map Prod.fst = names.map (fun nm => c + idxOfStr nm names) →
    rest.map (fun e => e.2.name) = names.map some →
    ∀ nm ∈ names, ∃ p, mapGet? rest (c + idxOfStr nm names) = some p ∧
      p.name = some nm := by
  intro rest
  induction rest with
  | nil =>
      intro names c hnd h1 h2 nm hm
      cases names with
      | nil => cases hm
      | cons x tl => simp at h1
  | cons q rt ih =>
      intro names c hnd h1 h2 nm hm
      cases names with
      | nil => cases hm
      | cons x tl =>
          obtain ⟨hx, htl⟩ := List.nodup_cons.mp hnd
          obtain ⟨qk, qv⟩ := q
          simp only [List.map_cons, List.cons.injEq] at h1 h2
          obtain ⟨hq1, hrt1⟩ := h1
          obtain ⟨hq2, hrt2⟩ := h2
          have hq1' : qk = c := by
            simp [idxOfStr] at hq1
            exact hq1
          have hmap : tl.map (fun nm => c + idxOfStr nm (x :: tl)) =
              tl.map (fun nm => (c + 1) + idxOfStr nm tl) := by
            refine List.map_congr_left ?_
            intro a ha
            have hax : ¬x = a := fun he => hx (he ▸ ha)
            simp [idxOfStr, hax]
            omega
          rcases List.mem_cons.mp hm with hEq | hmTl
          · subst hEq
            have hidx : c + idxOfStr nm (nm :: tl) = c := by simp [idxOfStr]
            rw [hidx]
            refine ⟨qv, ?_, hq2⟩
            simp [mapGet?, hq1']
          · have hxnm : ¬x = nm := fun he => hx (he ▸ hmTl)
            have hidx : idxOfStr nm (x :: tl) = idxOfStr nm tl + 1 := by
              simp [idxOfStr, hxnm]
            rw [hidx]
            obtain ⟨p, hp1, hp2⟩ := ih tl (c + 1) htl (hrt1.trans hmap) hrt2 nm hmTl
            refine ⟨p, ?_, hp2⟩
            have hqke : ¬(qk = c + (idxOfStr nm tl + 1)) := by
              rw [hq1']
              exact Nat.ne_of_lt (Nat.lt_add_of_pos_right (Nat.succ_pos _))
            simp only [mapGet?]
            rw [if_neg hqke]
            have harr : c + (idxOfStr nm tl + 1) = (c + 1) + idxOfStr nm tl := by omega
            rw [harr]
            exact hp1

theorem filterMap_name_of_map_some : ∀ (rest : List (NodeId × SchemaNode))
    (names : List String),
    rest.map (fun e => e.2.name) = names.map some →
    rest.filterMap (fun e => e.2.name) = names := by
  intro rest
  induction rest with
  | nil =>
      intro names h
      cases names with
      | nil => rfl
      | cons _ _ => simp at h
  | cons q rt ih =>
      intro names h
      cases names with
      | nil => simp at h
      | cons x tl =>
          simp only [List.map_cons, List.cons.injEq] at h
          simp [List.filterMap_cons, h.1, ih tl h.2]

theorem filterMap_name_eq_map_getD : ∀ (l : List (NodeId × SchemaNode)),
    (∀ e ∈ l, ∃ nm, e.2.name = some nm) →
    l.filterMap (fun e => e.2.name) = l.map (fun e => e.2.name.getD "") := by
  intro l
  induction l with
  | nil =>
      intro h
      rfl
  | cons e tl ih =>
      intro h
      obtain ⟨nm, hnm⟩ := h e (List.mem_cons_self _ _)
      simp [List.filterMap_cons, hnm, ih (fun b hb => h b (List.mem_cons_of_mem _ hb))]

-- ---------------------------------------------------------------------
-- Round-trip proof, phase 6: path sorting and grouping
-- ---------------------------------------------------------------------

theorem charsLt_asymm : ∀ a b : List Char, charsLt a b = true → charsLt b a = false := by
  intro a
  induction a with
  | nil =>
      intro b h
      cases b with
      | nil => simpa [charsLt] using h
      | cons c cs => simp [charsLt]
  | cons c cs ih =>
      intro b h
      cases b with
      | nil => simp [charsLt] at h
      | cons d ds =>
          simp only [charsLt] at h ⊢
          by_cases hcd : c = d
          · subst hcd
            simp only [if_pos rfl] at h ⊢
            exact ih ds h
          · rw [if_neg hcd] at h
            rw [if_neg (Ne.symm hcd)]
            simp at h ⊢
            omega

theorem charsLt_total : ∀ a b : List Char, a ≠ b →
    charsLt a b = true ∨ charsLt b a = true := by
  intro a
  induction a with
  | nil =>
      intro b h
      cases b with
      | nil => exact absurd rfl h
      | cons d ds => left; rfl
  | cons c cs ih =>
      intro b h
      cases b with
      | nil => right; rfl
      | cons d ds =>
          by_cases hcd : c = d
          · subst hcd
            have hne : cs ≠ ds := by
              intro he
              exact h (by rw [he])
            rcases ih ds hne with h1 | h1
            · left
              simpa [charsLt] using h1
            · right
              simpa [charsLt] using h1
          · have hton : c.toNat ≠ d.toNat := by
              intro he
              exact hcd (Char.eq_of_val_eq (UInt32.ext he))
            rcases Nat.lt_or_ge c.toNat d.toNat with h1 | h1
            · left
              simp [charsLt, hcd]
              omega
            · right
              simp [charsLt, Ne.symm hcd]
              omega

theorem str_data_inj (a b : String) (h : a.data = b.data) : a = b := by
  cases a
  cases b
  simp only at h
  rw [h]

theorem strLt_asymm (a b : String) (h : strLt a b = true) : strLt b a = false :=
  charsLt_asymm a.data b.data h

theorem strLt_total (a b : String) (h : a ≠ b) :
    strLt a b = true ∨ strLt b a = true :=
  charsLt_total a.data b.data (fun he => h (str_data_inj a b he))

theorem insertStr_mem : ∀ (l : List String) (x a : String),
    a ∈ insertStr x l ↔ a = x ∨ a ∈ l := by
  intro l x a
  induction l with
  | nil => simp [insertStr]
  | cons y tl ih =>
      simp only [insertStr]
      by_cases hyx : strLt y x = true
      · rw [if_pos hyx]
        simp only [List.mem_cons, ih]
        tauto
      · rw [if_neg hyx]
        simp only [List.mem_cons]

theorem insertStr_nodup : ∀ (l : List String) (x : String), l.Nodup → x ∉ l →
    (insertStr x l).Nodup := by
  intro l x
  induction l with
  | nil =>
      intro h1 h2
      simp [insertStr]
  | cons y tl ih =>
      intro hnd hx
      obtain ⟨hy, htl⟩ := List.nodup_cons.mp hnd
      simp only [insertStr]
      by_cases hyx : strLt y x = true
      · rw [if_pos hyx]
        refine List.nodup_cons.mpr ⟨?_, ih htl (fun hm => hx (List.mem_cons_of_mem _ hm))⟩
        intro hm
        rcases (insertStr_mem tl x y).mp hm with he | hm2
        · exact hx (he ▸ List.mem_cons_self _ _)
        · exact hy hm2
      · rw [if_neg hyx]
        exact List.nodup_cons.mpr ⟨hx, hnd⟩

theorem insertStr_chain : ∀ (l : List String) (x : String),
    l.Chain' (fun a b => strLt a b = true) → x ∉ l →
    (insertStr x l).Chain' (fun a b => strLt a b = true) := by
  intro l x
  induction l with
  | nil =>
      intro h1 h2
      simp [insertStr]
  | cons y tl ih =>
      intro hch hx
      by_cases hyx : strLt y x = true
      · rw [insertStr, if_pos hyx]
        rw [List.chain'_cons']
        refine ⟨?_, ih (List.chain'_cons'.mp hch).2
          (fun hm => hx (List.mem_cons_of_mem _ hm))⟩
        intro b hb
        cases tl with
        | nil =>
            simp [insertStr] at hb
            rw [← hb]
            exact hyx
        | cons z tl' =>
            rw [insertStr] at hb
            by_cases hzx : strLt z x = true
            · rw [if_pos hzx] at hb
              simp at hb
              rw [← hb]
              exact (List.chain'_cons.mp hch).1
            · rw [if_neg hzx] at hb
              simp at hb
              rw [← hb]
              exact hyx
      · rw [insertStr, if_neg hyx]
        rw [List.chain'_cons]
        refine ⟨?_, hch⟩
        have hxy : x ≠ y := fun he => hx (he ▸ List.mem_cons_self _ _)
        rcases strLt_total x y hxy with h1 | h1
        · exact h1
        · exact absurd h1 hyx

theorem sortStrings_mem : ∀ (l : List String) (a : String),
    a ∈ sortStrings l ↔ a ∈ l := by
  intro l a
  induction l with
  | nil => simp [sortStrings]
  | cons x tl ih =>
      simp [sortStrings, insertStr_mem, ih]

theorem sortStrings_nodup_chain : ∀ l : List String, l.Nodup →
    (sortStrings l).Nodup ∧ (sortStrings l).Chain' (fun a b => strLt a b = true) := by
  intro l
  induction l with
  | nil =>
      intro h
      simp [sortStrings]
  | cons x tl ih =>
      intro h
      obtain ⟨hx, htl⟩ := List.nodup_cons.mp h
      obtain ⟨h1, h2⟩ := ih htl
      have hxs : x ∉ sortStrings tl := fun hm => hx ((sortStrings_mem tl x).mp hm)
      exact ⟨insertStr_nodup _ _ h1 hxs, insertStr_chain _ _ h2 hxs⟩

theorem sortStrings_sorted_id : ∀ l : List String,
    l.Chain' (fun a b => strLt a b = true) → sortStrings l = l := by
  intro l
  induction l with
  | nil =>
      intro h
      rfl
  | cons x tl ih =>
      intro h
      rw [sortStrings, ih h.tail]
      cases tl with
      | nil => rfl
      | cons y tl' =>
          have hxy : strLt x y = true := (List.chain'_cons.mp h).1
          have hyx : ¬(strLt y x = true) := by
            rw [strLt_asymm x y hxy]
            simp
          rw [insertStr, if_neg hyx]

theorem mapGet_none_iff_not_mem {K V : Type} [DecidableEq K] :
    ∀ (m : List (K × V)) (k : K), mapGet? m k = none ↔ k ∉ m.map Prod.fst := by
  intro m k
  induction m with
  | nil => simp [mapGet?]
  | cons e tl ih =>
      obtain ⟨k', v⟩ := e
      by_cases hk : k' = k
      · subst hk
        simp [mapGet?, ih]
      · simp [mapGet?, hk, ih, Ne.symm hk]

theorem mapGet_some_mem {K V : Type} [DecidableEq K] :
    ∀ (m : List (K × V)) (k : K) (v : V), mapGet? m k = some v → (k, v) ∈ m := by
  intro m k v
  induction m with
  | nil => intro h; cases h
  | cons e tl ih =>
      obtain ⟨k', v'⟩ := e
      intro h
      simp only [mapGet?] at h
      by_cases hk : k' = k
      · subst hk
        rw [if_pos rfl] at h
        cases h
        exact List.mem_cons_self _ _
      · rw [if_neg hk] at h
        exact List.mem_cons_of_mem _ (ih h)

theorem mapSet_mem_elim {K V : Type} [DecidableEq K] :
    ∀ (m : List (K × V)) (k : K) (v : V) (e : K × V),
    e ∈ mapSet m k v → e = (k, v) ∨ e ∈ m := by
  intro m k v e
  induction m with
  | nil =>
      intro h
      simp [mapSet] at h
      exact Or.inl h
  | cons q tl ih =>
      obtain ⟨k', v'⟩ := q
      intro h
      simp only [mapSet] at h
      by_cases hk : k' = k
      · rw [if_pos hk] at h
        rcases List.mem_cons.mp h with h1 | h1
        · exact Or.inl h1
        · exact Or.inr (List.mem_cons_of_mem _ h1)
      · rw [if_neg hk] at h
        rcases List.mem_cons.mp h with h1 | h1
        · exact Or.inr (h1 ▸ List.mem_cons_self _ _)
        · rcases ih h1 with h2 | h2
          · exact Or.inl h2
          · exact Or.inr (List.mem_cons_of_mem _ h2)

theorem mapSet_keys_of_get_some {K V : Type} [DecidableEq K] :
    ∀ (m : List (K × V)) (k : K) (v w : V), mapGet? m k = some w →
    (mapSet m k v).map Prod.fst = m.map Prod.fst := by
  intro m k v w
  induction m with
  | nil => intro h; cases h
  | cons q tl ih =>
      obtain ⟨k', v'⟩ := q
      intro h
      simp only [mapGet?] at h
      simp only [mapSet]
      by_cases hk : k' = k
      · rw [if_pos hk]
        simp [hk]
      · rw [if_neg hk] at h ⊢
        simp [ih h]

theorem mapSet_last {K V : Type} [DecidableEq K] :
    ∀ (m : List (K × V)) (k : K) (v w : V), mapGet? m k = none →
    mapSet (m ++ [(k, v)]) k w = m ++ [(k, w)] := by
  intro m k v w
  induction m with
  | nil =>
      intro h
      simp [mapSet]
  | cons e tl ih =>
      obtain ⟨k', v'⟩ := e
      intro h
      simp only [mapGet?] at h
      by_cases hk : k' = k
      · rw [if_pos hk] at h
        cases h
      · rw [if_neg hk] at h
        simp only [List.cons_append, mapSet, if_neg hk, List.append_eq]
        rw [ih h]

theorem flatMap_congr_left {α β : Type} : ∀ (l : List α) (f g : α → List β),
    (∀ a ∈ l, f a = g a) → l.flatMap f = l.flatMap g := by
  intro l f g
  induction l with
  | nil => intro h; rfl
  | cons x tl ih =>
      intro h
      simp only [List.flatMap_cons]
      rw [h x (List.mem_cons_self _ _), ih (fun a ha => h a (List.mem_cons_of_mem _ ha))]

/-- The invariants `groupRoutesByPath`'s fold maintains: nodup keys,
groups nonempty and path-consistent with nodup methods, and an arbitrary
membership carrier. -/
theorem groupFold_spec (Q : Route → Prop) :
    ∀ (routes : List Route) (acc : List (String × List Route)),
    pairListNodup (routes.map (fun r => (r.path, r.method))) = true →
    (acc.map Prod.fst).Nodup →
    (∀ e ∈ acc, e.2 ≠ [] ∧ (∀ r ∈ e.2, r.path = e.1) ∧
      (e.2.map (fun r => r.method)).Nodup) →
    (∀ e ∈ acc, ∀ r' ∈ routes, r'.path = e.1 →
      r'.method ∉ e.2.map (fun r => r.method)) →
    (∀ e ∈ acc, ∀ r ∈ e.2, Q r) →
    (∀ r ∈ routes, Q r) →
    ∀ G, G = routes.foldl (fun groups route =>
        match mapGet? groups route.path with
        | some existing => mapSet groups route.path (existing ++ [route])
        | none => mapSet groups route.path [route]) acc →
      (G.map Prod.fst).Nodup ∧
      (∀ e ∈ G, e.2 ≠ [] ∧ (∀ r ∈ e.2, r.path = e.1) ∧
        (e.2.map (fun r => r.method)).Nodup) ∧
      (∀ e ∈ G, ∀ r ∈ e.2, Q r) := by
  intro routes
  induction routes with
  | nil =>
      intro acc h1 h2 h3 h4 h5 h6 G hG
      subst hG
      exact ⟨h2, h3, h5⟩
  | cons r tl ih =>
      intro acc h1 h2 h3 h4 h5 h6 G hG
      simp only [List.map_cons, pairListNodup, Bool.and_eq_true,
        Bool.not_eq_true'] at h1
      obtain ⟨hhd, htlp⟩ := h1
      have hhd' : (r.path, r.method) ∉ tl.map (fun r => (r.path, r.method)) := by
        simpa using hhd
      simp only [List.foldl_cons] at hG
      cases hacc : mapGet? acc r.path with
      | none =>
          rw [hacc] at hG
          rw [mapSet_append_of_get_none _ _ _ hacc] at hG
          refine ih (acc ++ [(r.path, [r])]) htlp ?_ ?_ ?_ ?_
            (fun b hb => h6 b (List.mem_cons_of_mem _ hb)) G hG
          · simp only [List.map_append, List.map_cons, List.map_nil]
            rw [List.nodup_append]
            refine ⟨h2, by simp, ?_⟩
            intro a ha hb
            simp at hb
            rw [hb] at ha
            exact (mapGet_none_iff_not_mem acc r.path).mp hacc ha
          · intro e he
            rcases List.mem_append.mp he with he1 | he1
            · exact h3 e he1
            · simp at he1
              rw [he1]
              refine ⟨by simp, by simp, by simp⟩
          · intro e he r' hr' hp
            rcases List.mem_append.mp he with he1 | he1
            · exact h4 e he1 r' (List.mem_cons_of_mem _ hr') hp
            · simp at he1
              rw [he1] at hp ⊢
              simp only [List.map_cons, List.map_nil]
              intro hm
              simp at hm
              apply hhd'
              refine List.mem_map.mpr ⟨r', hr', ?_⟩
              rw [hp, hm]
          · intro e he rr hrr
            rcases List.mem_append.mp he with he1 | he1
            · exact h5 e he1 rr hrr
            · simp at he1
              rw [he1] at hrr
              simp at hrr
              rw [hrr]
              exact h6 r (List.mem_cons_self _ _)
      | some ex =>
          rw [hacc] at hG
          have hmem : (r.path, ex) ∈ acc := mapGet_some_mem _ _ _ hacc
          obtain ⟨hexne, hexp, hexm⟩ := h3 _ hmem
          refine ih (mapSet acc r.path (ex ++ [r])) htlp ?_ ?_ ?_ ?_
            (fun b hb => h6 b (List.mem_cons_of_mem _ hb)) G hG
          · rw [mapSet_keys_of_get_some _ _ _ _ hacc]
            exact h2
          · intro e he
            rcases mapSet_mem_elim _ _ _ _ he with he1 | he1
            · rw [he1]
              refine ⟨by simp, ?_, ?_⟩
              · intro rr hrr
                rcases List.mem_append.mp hrr with h7 | h7
                · exact hexp rr h7
                · simp at h7
                  rw [h7]
              · simp only [List.map_append, List.map_cons, List.map_nil]
                rw [List.nodup_append]
                refine ⟨hexm, by simp, ?_⟩
                intro a ha hb
                simp at hb
                rw [hb] at ha
                exact h4 _ hmem r (List.mem_cons_self _ _) rfl ha
            · exact h3 e he1
          · intro e he r' hr' hp
            rcases mapSet_mem_elim _ _ _ _ he with he1 | he1
            · rw [he1] at hp ⊢
              simp only [List.map_append, List.map_cons, List.map_nil]
              intro hm
              rcases List.mem_append.mp hm with h7 | h7
              · exact h4 _ hmem r' (List.mem_cons_of_mem _ hr') hp h7
              · simp at h7
                apply hhd'
                refine List.mem_map.mpr ⟨r', hr', ?_⟩
                rw [hp, h7]
            · exact h4 e he1 r' (List.mem_cons_of_mem _ hr') hp
          · intro e he rr hrr
            rcases mapSet_mem_elim _ _ _ _ he with he1 | he1
            · rw [he1] at hrr
              rcases List.mem_append.mp hrr with h7 | h7
              · exact h5 _ hmem rr h7
              · simp at h7
                rw [h7]
                exact h6 r (List.mem_cons_self _ _)
            · exact h5 e he1 rr hrr

theorem parseOperation_path (path : String) (method : HttpMethod) (data : Json)
    (reg : Registry) (st : PState) :
    (parseOperation path method data reg st).1.path = path := rfl

theorem parseOperation_method (path : String) (method : HttpMethod) (data : Json)
    (reg : Registry) (st : PState) :
    (parseOperation path method data reg st).1.method = method := rfl

theorem serializeOperation_obj (r : Route) (doc : ApiDocument) :
    ∃ fs, serializeOperation r doc = Json.obj fs :=
  ⟨_, by rw [serializeOperation]⟩

theorem wfRoute_method (schemas : List (NodeId × SchemaNode)) (r : Route)
    (hwf : wfRoute schemas r = true) : isHttpMethod r.method = true := by
  simp only [wfRoute, Bool.and_eq_true] at hwf
  exact hwf.1.1.1.1.1.1.1.1.1.1

/-- Stepping `parsePathItemEntries` over a verb entry whose payload is an
object and whose key is an HTTP verb. -/
theorem parsePathItemEntries_cons_obj (p m : String) (op : Json)
    (tl : List (String × Json)) (reg : Registry) (st : PState)
    (acc : List (NodeId × Route))
    (hm : isHttpMethod m = true) (hobj : ∃ fs, op = Json.obj fs) :
    parsePathItemEntries p ((m, op) :: tl) reg st acc =
      parsePathItemEntries p tl reg (parseOperation p m op reg st).2
        (mapSet acc (parseOperation p m op reg st).1.id
          (parseOperation p m op reg st).1) := by
  obtain ⟨fs, hfs⟩ := hobj
  subst hfs
  simp [parsePathItemEntries, hm, jsTruthy]

/-- The serializer's per-path verb fold writes one field per route. -/
theorem methodFold_eq (doc : ApiDocument) : ∀ (rs : List Route)
    (acc : List (String × Json)),
    (∀ r ∈ rs, mapGet? acc r.method = none) →
    (rs.map (fun r => r.method)).Nodup →
    rs.foldl (fun acc route => mapSet acc route.method (serializeOperation route doc))
        acc =
      acc ++ rs.map (fun r => (r.method, serializeOperation r doc)) := by
  intro rs
  induction rs with
  | nil =>
      intro acc h1 h2
      simp
  | cons r tl ih =>
      intro acc h1 h2
      simp only [List.map_cons, List.nodup_cons] at h2
      simp only [List.foldl_cons, List.map_cons]
      rw [mapSet_append_of_get_none _ _ _ (h1 r (List.mem_cons_self _ _))]
      rw [ih (acc ++ [(r.method, serializeOperation r doc)]) ?_ h2.2]
      · simp
      · intro b hb
        rw [mapGet_append, h1 b (List.mem_cons_of_mem _ hb)]
        have hne : r.method ≠ b.method := by
          intro he
          exact h2.1 (he ▸ List.mem_map.mpr ⟨b, hb, rfl⟩)
        simp [mapGet?, hne]

/-- Round trip of one path item: parsing the serialized verb map appends
one route per source route, canonically equal, path-tagged, with fresh ids. -/
theorem roundPathItem (doc : ApiDocument) (reg : Registry)
    (schemas : List (NodeId × SchemaNode)) (R RP : NodeId → Nat)
    (hE : ∀ e, wfEdge schemas e = true → ∀ st : PState,
      canonEdge RP (parseEdge (serializeSchemaOrRef e doc) reg st).1 = canonEdge R e)
    (hT : ∀ e, wfEdge schemas e = true → jsTruthy (serializeSchemaOrRef e doc) = true)
    (p : String) :
    ∀ (rs : List Route) (st : PState) (acc : List (NodeId × Route)),
    (∀ r ∈ rs, wfRoute schemas r = true) →
    (∀ r ∈ rs, r.path = p) →
    (∀ e ∈ acc, e.1 < st.ctr) →
    ∃ rest,
      (parsePathItemEntries p (rs.map (fun r => (r.method, serializeOperation r doc)))
          reg st acc).1 = acc ++ rest ∧
      rest.map (fun e => canonRoute RP e.2) = rs.map (canonRoute R) ∧
      (∀ e ∈ rest, e.2.path = p) ∧
      st.ctr ≤ (parsePathItemEntries p
          (rs.map (fun r => (r.method, serializeOperation r doc))) reg st acc).2.ctr ∧
      (∀ e ∈ acc ++ rest, e.1 < (parsePathItemEntries p
          (rs.map (fun r => (r.method, serializeOperation r doc))) reg st acc).2.ctr) := by
  intro rs
  induction rs with
  | nil =>
      intro st acc h1 h2 h3
      refine ⟨[], by simp [parsePathItemEntries], rfl, by simp, ?_, ?_⟩
      · simp [parsePathItemEntries]
      · simpa [parsePathItemEntries] using h3
  | cons r tl ih =>
      intro st acc h1 h2 h3
      have hwfr := h1 r (List.mem_cons_self _ _)
      have hrp := h2 r (List.mem_cons_self _ _)
      simp only [List.map_cons]
      rw [parsePathItemEntries_cons_obj p r.method (serializeOperation r doc) _ reg st acc
        (wfRoute_method schemas r hwfr) (serializeOperation_obj r doc)]
      rw [parseOperation_id]
      rw [mapSet_append_of_get_none _ _ _ (mapGet_none_of_lt acc st.ctr h3)]
      have hacc' : ∀ b ∈ acc ++ [(st.ctr,
          (parseOperation p r.method (serializeOperation r doc) reg st).1)],
          b.1 < (parseOperation p r.method (serializeOperation r doc) reg st).2.ctr := by
        intro b hb
        rcases List.mem_append.mp hb with hb1 | hb1
        · exact lt_trans (h3 b hb1) (parseOperation_ctr_mono p r.method _ reg st)
        · simp at hb1
          rw [hb1]
          exact parseOperation_ctr_mono p r.method _ reg st
      obtain ⟨rest, hr1, hr2, hr3, hr4, hr5⟩ := ih
        (parseOperation p r.method (serializeOperation r doc) reg st).2
        (acc ++ [(st.ctr, (parseOperation p r.method (serializeOperation r doc) reg st).1)])
        (fun b hb => h1 b (List.mem_cons_of_mem _ hb))
        (fun b hb => h2 b (List.mem_cons_of_mem _ hb))
        hacc'
      refine ⟨(st.ctr, (parseOperation p r.method (serializeOperation r doc) reg st).1)
        :: rest, ?_, ?_, ?_, ?_, ?_⟩
      · rw [hr1]
        simp
      · simp only [List.map_cons, hr2, List.cons.injEq]
        refine ⟨?_, trivial⟩
        rw [← hrp]
        exact roundOperation doc reg schemas R RP hE hT r hwfr st
      · intro e he
        rcases List.mem_cons.mp he with he1 | he1
        · rw [he1]
          exact parseOperation_path p r.method _ reg st
        · exact hr3 e he1
      · exact le_trans (le_of_lt (parseOperation_ctr_mono p r.method _ reg st)) hr4
      · intro e he
        exact hr5 e (by simpa [List.append_assoc] using he)

/-- Round trip of the whole `paths` object: parsing the serialized path
items yields the source route groups, canonically, in emission order. -/
theorem roundPathsEntries (doc : ApiDocument) (reg : Registry)
    (schemas : List (NodeId × SchemaNode)) (R RP : NodeId → Nat)
    (hE : ∀ e, wfEdge schemas e = true → ∀ st : PState,
      canonEdge RP (parseEdge (serializeSchemaOrRef e doc) reg st).1 = canonEdge R e)
    (hT : ∀ e, wfEdge schemas e = true → jsTruthy (serializeSchemaOrRef e doc) = true) :
    ∀ (gl : List (String × List Route)) (st : PState) (acc : List (NodeId × Route)),
    (∀ e ∈ gl, ∀ r ∈ e.2, wfRoute schemas r = true) →
    (∀ e ∈ gl, ∀ r ∈ e.2, r.path = e.1) →
    (∀ e ∈ gl, e.2 ≠ []) →
    (∀ e ∈ acc, e.1 < st.ctr) →
    ∃ glP : List (String × List Route),
      (parsePathsEntries (gl.map (fun e => (e.1, Json.obj
          (e.2.map (fun r => (r.method, serializeOperation r doc)))))) reg st acc).1.map
          Prod.snd =
        acc.map Prod.snd ++ glP.flatMap (fun e => e.2) ∧
      glP.map Prod.fst = gl.map Prod.fst ∧
      (∀ e ∈ glP, ∀ r ∈ e.2, r.path = e.1) ∧
      (∀ e ∈ glP, e.2 ≠ []) ∧
      (glP.flatMap (fun e => e.2)).map (canonRoute RP) =
        (gl.flatMap (fun e => e.2)).map (canonRoute R) ∧
      (∀ e ∈ (parsePathsEntries (gl.map (fun e => (e.1, Json.obj
          (e.2.map (fun r => (r.method, serializeOperation r doc)))))) reg st acc).1,
        e.1 < (parsePathsEntries (gl.map (fun e => (e.1, Json.obj
          (e.2.map (fun r => (r.method, serializeOperation r doc)))))) reg st acc).2.ctr) := by
  intro gl
  induction gl with
  | nil =>
      intro st acc h1 h2 h3 h4
      refine ⟨[], by simp [parsePathsEntries], rfl, by simp, by simp, by simp, ?_⟩
      simpa [parsePathsEntries] using fun e he => h4 e he
  | cons g tl ih =>
      obtain ⟨p, rs⟩ := g
      intro st acc h1 h2 h3 h4
      simp only [List.map_cons]
      simp only [parsePathsEntries]
      obtain ⟨rest, hr1, hr2, hr3, hr4, hr5⟩ :=
        roundPathItem doc reg schemas R RP hE hT p rs st acc
          (h1 (p, rs) (List.mem_cons_self _ _))
          (h2 (p, rs) (List.mem_cons_self _ _)) h4
      rw [hr1]
      obtain ⟨glP, hg1, hg2, hg3, hg4, hg5, hg6⟩ := ih
        (parsePathItemEntries p (rs.map (fun r => (r.method, serializeOperation r doc)))
          reg st acc).2
        (acc ++ rest)
        (fun b hb => h1 b (List.mem_cons_of_mem _ hb))
        (fun b hb => h2 b (List.mem_cons_of_mem _ hb))
        (fun b hb => h3 b (List.mem_cons_of_mem _ hb))
        (by
          intro b hb
          exact hr5 b hb)
      refine ⟨(p, rest.map Prod.snd) :: glP, ?_, ?_, ?_, ?_, ?_, hg6⟩
      · rw [hg1]
        simp [List.flatMap_cons]
      · simp [hg2]
      · intro e he
        rcases List.mem_cons.mp he with he1 | he1
        · rw [he1]
          intro r hr
          obtain ⟨b, hb, hbe⟩ := List.mem_map.mp hr
          rw [← hbe]
          exact hr3 b hb
        · exact hg3 e he1
      · intro e he
        rcases List.mem_cons.mp he with he1 | he1
        · rw [he1]
          have hlen : rest.length = rs.length := by
            have := congrArg List.length hr2
            simpa using this
          have hne := h3 (p, rs) (List.mem_cons_self _ _)
          intro h0
          apply hne
          have : rest = [] := by
            cases rest with
            | nil => rfl
            | cons a b => simp at h0
          rw [this] at hlen
          cases rs with
          | nil => rfl
          | cons a b => simp at hlen
        · exact hg4 e he1
      · simp only [List.flatMap_cons, List.map_append]
        rw [hg5]
        have : (rest.map Prod.snd).map (canonRoute RP) =
            rs.map (canonRoute R) := by
          rw [List.map_map]
          exact hr2
        rw [this]

theorem groupStep_found (groups : List (String × List Route)) (k : String) (r : Route)
    (ex : List Route) (h : mapGet? groups k = some ex) :
    (match mapGet? groups k with
     | some existing => mapSet groups k (existing ++ [r])
     | none => mapSet groups k [r]) = mapSet groups k (ex ++ [r]) := by
  rw [h]

theorem groupStep_new (groups : List (String × List Route)) (k : String) (r : Route)
    (h : mapGet? groups k = none) :
    (match mapGet? groups k with
     | some existing => mapSet groups k (existing ++ [r])
     | none => mapSet groups k [r]) = mapSet groups k [r] := by
  rw [h]

/-- Running the grouping fold over routes that all share one freshly-keyed
path appends them to that path's group. -/
theorem groupFold_run : ∀ (rs : List Route) (p : String)
    (acc0 : List (String × List Route)) (cur : List Route),
    (∀ r ∈ rs, r.path = p) → mapGet? acc0 p = none →
    rs.foldl (fun groups route =>
      match mapGet? groups route.path with
      | some existing => mapSet groups route.path (existing ++ [route])
      | none => mapSet groups route.path [route]) (acc0 ++ [(p, cur)]) =
      acc0 ++ [(p, cur ++ rs)] := by
  intro rs
  induction rs with
  | nil =>
      intro p acc0 cur h1 h2
      simp
  | cons r tl ih =>
      intro p acc0 cur h1 h2
      have hrp := h1 r (List.mem_cons_self _ _)
      simp only [List.foldl_cons]
      rw [hrp]
      have hget : mapGet? (acc0 ++ [(p, cur)]) p = some cur := by
        rw [mapGet_append, h2]
        simp [mapGet?]
      rw [groupStep_found _ _ _ _ hget]
      rw [mapSet_last _ _ _ _ h2]
      rw [ih p acc0 (cur ++ [r]) (fun b hb => h1 b (List.mem_cons_of_mem _ hb)) h2]
      simp

/-- The grouping fold rebuilds a grouped-contiguous route list exactly. -/
theorem groupFold_reconstruct : ∀ (gl : List (String × List Route))
    (acc : List (String × List Route)),
    (∀ e ∈ gl, e.2 ≠ []) →
    (∀ e ∈ gl, ∀ r ∈ e.2, r.path = e.1) →
    (gl.map Prod.fst).Nodup →
    (∀ k ∈ gl.map Prod.fst, mapGet? acc k = none) →
    (gl.flatMap (fun e => e.2)).foldl (fun groups route =>
      match mapGet? groups route.path with
      | some existing => mapSet groups route.path (existing ++ [route])
      | none => mapSet groups route.path [route]) acc = acc ++ gl := by
  intro gl
  induction gl with
  | nil =>
      intro acc h1 h2 h3 h4
      simp
  | cons g tl ih =>
      obtain ⟨p, rs⟩ := g
      intro acc h1 h2 h3 h4
      have hne := h1 (p, rs) (List.mem_cons_self _ _)
      have hps := h2 (p, rs) (List.mem_cons_self _ _)
      have hfr : mapGet? acc p = none := h4 p (by simp)
      simp only [List.map_cons, List.nodup_cons] at h3
      obtain ⟨hp0, h3tl⟩ := h3
      cases rs with
      | nil => exact absurd rfl hne
      | cons r0 rs' =>
          simp only [List.flatMap_cons, List.foldl_append, List.foldl_cons]
          have hr0p : r0.path = p := hps r0 (List.mem_cons_self _ _)
          rw [hr0p]
          rw [groupStep_new _ _ _ hfr]
          rw [mapSet_append_of_get_none _ _ _ hfr]
          rw [groupFold_run rs' p acc [r0]
            (fun b hb => hps b (List.mem_cons_of_mem _ hb)) hfr]
          simp only [List.singleton_append]
          rw [ih (acc ++ [(p, r0 :: rs')])
            (fun b hb => h1 b (List.mem_cons_of_mem _ hb))
            (fun b hb => h2 b (List.mem_cons_of_mem _ hb)) h3tl ?_]
          · simp
          · intro k hk
            rw [mapGet_append, h4 k (by simp [hk])]
            have hkp : p ≠ k := by
              intro he
              exact hp0 (he ▸ hk)
            simp [mapGet?, hkp]

theorem flatMap_lookup_keys : ∀ (gl : List (String × List Route)),
    (gl.map Prod.fst).Nodup →
    (gl.map Prod.fst).flatMap (fun p => (mapGet? gl p).getD []) =
      gl.flatMap (fun e => e.2) := by
  intro gl
  induction gl with
  | nil => intro h; rfl
  | cons g tl ih =>
      obtain ⟨p, v⟩ := g
      intro h
      simp only [List.map_cons, List.nodup_cons] at h
      obtain ⟨hp0, htl⟩ := h
      simp only [List.map_cons, List.flatMap_cons]
      have hself : mapGet? ((p, v) :: tl) p = some v := by
        simp [mapGet?]
      rw [hself]
      have hcongr : (tl.map Prod.fst).flatMap
          (fun k => (mapGet? ((p, v) :: tl) k).getD []) =
          (tl.map Prod.fst).flatMap (fun k => (mapGet? tl k).getD []) := by
        refine flatMap_congr_left _ _ _ ?_
        intro k hk
        have hkp : p ≠ k := by
          intro he
          exact hp0 (he ▸ hk)
        simp [mapGet?, hkp]
      rw [hcongr, ih htl]
      simp

/-- The exporter's canonical route order is a fixed point on a
grouped-contiguous, key-sorted route list. -/
theorem canonRouteOrder_grouped (gl : List (String × List Route))
    (h1 : ∀ e ∈ gl, e.2 ≠ []) (h2 : ∀ e ∈ gl, ∀ r ∈ e.2, r.path = e.1)
    (h3 : (gl.map Prod.fst).Nodup)
    (h4 : (gl.map Prod.fst).Chain' (fun a b => strLt a b = true)) :
    canonRouteOrder (gl.flatMap (fun e => e.2)) = gl.flatMap (fun e => e.2) := by
  have hg : groupRoutesByPath (gl.flatMap (fun e => e.2)) = gl := by
    rw [groupRoutesByPath]
    simpa using groupFold_reconstruct gl [] h1 h2 h3 (by intro k hk; rfl)
  simp only [canonRouteOrder, hg]
  rw [sortStrings_sorted_id _ h4]
  exact flatMap_lookup_keys gl h3

-- ---------------------------------------------------------------------
-- Round-trip proof, phase 7: document assembly
-- ---------------------------------------------------------------------

/-- The `components.schemas` member the exporter builds. -/
def schemasJson (d : ApiDocument) : List (String × Json) :=
  d.schemas.foldl (fun acc entry =>
    match entry.2.name with
    | some nm => if nm ≠ "" then mapSet acc nm (serializeSchema entry.2 d) else acc
    | none => acc) []

/-- The `components.securitySchemes` member the exporter builds. -/
def secSchemesJson (d : ApiDocument) : List (String × Json) :=
  d.securitySchemes.foldl (fun acc entry =>
    mapSet acc entry.2.name (serializeSecurityScheme entry.2)) []

/-- The `paths` member the exporter builds. -/
def pathsJsonOf (d : ApiDocument) : Json :=
  .obj ((sortStrings ((groupRoutesByPath (d.routes.map Prod.snd)).map Prod.fst)).map
    (fun path => (path, Json.obj (((mapGet? (groupRoutesByPath (d.routes.map Prod.snd))
      path).getD []).foldl
      (fun acc route => mapSet acc route.method (serializeOperation route d)) []))))

theorem serializeDocument_eq (d : ApiDocument) :
    serializeDocument d = Json.obj (
      ("openapi", Json.str "3.0.3") ::
      ("info", infoJsonOf d.info) ::
      ("paths", pathsJsonOf d) ::
      (((if d.servers.length > 0 then
           [("servers", Json.arr (d.servers.map (fun s =>
              .obj ([("url", Json.str s.url)] ++ optStrField "description" s.description))))]
         else []) ++
        (if d.tags.length > 0 then
           [("tags", Json.arr (d.tags.map (fun t =>
              .obj ([("name", Json.str t.name)] ++ optStrField "description" t.description))))]
         else [])) ++
       (if (schemasJson d).length > 0 ∨ (secSchemesJson d).length > 0 then
          [("components", Json.obj (
             (if (schemasJson d).length > 0 then
                [("schemas", Json.obj (schemasJson d))] else []) ++
             (if (secSchemesJson d).length > 0 then
                [("securitySchemes", Json.obj (secSchemesJson d))] else [])))]
        else []))) := rfl

theorem parseInfo_ctr (j : Json) (st : PState) : (parseInfo j st).2.ctr = st.ctr := by
  simp only [parseInfo]
  split
  · split
    · rfl
    · rfl
  · split
    · rfl
    · rfl

/-- Shape of pass 2's output: one entry per serialized schema, keyed by
the registered id and named by the entry key. -/
theorem parseSchemaEntries_shape (doc : ApiDocument) (reg : Registry) :
    ∀ (l : List (NodeId × SchemaNode)) (st : PState) (acc : List (NodeId × SchemaNode)),
    (∀ e ∈ l, ∃ nm, e.2.name = some nm) →
    (∀ e ∈ l, mapGet? acc ((mapGet? reg (e.2.name.getD "")).getD 0) = none) →
    (l.map (fun e => (mapGet? reg (e.2.name.getD "")).getD 0)).Nodup →
    ∃ rest,
      (parseSchemaEntries (l.map (fun e => (e.2.name.getD "", serializeSchema e.2 doc)))
          reg st acc).1 = acc ++ rest ∧
      rest.map Prod.fst = l.map (fun e => (mapGet? reg (e.2.name.getD "")).getD 0) ∧
      rest.map (fun e => e.2.name) = l.map (fun e => e.2.name) := by
  intro l
  induction l with
  | nil =>
      intro st acc h1 h2 h3
      exact ⟨[], by simp [parseSchemaEntries], rfl, rfl⟩
  | cons e tl ih =>
      intro st acc h1 h2 h3
      obtain ⟨nm0, hnm0⟩ := h1 e (List.mem_cons_self _ _)
      simp only [List.map_cons, List.nodup_cons] at h3
      obtain ⟨hid0, h3tl⟩ := h3
      simp only [List.map_cons]
      simp only [parseSchemaEntries]
      rw [mapSet_append_of_get_none _ _ _ (h2 e (List.mem_cons_self _ _))]
      have hfresh : ∀ b ∈ tl, mapGet? (acc ++ [((mapGet? reg (e.2.name.getD "")).getD 0,
          (parseSchema (serializeSchema e.2 doc) (some (e.2.name.getD ""))
            ((mapGet? reg (e.2.name.getD "")).getD 0) reg st).1)])
          ((mapGet? reg (b.2.name.getD "")).getD 0) = none := by
        intro b hb
        rw [mapGet_append, h2 b (List.mem_cons_of_mem _ hb)]
        have hne : (mapGet? reg (e.2.name.getD "")).getD 0 ≠
            (mapGet? reg (b.2.name.getD "")).getD 0 := by
          intro he
          exact hid0 (he ▸ List.mem_map.mpr ⟨b, hb, rfl⟩)
        simp [mapGet?, hne]
      obtain ⟨rest, hr1, hr2, hr3⟩ := ih
        (parseSchema (serializeSchema e.2 doc) (some (e.2.name.getD ""))
          ((mapGet? reg (e.2.name.getD "")).getD 0) reg st).2
        (acc ++ [((mapGet? reg (e.2.name.getD "")).getD 0,
          (parseSchema (serializeSchema e.2 doc) (some (e.2.name.getD ""))
            ((mapGet? reg (e.2.name.getD "")).getD 0) reg st).1)])
        (fun b hb => h1 b (List.mem_cons_of_mem _ hb)) hfresh h3tl
      refine ⟨((mapGet? reg (e.2.name.getD "")).getD 0,
        (parseSchema (serializeSchema e.2 doc) (some (e.2.name.getD ""))
          ((mapGet? reg (e.2.name.getD "")).getD 0) reg st).1) :: rest, ?_, ?_, ?_⟩
      · rw [hr1]
        simp
      · simp [hr2]
      · simp only [List.map_cons, hr3, List.cons.injEq]
        refine ⟨?_, trivial⟩
        rw [parseSchema_name, hnm0]
        rfl

theorem map_name_eq_map_some : ∀ (l : List (NodeId × SchemaNode)),
    (∀ e ∈ l, ∃ nm, e.2.name = some nm) →
    l.map (fun e => e.2.name) = (l.map (fun e => e.2.name.getD "")).map some := by
  intro l
  induction l with
  | nil =>
      intro h
      rfl
  | cons e tl ih =>
      intro h
      obtain ⟨nm, hnm⟩ := h e (List.mem_cons_self _ _)
      simp only [List.map_cons, hnm, List.cons.injEq]
      exact ⟨by simp, ih (fun b hb => h b (List.mem_cons_of_mem _ hb))⟩

theorem rank_ids_eq (l : List (NodeId × SchemaNode)) (c : Nat) :
    l.map (fun e => (mapGet? (regFrom (l.map (fun e => e.2.name.getD "")) c)
        (e.2.name.getD "")).getD 0) =
      (l.map (fun e => e.2.name.getD "")).map
        (fun nm => c + idxOfStr nm (l.map (fun e => e.2.name.getD ""))) := by
  rw [List.map_map]
  refine List.map_congr_left ?_
  intro e he
  simp only [Function.comp]
  rw [mapGet_regFrom_self _ _ _ (List.mem_map.mpr ⟨e, he, rfl⟩)]
  rfl

theorem refResolve_named (d : ApiDocument) (chase : Nat) (tid : NodeId)
    (t : SchemaNode) (nm : String)
    (ht : mapGet? d.schemas tid = some t) (hnm : t.name = some nm) (hne : nm ≠ "") :
    refResolve d (chase + 1) tid =
      Json.obj [("$ref", Json.str ("#/components/schemas/" ++ nm))] := by
  rw [refResolve]
  simp [ht, hnm, hne]

/-- The reference-resolution side condition of the schema round trip holds
for the real serializer against the real registry. -/
theorem href_establish (d d' : ApiDocument) (rest : List (NodeId × SchemaNode))
    (hd' : d'.schemas = rest)
    (hall : ∀ e ∈ d.schemas, ∃ nm, e.2.name = some nm ∧ nm ≠ "")
    (hnd : (d.schemas.map (fun e => e.2.name.getD "")).Nodup)
    (hkeys : rest.map Prod.fst = d.schemas.map (fun e =>
      (mapGet? (regFrom (d.schemas.map (fun e => e.2.name.getD "")) 1)
        (e.2.name.getD "")).getD 0))
    (hnames : rest.map (fun e => e.2.name) = d.schemas.map (fun e => e.2.name)) :
    ∀ tid, wfRefTarget d.schemas tid = true →
      ∃ nm rid, refResolve d (serializeChase d) tid =
          Json.obj [("$ref", Json.str ("#/components/schemas/" ++ nm))] ∧
        nm ≠ "" ∧ mapGet? (regFrom (d.schemas.map (fun e => e.2.name.getD "")) 1) nm
          = some rid ∧ docResolve d' rid = docResolve d tid := by
  intro tid hwf
  simp only [wfRefTarget] at hwf
  cases ht : mapGet? d.schemas tid with
  | none =>
      rw [ht] at hwf
      cases hwf
  | some t =>
      rw [ht] at hwf
      dsimp only at hwf
      cases hnm : t.name with
      | none =>
          rw [hnm] at hwf
          simp at hwf
      | some nm =>
          rw [hnm] at hwf
          have hne : nm ≠ "" := by simpa using hwf
          have hmem : nm ∈ d.schemas.map (fun e => e.2.name.getD "") := by
            refine List.mem_map.mpr ⟨(tid, t), mapGet_some_mem _ _ _ ht, ?_⟩
            simp [hnm]
          refine ⟨nm, 1 + idxOfStr nm (d.schemas.map (fun e => e.2.name.getD "")),
            ?_, hne, ?_, ?_⟩
          · rw [show serializeChase d = d.schemas.length + 1 from rfl]
            exact refResolve_named d _ tid t nm ht hnm hne
          · exact mapGet_regFrom_self _ 1 nm hmem
          · have hrk : rest.map Prod.fst =
                (d.schemas.map (fun e => e.2.name.getD "")).map
                  (fun k => 1 + idxOfStr k (d.schemas.map (fun e => e.2.name.getD ""))) := by
              rw [hkeys, rank_ids_eq]
            have hrn : rest.map (fun e => e.2.name) =
                (d.schemas.map (fun e => e.2.name.getD "")).map some := by
              rw [hnames]
              exact map_name_eq_map_some _
                (fun b hb => (hall b hb).imp (fun _ h => h.1))
            obtain ⟨p, hp1, hp2⟩ := lookup_by_rank rest _ 1 hnd hrk hrn nm hmem
            simp only [docResolve, hd', hp1, hp2, ht, hnm]
            rw [filterMap_name_of_map_some rest _ hrn]
            rw [filterMap_name_eq_map_getD d.schemas
              (fun b hb => (hall b hb).imp (fun _ h => h.1))]

theorem flatMap_map_eq {α β γ : Type} : ∀ (l : List α) (f : α → β) (g : β → List γ),
    (l.map f).flatMap g = l.flatMap (fun a => g (f a)) := by
  intro l f g
  induction l with
  | nil => rfl
  | cons x tl ih =>
      simp only [List.map_cons, List.flatMap_cons, ih]

/-- Round trip of the whole routes pipeline: parsing the serialized
`paths` object and re-canonicalizing the order reproduces the source's
canonical route list. -/
theorem routesRound (d : ApiDocument) (reg : Registry) (RP : NodeId → Nat)
    (hE : ∀ e, wfEdge d.schemas e = true → ∀ st : PState,
      canonEdge RP (parseEdge (serializeSchemaOrRef e d) reg st).1 =
        canonEdge (docResolve d) e)
    (hT : ∀ e, wfEdge d.schemas e = true → jsTruthy (serializeSchemaOrRef e d) = true)
    (hrts : d.routes.all (fun e => wfRoute d.schemas e.2) = true)
    (hpair : pairListNodup (d.routes.map (fun e => (e.2.path, e.2.method))) = true)
    (st : PState) :
    (canonRouteOrder ((parsePathsEntries
        ((sortStrings ((groupRoutesByPath (d.routes.map Prod.snd)).map Prod.fst)).map
          (fun path => (path, Json.obj (((mapGet? (groupRoutesByPath (d.routes.map Prod.snd))
            path).getD []).foldl
            (fun acc route => mapSet acc route.method (serializeOperation route d)) []))))
        reg st []).1.map Prod.snd)).map (canonRoute RP) =
      (canonRouteOrder (d.routes.map Prod.snd)).map (canonRoute (docResolve d)) := by
  have hpair' : pairListNodup ((d.routes.map Prod.snd).map
      (fun r => (r.path, r.method))) = true := by
    rw [List.map_map]
    exact hpair
  obtain ⟨hGk, hGwf, hGmem⟩ := groupFold_spec (· ∈ d.routes.map Prod.snd)
    (d.routes.map Prod.snd) [] hpair' (by simp) (by simp) (by simp) (by simp)
    (fun r hr => hr) (groupRoutesByPath (d.routes.map Prod.snd))
    (by rw [groupRoutesByPath])
  obtain ⟨hsnd, hchain⟩ := sortStrings_nodup_chain _ hGk
  have hlook : ∀ p ∈ sortStrings ((groupRoutesByPath (d.routes.map Prod.snd)).map Prod.fst),
      ∃ v, mapGet? (groupRoutesByPath (d.routes.map Prod.snd)) p = some v ∧
        (p, v) ∈ groupRoutesByPath (d.routes.map Prod.snd) := by
    intro p hp
    have hp' : p ∈ (groupRoutesByPath (d.routes.map Prod.snd)).map Prod.fst :=
      (sortStrings_mem _ _).mp hp
    cases hv : mapGet? (groupRoutesByPath (d.routes.map Prod.snd)) p with
    | none => exact absurd hp' ((mapGet_none_iff_not_mem _ _).mp hv)
    | some v => exact ⟨v, rfl, mapGet_some_mem _ _ _ hv⟩
  have hENT : (sortStrings ((groupRoutesByPath (d.routes.map Prod.snd)).map Prod.fst)).map
      (fun path => (path, Json.obj (((mapGet? (groupRoutesByPath (d.routes.map Prod.snd))
        path).getD []).foldl
        (fun acc route => mapSet acc route.method (serializeOperation route d)) []))) =
      ((sortStrings ((groupRoutesByPath (d.routes.map Prod.snd)).map Prod.fst)).map
        (fun p => (p, (mapGet? (groupRoutesByPath (d.routes.map Prod.snd)) p).getD []))).map
        (fun e => (e.1, Json.obj (e.2.map (fun r => (r.method, serializeOperation r d))))) := by
    rw [List.map_map]
    refine List.map_congr_left ?_
    intro p hp
    obtain ⟨v, hv, hvm⟩ := hlook p hp
    obtain ⟨hv1, hv2, hv3⟩ := hGwf _ hvm
    simp only [Function.comp, hv, Option.getD_some]
    rw [methodFold_eq d v [] (fun r hr => rfl) hv3]
    simp
  rw [hENT]
  have hglk : ((sortStrings ((groupRoutesByPath (d.routes.map Prod.snd)).map Prod.fst)).map
      (fun p => (p, (mapGet? (groupRoutesByPath (d.routes.map Prod.snd)) p).getD []))).map
      Prod.fst = sortStrings ((groupRoutesByPath (d.routes.map Prod.snd)).map Prod.fst) := by
    rw [List.map_map]
    rw [show (Prod.fst ∘ fun p =>
      (p, (mapGet? (groupRoutesByPath (d.routes.map Prod.snd)) p).getD [])) = id from rfl]
    rw [List.map_id]
  obtain ⟨glP, hp1, hp2, hp3, hp4, hp5, hp6⟩ := roundPathsEntries d reg d.schemas
    (docResolve d) RP hE hT
    ((sortStrings ((groupRoutesByPath (d.routes.map Prod.snd)).map Prod.fst)).map
      (fun p => (p, (mapGet? (groupRoutesByPath (d.routes.map Prod.snd)) p).getD [])))
    st []
    (by
      intro e he r hr
      obtain ⟨p, hp, hpe⟩ := List.mem_map.mp he
      obtain ⟨v, hv, hvm⟩ := hlook p hp
      have hrv : r ∈ v := by
        rw [← hpe] at hr
        simpa [hv] using hr
      have hrm := hGmem _ hvm r hrv
      obtain ⟨e2, he2, he2e⟩ := List.mem_map.mp hrm
      rw [← he2e]
      exact List.all_eq_true.mp hrts e2 he2)
    (by
      intro e he r hr
      obtain ⟨p, hp, hpe⟩ := List.mem_map.mp he
      obtain ⟨v, hv, hvm⟩ := hlook p hp
      obtain ⟨hv1, hv2, hv3⟩ := hGwf _ hvm
      have hrv : r ∈ v := by
        rw [← hpe] at hr
        simpa [hv] using hr
      rw [← hpe]
      exact hv2 r hrv)
    (by
      intro e he
      obtain ⟨p, hp, hpe⟩ := List.mem_map.mp he
      obtain ⟨v, hv, hvm⟩ := hlook p hp
      obtain ⟨hv1, hv2, hv3⟩ := hGwf _ hvm
      rw [← hpe]
      simpa [hv] using hv1)
    (by simp)
  simp only [hp1, List.map_nil, List.nil_append]
  rw [canonRouteOrder_grouped glP hp4 hp3 (by rw [hp2, hglk]; exact hsnd)
    (by rw [hp2, hglk]; exact hchain)]
  rw [hp5]
  simp only [canonRouteOrder]
  rw [flatMap_map_eq]

theorem serversMatch_eval (d : ApiDocument)
    (hwf : d.servers.all wfServer = true) :
    (match (if d.servers.length > 0 then
      some (Json.arr (d.servers.map (fun s =>
        Json.obj ([("url", Json.str s.url)] ++ optStrField "description" s.description))))
      else none) with
     | some (Json.arr elems) => parseServerList elems
     | _ => []) = d.servers := by
  by_cases hl : d.servers.length > 0
  · rw [if_pos hl]
    exact roundServerList d.servers (List.all_eq_true.mp hwf)
  · rw [if_neg hl]
    have : d.servers = [] := by
      cases hd : d.servers with
      | nil => rfl
      | cons a l =>
          rw [hd] at hl
          simp at hl
    rw [this]

theorem tagsMatch_eval (d : ApiDocument)
    (hwf : d.tags.all wfTag = true) :
    (match (if d.tags.length > 0 then
      some (Json.arr (d.tags.map (fun t =>
        Json.obj ([("name", Json.str t.name)] ++ optStrField "description" t.description))))
      else none) with
     | some (Json.arr elems) => parseTagList elems
     | _ => []) = d.tags := by
  by_cases hl : d.tags.length > 0
  · rw [if_pos hl]
    exact roundTagList d.tags (List.all_eq_true.mp hwf)
  · rw [if_neg hl]
    have : d.tags = [] := by
      cases hd : d.tags with
      | nil => rfl
      | cons a l =>
          rw [hd] at hl
          simp at hl
    rw [this]

theorem secMatch_eval (d : ApiDocument) (st : PState)
    (hwf : (d.securitySchemes.all fun e => wfScheme e.2) = true) :
    ((match (if d.securitySchemes.length > 0 then
      some (Json.obj (d.securitySchemes.map
        (fun e => (e.2.name, serializeSecurityScheme e.2))))
      else none) with
     | some v =>
       if jsTruthy v = true then
         match v.asFields? with
         | some entries => parseSecuritySchemeEntries entries st []
         | none => ([], st)
       else ([], st)
     | none => ([], st) :
      List (NodeId × SecurityScheme) × PState)).1.map (fun e => canonScheme e.2) =
      d.securitySchemes.map (fun e => canonScheme e.2) := by
  by_cases hl : d.securitySchemes.length > 0
  · rw [if_pos hl]
    have h1 := roundSchemeEntries d.securitySchemes [] st hwf (by simp)
    simpa [jsTruthy, Json.asFields?] using h1
  · rw [if_neg hl]
    have : d.securitySchemes = [] := by
      cases hd : d.securitySchemes with
      | nil => rfl
      | cons a l =>
          rw [hd] at hl
          simp at hl
    rw [this]

theorem fieldsOfIf (E : List (String × Json)) (c : Prop) [Decidable c] :
    (match (if c then some (Json.obj E) else none) with
     | some v => if jsTruthy v = true then v.asFields? else none
     | none => none) = if c then some E else none := by
  by_cases hc : c
  · rw [if_pos hc, if_pos hc]
    simp [jsTruthy, Json.asFields?]
  · rw [if_neg hc, if_neg hc]

/-- The bundle of canonical-equality facts that flow out of the parsed
schema map: the schema round trip itself and the edge-level facts the
route round trip needs. -/
theorem schemasRoutesFacts (d d' : ApiDocument) (st : PState)
    (hall : ∀ e ∈ d.schemas,
      (∃ nm, e.2.name = some nm ∧ nm ≠ "") ∧ wfSchemaBody d.schemas e.2 = true)
    (hnd : (d.schemas.map (fun e => e.2.name.getD "")).Nodup)
    (hd' : d'.schemas = (parseSchemaEntries
        (d.schemas.map (fun e => (e.2.name.getD "", serializeSchema e.2 d)))
        (regFrom (d.schemas.map (fun e => e.2.name.getD "")) 1) st []).1) :
    d'.schemas.map (fun e => canonSchema (docResolve d') e.2) =
      d.schemas.map (fun e => canonSchema (docResolve d) e.2) ∧
    (∀ e, wfEdge d.schemas e = true → ∀ st2 : PState,
      canonEdge (docResolve d') (parseEdge (serializeSchemaOrRef e d)
        (regFrom (d.schemas.map (fun e => e.2.name.getD "")) 1) st2).1 =
        canonEdge (docResolve d) e) ∧
    (∀ e, wfEdge d.schemas e = true → jsTruthy (serializeSchemaOrRef e d) = true) := by
  have hidn : (d.schemas.map (fun e =>
      (mapGet? (regFrom (d.schemas.map (fun e => e.2.name.getD "")) 1)
        (e.2.name.getD "")).getD 0)).Nodup := by
    rw [rank_ids_eq]
    exact regFrom_rank_nodup _ 1 hnd
  obtain ⟨rest, hre, hrk, hrn⟩ := parseSchemaEntries_shape d
    (regFrom (d.schemas.map (fun e => e.2.name.getD "")) 1) d.schemas st []
    (fun e he => ((hall e he).1).imp (fun _ h => h.1))
    (fun e he => rfl) hidn
  rw [List.nil_append] at hre
  have hd'r : d'.schemas = rest := by rw [hd', hre]
  have href := href_establish d d' rest hd'r
    (fun e he => (hall e he).1) hnd hrk hrn
  have hT : ∀ e, wfEdge d.schemas e = true →
      jsTruthy (serializeSchemaOrRef e d) = true := by
    intro e he
    cases e with
    | ref tid =>
        obtain ⟨nm, rid, hrf, -⟩ := href tid (by simpa [wfEdge] using he)
        show jsTruthy (refResolve d (serializeChase d) tid) = true
        rw [hrf]
        rfl
    | inline s => exact jsTruthy_serializeSchemaF _ s
  refine ⟨?_, ?_, hT⟩
  · obtain ⟨rest2, hre2, hk2, hn2, hcanon⟩ := roundSchemaEntries d
      (regFrom (d.schemas.map (fun e => e.2.name.getD "")) 1) d.schemas
      (docResolve d) (docResolve d') href d.schemas st []
      hall (fun e he => rfl) hidn
    rw [List.nil_append] at hre2
    have heq : rest2 = rest := by rw [← hre2, ← hre]
    rw [hd'r]
    rw [heq] at hcanon
    exact hcanon
  · intro e he st2
    exact (roundAux (refResolve d (serializeChase d))
      (regFrom (d.schemas.map (fun e => e.2.name.getD "")) 1) d.schemas
      (docResolve d) (docResolve d') href (sizeEdge e)).1 e le_rfl he st2

/-- Evaluates the registration match over an optional schema-entry list. -/
theorem matchIfRegister (E : List (String × Json)) (c : Prop) [Decidable c] (st : PState)
    (hE : ¬c → E = [])
    (hfresh : ∀ k ∈ E.map Prod.fst, mapGet? ([] : Registry) k = none)
    (hnd : (E.map Prod.fst).Nodup) :
    (match (if c then some E else none) with
     | some entries => registerSchemaNames entries [] st
     | none => ([], st)) =
      (regFrom (E.map Prod.fst) st.ctr, { st with ctr := st.ctr + E.length }) := by
  by_cases hc : c
  · rw [if_pos hc]
    have h := registerSchemaNames_eq E [] st hfresh hnd
    rw [List.nil_append] at h
    exact h
  · rw [if_neg hc, hE hc]
    rfl

/-- Evaluates the pass-2 match over an optional schema-entry list. -/
theorem matchIfParseSchemas (E : List (String × Json)) (c : Prop) [Decidable c]
    (R : Registry) (st : PState) (hE : ¬c → E = []) :
    (match (if c then some E else none) with
     | some entries => parseSchemaEntries entries R st []
     | none => ([], st)) = parseSchemaEntries E R st [] := by
  by_cases hc : c
  · rw [if_pos hc]
  · rw [if_neg hc, hE hc]
    rfl

/-- Every well-formed edge serializes to a truthy JSON value. -/
theorem serializeSchemaOrRef_truthy (d : ApiDocument) :
    ∀ e, wfEdge d.schemas e = true → jsTruthy (serializeSchemaOrRef e d) = true := by
  intro e he
  cases e with
  | ref tid =>
      have hw : wfRefTarget d.schemas tid = true := by simpa [wfEdge] using he
      simp only [wfRefTarget] at hw
      cases ht : mapGet? d.schemas tid with
      | none =>
          rw [ht] at hw
          simp at hw
      | some t =>
          rw [ht] at hw
          dsimp only at hw
          cases hnm : t.name with
          | none =>
              rw [hnm] at hw
              simp at hw
          | some nm =>
              rw [hnm] at hw
              dsimp only at hw
              have hne : nm ≠ "" := by simpa using hw
              show jsTruthy (refResolve d (serializeChase d) tid) = true
              rw [show serializeChase d = d.schemas.length + 1 from rfl]
              rw [refResolve_named d d.schemas.length tid t nm ht hnm hne]
              rfl
  | inline s => exact jsTruthy_serializeSchemaF _ s

set_option maxHeartbeats 1000000 in
/-- C3: amended round trip. For every well-formed document (the structural
invariants a zero-error parse establishes, minus the degenerate shapes the
exporter's minimal-emission rules erase), re-parsing the serialized document
succeeds and returns a document with the same canonical form -- identical
info, servers, tags, routes, schemas and security schemes up to renaming of
the generated node identifiers. -/
theorem C3_amended (d : ApiDocument) (hwf : wfDoc d = true) :
    ∃ d', parsedDoc (serializeDocument d) = some d' ∧ canonDoc d' = canonDoc d := by
  simp only [wfDoc, Bool.and_eq_true] at hwf
  obtain ⟨⟨⟨⟨⟨⟨⟨⟨hinfo, hserv⟩, htags⟩, hsch⟩, hnnd⟩, hrts⟩, hpair⟩, hsec⟩, hsnd⟩ := hwf
  rw [serializeDocument_eq]
  set sb := (if d.servers.length > 0 then
      [("servers", Json.arr (d.servers.map (fun s =>
        Json.obj ([("url", Json.str s.url)] ++ optStrField "description" s.description))))]
    else []) with hsb
  set tb := (if d.tags.length > 0 then
      [("tags", Json.arr (d.tags.map (fun t =>
        Json.obj ([("name", Json.str t.name)] ++ optStrField "description" t.description))))]
    else []) with htb
  set cb := (if (schemasJson d).length > 0 ∨ (secSchemesJson d).length > 0 then
      [("components", Json.obj (
        (if (schemasJson d).length > 0 then
          [("schemas", Json.obj (schemasJson d))] else []) ++
        (if (secSchemesJson d).length > 0 then
          [("securitySchemes", Json.obj (secSchemesJson d))] else [])))]
    else []) with hcb
  set L := ("openapi", Json.str "3.0.3") :: ("info", infoJsonOf d.info) ::
    ("paths", pathsJsonOf d) :: ((sb ++ tb) ++ cb) with hL
  -- derived well-formedness facts
  have hschAll : ∀ e ∈ d.schemas,
      (∃ nm, e.2.name = some nm ∧ nm ≠ "") ∧ wfSchemaBody d.schemas e.2 = true := by
    intro e he
    have h1 := List.all_eq_true.mp hsch e he
    simp only [Bool.and_eq_true] at h1
    obtain ⟨h2, h3⟩ := h1
    refine ⟨?_, h3⟩
    cases hnm : e.2.name with
    | none =>
        rw [hnm] at h2
        simp at h2
    | some nm =>
        rw [hnm] at h2
        exact ⟨nm, rfl, by simpa using h2⟩
  have hnamesNodup : (d.schemas.map (fun e => e.2.name.getD "")).Nodup := by
    have h1 := strListNodup_nodup _ hnnd
    rwa [filterMap_name_eq_map_getD d.schemas
      (fun b hb => ((hschAll b hb).1).imp (fun _ h => h.1))] at h1
  have hSJ : schemasJson d =
      d.schemas.map (fun e => (e.2.name.getD "", serializeSchema e.2 d)) := by
    have h1 := schemasFold_eq d d.schemas []
      (fun e he => by
        obtain ⟨⟨nm, hnm, hne⟩, -⟩ := hschAll e he
        exact ⟨nm, hnm, hne, rfl⟩)
      (strListNodup_nodup _ hnnd)
    simpa [schemasJson] using h1
  have hKJ : secSchemesJson d =
      d.securitySchemes.map (fun e => (e.2.name, serializeSecurityScheme e.2)) := by
    have h1 := secFold_eq d.securitySchemes [] (fun e he => rfl)
      (strListNodup_nodup _ hsnd)
    simpa [secSchemesJson] using h1
  have hSlen : (schemasJson d).length = d.schemas.length := by
    rw [hSJ, List.length_map]
  have hKlen : (secSchemesJson d).length = d.securitySchemes.length := by
    rw [hKJ, List.length_map]
  -- block shapes
  have hsbShape : sb = [] ∨ ∃ v, sb = [("servers", v)] := by
    rw [hsb]
    by_cases h : d.servers.length > 0
    · exact Or.inr ⟨_, by rw [if_pos h]⟩
    · exact Or.inl (by rw [if_neg h])
  have htbShape : tb = [] ∨ ∃ v, tb = [("tags", v)] := by
    rw [htb]
    by_cases h : d.tags.length > 0
    · exact Or.inr ⟨_, by rw [if_pos h]⟩
    · exact Or.inl (by rw [if_neg h])
  have hcbShape : cb = [] ∨ ∃ v, cb = [("components", v)] := by
    rw [hcb]
    by_cases h : (schemasJson d).length > 0 ∨ (secSchemesJson d).length > 0
    · exact Or.inr ⟨_, by rw [if_pos h]⟩
    · exact Or.inl (by rw [if_neg h])
  have hisShape : (if (schemasJson d).length > 0 then
      [("schemas", Json.obj (schemasJson d))] else []) = [] ∨
      ∃ v, (if (schemasJson d).length > 0 then
        [("schemas", Json.obj (schemasJson d))] else []) = [("schemas", v)] := by
    by_cases h : (schemasJson d).length > 0
    · exact Or.inr ⟨_, by rw [if_pos h]⟩
    · exact Or.inl (by rw [if_neg h])
  -- field reads off the root object
  have hO : (Json.obj L).getField? "openapi" = some (Json.str "3.0.3") := by
    rw [getField_obj, hL, getF_cons_self]
  have hI : (Json.obj L).truthyField? "info" = some (infoJsonOf d.info) := by
    rw [truthyField_obj, hL]
    unfold truthyF
    rw [getF_cons_ne _ _ _ _ (by decide), getF_cons_self]
    rfl
  have hP : (Json.obj L).truthyField? "paths" = some (pathsJsonOf d) := by
    rw [truthyField_obj, hL]
    unfold truthyF
    rw [getF_cons_ne _ _ _ _ (by decide), getF_cons_ne _ _ _ _ (by decide),
      getF_cons_self]
    rfl
  have hSrvVal : (Json.obj L).getField? "servers" =
      (if d.servers.length > 0 then
        some (Json.arr (d.servers.map (fun s =>
          Json.obj ([("url", Json.str s.url)] ++ optStrField "description" s.description))))
      else none) := by
    rw [getField_obj, hL]
    rw [getF_cons_ne _ _ _ _ (by decide), getF_cons_ne _ _ _ _ (by decide),
      getF_cons_ne _ _ _ _ (by decide)]
    rw [List.append_assoc]
    rw [hsb]
    by_cases h : d.servers.length > 0
    · rw [if_pos h, if_pos h]
      simp [getF, mapGet?]
    · rw [if_neg h, if_neg h]
      rw [List.nil_append]
      rw [getF_blk_ne _ _ _ _ htbShape (by decide)]
      exact getF_blk_none _ _ _ hcbShape (by decide)
  have hTagVal : (Json.obj L).getField? "tags" =
      (if d.tags.length > 0 then
        some (Json.arr (d.tags.map (fun t =>
          Json.obj ([("name", Json.str t.name)] ++ optStrField "description" t.description))))
      else none) := by
    rw [getField_obj, hL]
    rw [getF_cons_ne _ _ _ _ (by decide), getF_cons_ne _ _ _ _ (by decide),
      getF_cons_ne _ _ _ _ (by decide)]
    rw [List.append_assoc]
    rw [getF_blk_ne _ _ _ _ hsbShape (by decide)]
    rw [htb]
    by_cases h : d.tags.length > 0
    · rw [if_pos h, if_pos h]
      simp [getF, mapGet?]
    · rw [if_neg h, if_neg h]
      rw [List.nil_append]
      exact getF_blk_none _ _ _ hcbShape (by decide)
  have hCS : ((Json.obj L).getField? "components").bind (fun x => x.getField? "schemas") =
      (if d.schemas.length > 0 then
        some (Json.obj (d.schemas.map (fun e =>
          (e.2.name.getD "", serializeSchema e.2 d))))
      else none) := by
    rw [getField_obj, hL]
    rw [getF_cons_ne _ _ _ _ (by decide), getF_cons_ne _ _ _ _ (by decide),
      getF_cons_ne _ _ _ _ (by decide)]
    rw [List.append_assoc]
    rw [getF_blk_ne _ _ _ _ hsbShape (by decide)]
    rw [getF_blk_ne _ _ _ _ htbShape (by decide)]
    rw [hcb]
    by_cases hSl : d.schemas.length > 0
    · rw [if_pos (Or.inl (by rw [hSlen]; exact hSl)), if_pos hSl]
      rw [getF_cons_self, Option.some_bind, getField_obj]
      rw [if_pos (by rw [hSlen]; exact hSl)]
      rw [List.singleton_append, getF_cons_self, hSJ]
    · rw [if_neg hSl]
      have hz : ¬((schemasJson d).length > 0) := by
        rw [hSlen]
        exact hSl
      by_cases hKl : (secSchemesJson d).length > 0
      · rw [if_pos (Or.inr hKl)]
        rw [getF_cons_self, Option.some_bind, getField_obj]
        rw [if_neg hz, if_pos hKl]
        rw [List.nil_append]
        rw [getF_cons_ne _ _ _ _ (by decide)]
        rfl
      · rw [if_neg (by simp [hz, hKl])]
        rfl
  have hCK : ((Json.obj L).getField? "components").bind
      (fun x => x.getField? "securitySchemes") =
      (if d.securitySchemes.length > 0 then
        some (Json.obj (d.securitySchemes.map
          (fun e => (e.2.name, serializeSecurityScheme e.2))))
      else none) := by
    rw [getField_obj, hL]
    rw [getF_cons_ne _ _ _ _ (by decide), getF_cons_ne _ _ _ _ (by decide),
      getF_cons_ne _ _ _ _ (by decide)]
    rw [List.append_assoc]
    rw [getF_blk_ne _ _ _ _ hsbShape (by decide)]
    rw [getF_blk_ne _ _ _ _ htbShape (by decide)]
    rw [hcb]
    by_cases hKl : (secSchemesJson d).length > 0
    · rw [if_pos (Or.inr hKl)]
      rw [getF_cons_self, Option.some_bind, getField_obj]
      rw [getF_blk_ne _ _ _ _ hisShape (by decide)]
      rw [if_pos hKl]
      rw [getF_cons_self, hKJ]
      rw [if_pos (by rw [← hKlen]; exact hKl)]
    · have hKz : ¬(d.securitySchemes.length > 0) := by
        rw [← hKlen]
        exact hKl
      rw [if_neg hKz]
      by_cases hSl : (schemasJson d).length > 0
      · rw [if_pos (Or.inl hSl)]
        rw [getF_cons_self, Option.some_bind, getField_obj]
        rw [getF_blk_ne _ _ _ _ hisShape (by decide)]
        rw [if_neg hKl]
        rfl
      · rw [if_neg (by simp [hSl, hKl])]
        rfl
  have hCSF := fieldsOfIf
    (d.schemas.map (fun e => (e.2.name.getD "", serializeSchema e.2 d)))
    (d.schemas.length > 0)
  have hEnil : ¬(d.schemas.length > 0) →
      d.schemas.map (fun e => (e.2.name.getD "", serializeSchema e.2 d)) = [] := by
    intro hc
    rw [List.length_eq_zero.mp (Nat.eq_zero_of_not_pos hc)]
    rfl
  have hReg := matchIfRegister
    (d.schemas.map (fun e => (e.2.name.getD "", serializeSchema e.2 d)))
    (d.schemas.length > 0)
    (parseInfo (infoJsonOf d.info) { errors := [], ctr := 1 }).2
    hEnil
    (fun k _ => rfl)
    (by
      rw [List.map_map]
      exact hnamesNodup)
  rw [parseInfo_ctr, List.map_map] at hReg
  have hkeys : List.map (Prod.fst ∘ fun e => (e.2.name.getD "", serializeSchema e.2 d))
      d.schemas = List.map (fun e => e.2.name.getD "") d.schemas := rfl
  -- collapse the parse
  simp only [parsedDoc, parseYamlValue, hO,
    show jsTruthy (Json.str "3.0.3") = true from rfl,
    show charsStartWith "3.".data "3.0.3".data = true from rfl,
    if_true, createEmptyDocument, generateId, hI, hP, pathsJsonOf, hCS, hCSF, hCK,
    Nat.zero_add, hSrvVal, hTagVal, hReg, hkeys]
  have hPrs := matchIfParseSchemas
    (d.schemas.map (fun e => (e.2.name.getD "", serializeSchema e.2 d)))
    (d.schemas.length > 0)
    (regFrom (d.schemas.map (fun e => e.2.name.getD "")) 1)
    { (parseInfo (infoJsonOf d.info) { errors := [], ctr := 1 }).2 with
      ctr := 1 + (d.schemas.map (fun e =>
        (e.2.name.getD "", serializeSchema e.2 d))).length }
    hEnil
  simp only [hPrs]
  refine ⟨_, rfl, ?_⟩
  simp only [canonDoc, CanonDoc.mk.injEq]
  refine ⟨?_, ?_, ?_, ?_, ?_, ?_⟩
  · rw [Option.getD_some]
    exact roundInfo d.info hinfo _
  · exact serversMatch_eval d hserv
  · refine routesRound d _ _ ?_ ?_ hrts hpair _
    · refine (schemasRoutesFacts d ?_
        { errors := (parseInfo (infoJsonOf d.info) { errors := [], ctr := 1 }).2.errors,
          ctr := 1 + (List.map (fun e =>
            (e.2.name.getD "", serializeSchema e.2 d)) d.schemas).length }
        hschAll hnamesNodup ?hd1).2.1
      case hd1 => rfl
    · exact serializeSchemaOrRef_truthy d
  · refine (schemasRoutesFacts d ?_
      { errors := (parseInfo (infoJsonOf d.info) { errors := [], ctr := 1 }).2.errors,
        ctr := 1 + (List.map (fun e =>
          (e.2.name.getD "", serializeSchema e.2 d)) d.schemas).length }
      hschAll hnamesNodup ?hd3).1
    case hd3 => rfl
  · exact secMatch_eval d _ hsec
  · exact tagsMatch_eval d htags

/-- A concrete well-formed document exercising the amended round trip. -/
def c3WitnessDoc : ApiDocument :=
  { id := 0,
    info := { title := "T", version := "1", description := none,
              termsOfService := none, contact := none, license := none },
    servers := [], routes := [], schemas := [], securitySchemes := [],
    tags := [] }

/-- Witness: the amended round-trip theorem applied to a concrete
well-formed document, with its hypothesis discharged by evaluation. -/
theorem C3_witness : wfDoc c3WitnessDoc = true ∧
    ∃ d', parsedDoc (serializeDocument c3WitnessDoc) = some d' ∧
      canonDoc d' = canonDoc c3WitnessDoc :=
  ⟨by decide, C3_amended c3WitnessDoc (by decide)⟩
